import Mathlib

/-!
Verification development for the `minim` template engine
(`template.py`: lexer, fragment classifier, scope-stack compiler,
node tree, and the context-propagating renderer).

The Python source is shallowly embedded below.  Conventions:

* Python strings are Lean `String`s; character-level algorithms
  (the token regex split, `str.replace`, `str.strip`, `str.split`)
  are implemented on `List Char` and wrapped.
* Python dictionaries used as render contexts are association lists
  with first-match lookup; `d.copy()` followed by `d.update(kvs)` is
  embedded as prepending the (reversed) new bindings, which preserves
  lookup behaviour exactly; contexts are never iterated elsewhere.
* Fallible Python code (exceptions) is embedded with `Except Err`.
  Each `Err` constructor names the Python exception it stands for.
* `eval(expr, context, {})` evaluates arbitrary host expressions; it
  is modelled (`pyEval`) on the sublanguage actually used by template
  expressions in this development: integer literals, quoted string
  literals, `True`/`False`/`None`, and bare identifiers looked up in
  the context.  Anything else is an evaluation failure, as is an
  unbound name (Python `NameError`).  (Python would additionally
  resolve builtins; no template here names a builtin.)
* File access for `{% extends %}` / `{% include %}` is delegated by
  the source to `os.path.isfile`/`open`; it is embedded as an explicit
  `loader : String → Option String` argument mapping a template
  reference to its (post `remove_newlines` transform) source text,
  `none` meaning "no such file", in which case — exactly as in
  `Compiler.add_content` — the reference string itself is compiled as
  template source.
* The renderer threads three pieces of mutable state explicitly: the
  node being rendered (the source mutates node fields during render),
  the `MiniTemplate` instance state (`has_ancestor`, `block_dicts`),
  and a fuel parameter bounding call depth (Python's recursion limit;
  exhaustion is the distinguished error `Err.outOfFuel`).
-/

namespace Minim

/-! ## Python string primitives (on `List Char`) -/

/-- Python whitespace for `str.strip` / `\s`. -/
def isPyWs (c : Char) : Bool :=
  c = ' ' || c = '\t' || c = '\n' || c = '\r' || c = '\x0b' || c = '\x0c'

/-- `str.strip()` on a character list. -/
def stripL (l : List Char) : List Char :=
  ((l.dropWhile isPyWs).reverse.dropWhile isPyWs).reverse

/-- `str.strip()`. -/
def pyStrip (s : String) : String := ⟨stripL s.data⟩

theorem length_dropWhile_le (p : Char → Bool) (l : List Char) :
    (l.dropWhile p).length ≤ l.length := by
  induction l with
  | nil => simp
  | cons c cs ih =>
    by_cases h : p c <;> simp [List.dropWhile_cons, h] <;> omega

/-- Python `str.replace(pat, rep)` (all occurrences, left to right,
non-overlapping); the source's patterns are all non-empty.  Structural
recursion on a character-count fuel so that the definition is
kernel-reducible; every step consumes at least one character, so the
wrapper's fuel (the input length) can never run out. -/
def replaceGo (pat rep : List Char) : Nat → List Char → List Char
  | 0, l => l
  | _ + 1, [] => []
  | fuel + 1, c :: cs =>
    if pat ≠ [] ∧ pat.isPrefixOf (c :: cs) then
      rep ++ replaceGo pat rep fuel (cs.drop (pat.length - 1))
    else
      c :: replaceGo pat rep fuel cs

def replaceL (pat rep l : List Char) : List Char := replaceGo pat rep l.length l

/-- Python `str.replace`. -/
def pyReplace (s pat rep : String) : String := ⟨replaceL pat.data rep.data s.data⟩

/-- `str.split(sep)` for a single-character separator (keeps empty pieces),
as used for `fragment.split('|')` and `arg.split('=')`. -/
def splitOnCharL (sep : Char) : List Char → List (List Char)
  | [] => [[]]
  | c :: cs =>
    let rest := splitOnCharL sep cs
    if c = sep then [] :: rest
    else
      match rest with
      | [] => [[c]]
      | r :: rs => (c :: r) :: rs

/-- `str.split(sep)` (single-character separator). -/
def pySplitOn (s : String) (sep : Char) : List String :=
  (splitOnCharL sep s.data).map (⟨·⟩)

/-- Helper for `str.split()`: accumulates the current word (reversed). -/
def pySplitWsGo (acc : List Char) : List Char → List (List Char)
  | [] => if acc.isEmpty then [] else [acc.reverse]
  | c :: cs =>
    if isPyWs c then
      if acc.isEmpty then pySplitWsGo [] cs else acc.reverse :: pySplitWsGo [] cs
    else pySplitWsGo (c :: acc) cs

/-- `str.split()` with no arguments: splits on whitespace runs and drops
empty pieces. -/
def pySplitWs (s : String) : List String := (pySplitWsGo [] s.data).map (⟨·⟩)

/-- `re.split(r'\s+', s, maxsplit=1)`: split at the first whitespace run.
Used by `_Set.process_fragment` (its input is already stripped, so the
leading-empty-piece case of `re.split` cannot occur there). -/
def reSplitWsOnceL (l : List Char) : List (List Char) :=
  let before := l.takeWhile (fun c => ¬ isPyWs c)
  let rest := l.dropWhile (fun c => ¬ isPyWs c)
  match rest with
  | [] => [before]
  | _ => [before, rest.dropWhile isPyWs]

def reSplitWsOnce (s : String) : List String := (reSplitWsOnceL s.data).map (⟨·⟩)

/-- Locate the first occurrence of the literal `"and"`: returns the
characters before it and those after it. -/
def findAnd : List Char → Option (List Char × List Char)
  | [] => none
  | c :: cs =>
    if c = 'a' ∧ ['n', 'd'].isPrefixOf cs then some ([], cs.drop 2)
    else (findAnd cs).map (fun p => (c :: p.1, p.2))

theorem findAnd_length : ∀ l b a, findAnd l = some (b, a) → a.length < l.length := by
  intro l
  induction l with
  | nil => intro b a h; simp [findAnd] at h
  | cons c cs ih =>
    intro b a h
    simp only [findAnd] at h
    split at h
    · injection h with h'
      cases h'
      simp only [List.length_drop, List.length_cons]
      omega
    · rcases hb : findAnd cs with _ | ⟨b', a'⟩
      · rw [hb] at h; exact Option.noConfusion h
      · rw [hb] at h
        have h1 : a = a' := by
          have : (c :: b', a') = (b, a) := by injection h
          cases this; rfl
        have := ih b' a' hb
        rw [h1]
        simp only [List.length_cons]
        omega

/-- `re.split(r'\s*and\s*', s)`: split at each `"and"` occurrence,
consuming adjacent whitespace (the `\s*` being optional, a bare `"and"`
splits even inside a word, faithfully to the regex).  Fuel-structural
for kernel reducibility; each step strictly shrinks the input, so the
wrapper's fuel suffices. -/
def splitAndGo : Nat → List Char → List (List Char)
  | 0, l => [l]
  | fuel + 1, l =>
    match findAnd l with
    | none => [l]
    | some (before, after) =>
      (before.reverse.dropWhile isPyWs).reverse :: splitAndGo fuel (after.dropWhile isPyWs)

def splitAndL (l : List Char) : List (List Char) := splitAndGo l.length l

def splitAnd (s : String) : List String := (splitAndL s.data).map (⟨·⟩)

/-! ## Values and contexts

`Value` is the dynamic value universe the renderer manipulates: the
Python types produced by the modelled expression sublanguage and by the
filters, plus the per-iteration `loop` helper object of `_For.render`
(its four attributes, read off at the moment the loop body is rendered).
-/

inductive Value where
  | vStr (s : String)
  | vInt (n : Int)
  | vBool (b : Bool)
  | vNone
  | vList (l : List Value)
  | vLoop (length index : Nat) (first last : Bool)

open Value

/-- Render context: ordered mapping from names to values, first match
wins on lookup (`dict` lookup). -/
abbrev Ctx := List (String × Value)

/-- `context[k]` / `context.get(k)`. -/
def ctxLookup (ctx : Ctx) (k : String) : Option Value :=
  match ctx with
  | [] => none
  | (k', v) :: rest => if k' = k then some v else ctxLookup rest k

/-- `context.get(k, default)`. -/
def ctxGetD (ctx : Ctx) (k : String) (d : Value) : Value :=
  (ctxLookup ctx k).getD d

/-- `new = context.copy(); new.update(dict_of kvs)`: later bindings in
`kvs` shadow earlier ones and all shadow `ctx`. -/
def ctxUpdate (ctx : Ctx) (kvs : List (String × Value)) : Ctx :=
  kvs.reverse ++ ctx

/-- Python truthiness (`bool(v)`) for the embedded values.  The `loop`
helper is a class object, hence truthy. -/
def pyFalsy : Value → Bool
  | vStr s => s = ""
  | vInt n => n = 0
  | vBool b => ¬ b
  | vNone => true
  | vList l => l.isEmpty
  | vLoop _ _ _ _ => false

mutual

/-- Python `repr` (used by `str` on lists), approximated: strings are
quoted without escape processing; no template in this development
stringifies a nested list. -/
def pyRepr : Value → String
  | vStr s => "'" ++ s ++ "'"
  | vInt n => toString n
  | vBool b => if b then "True" else "False"
  | vNone => "None"
  | vList l => "[" ++ String.intercalate ", " (pyReprList l) ++ "]"
  | vLoop _ _ _ _ => "<class '_Loop'>"

def pyReprList : List Value → List String
  | [] => []
  | v :: vs => pyRepr v :: pyReprList vs

end

/-- Python `str(v)`. -/
def pyStr : Value → String
  | vStr s => s
  | vInt n => toString n
  | vBool b => if b then "True" else "False"
  | vNone => "None"
  | vList l => "[" ++ String.intercalate ", " (pyReprList l) ++ "]"
  | vLoop _ _ _ _ => "<class '_Loop'>"

/-- Python `len(v)`: defined for sequences, `none` models `TypeError`. -/
def pyLen : Value → Option Nat
  | vStr s => some s.length
  | vList l => some l.length
  | _ => none

/-- Python iteration (`enumerate(items)`): lists yield their elements,
strings their characters; `none` models `TypeError`. -/
def pyIter : Value → Option (List Value)
  | vList l => some l
  | vStr s => some (s.data.map (fun c => vStr ⟨[c]⟩))
  | _ => none

/-! ## The modelled expression evaluator (`eval(expr, context, {})`) -/

def isIdentL (l : List Char) : Bool :=
  match l with
  | [] => false
  | c :: cs => (c.isAlpha || c = '_') && cs.all (fun x => x.isAlphanum || x = '_')

def isDigits (l : List Char) : Bool :=
  l ≠ [] && l.all Char.isDigit

def digitsToNat (l : List Char) : Nat :=
  l.foldl (fun acc c => acc * 10 + (c.toNat - '0'.toNat)) 0

/-- Is `l` an integer literal (optional sign)? -/
def isIntLitL (l : List Char) : Bool :=
  match l with
  | '-' :: rest => isDigits rest
  | _ => isDigits l

def parseIntL (l : List Char) : Int :=
  match l with
  | '-' :: rest => - (digitsToNat rest : Int)
  | _ => (digitsToNat l : Int)

/-- Is `l` a quoted string literal (single or double quotes)? -/
def isStrLitL (l : List Char) : Bool :=
  match l with
  | [] => false
  | [_] => false
  | c :: cs => (c = '\'' || c = '"') && cs.getLast? = some c &&
      (cs.dropLast.all (fun x => x ≠ c))

/-- `eval(expr, context, {})` on the modelled sublanguage; `none` is an
evaluation failure (`NameError` for an unbound identifier,
`SyntaxError` otherwise). -/
def pyEval (e : String) (ctx : Ctx) : Option Value :=
  let t := stripL e.data
  if t.isEmpty then none
  else if t = "True".data then some (vBool true)
  else if t = "False".data then some (vBool false)
  else if t = "None".data then some vNone
  else if isIntLitL t then some (vInt (parseIntL t))
  else if isStrLitL t then some (vStr ⟨t.drop 1 |>.dropLast⟩)
  else if isIdentL t then ctxLookup ctx ⟨t⟩
  else none

/-- `ast.literal_eval` wrapped as in the source's `literal_eval` helper:
`ValueError` (a well-formed name that is not a literal) falls back to
returning the expression string itself; other failures propagate as
`SyntaxError` (`none`). -/
def literalEval (e : String) : Option Value :=
  let t := stripL e.data
  if t = "True".data then some (vBool true)
  else if t = "False".data then some (vBool false)
  else if t = "None".data then some vNone
  else if isIntLitL t then some (vInt (parseIntL t))
  else if isStrLitL t then some (vStr ⟨t.drop 1 |>.dropLast⟩)
  else if isIdentL t then some (vStr e)
  else none

/-! ## HTML escaping -/

/-- `html_escape`: escapes `&ltgt` and both quote characters, ampersand
first, exactly as the chained `str.replace` calls in the source. -/
def htmlEscape (s : String) : String :=
  pyReplace (pyReplace (pyReplace (pyReplace (pyReplace s
    "&" "&amp;") "<" "&lt;") ">" "&gt;") "\"" "&quot;") "'" "&#039;"

/-- `do_unescape` (the function registered as the `safe` filter):
replaces the five HTML entities by their literal characters, ampersand
entity first, exactly as the chained `str.replace` calls. -/
def unescapeStr (s : String) : String :=
  pyReplace (pyReplace (pyReplace (pyReplace (pyReplace s
    "&amp;" "&") "&lt;" "<") "&gt;" ">") "&quot;" "\"") "&#039;" "'"

/-! ## Lexer (`TOK_REGEX.split` + `Compiler.each_fragment`) -/

/-- The three delimiter pairs of `TOK_REGEX`: maps an opening
two-character marker to its closing marker. -/
def openerOf (c₁ c₂ : Char) : Option (Char × Char) :=
  if c₁ = '{' ∧ c₂ = '{' then some ('}', '}')
  else if c₁ = '{' ∧ c₂ = '%' then some ('%', '}')
  else if c₁ = '{' ∧ c₂ = '#' then some ('#', '}')
  else none

/-- Non-greedy search for the two-character closer `d₁d₂`: splits `l`
into the characters before the first occurrence and those after it. -/
def findClose (d₁ d₂ : Char) : List Char → Option (List Char × List Char)
  | x :: y :: rest =>
    if x = d₁ ∧ y = d₂ then some ([], rest)
    else (findClose d₁ d₂ (y :: rest)).map (fun p => (x :: p.1, p.2))
  | _ => none

theorem findClose_spec (d₁ d₂ : Char) :
    ∀ l i r, findClose d₁ d₂ l = some (i, r) → l = i ++ d₁ :: d₂ :: r := by
  intro l
  induction l with
  | nil => intro i r h; simp [findClose] at h
  | cons x t ih =>
    intro i r h
    match t with
    | [] => simp [findClose] at h
    | y :: rest =>
      simp only [findClose] at h
      split at h
      · rename_i hxy
        have h1 : ([] : List Char) = i ∧ rest = r := by
          have : (([] : List Char), rest) = (i, r) := by injection h
          cases this; exact ⟨rfl, rfl⟩
        rcases h1 with ⟨hi, hr⟩
        subst hi; subst hr
        rcases hxy with ⟨hx, hy⟩
        subst hx; subst hy
        rfl
      · rcases hfc : findClose d₁ d₂ (y :: rest) with _ | ⟨i', r'⟩
        · rw [hfc] at h; exact Option.noConfusion h
        · rw [hfc] at h
          have h1 : x :: i' = i ∧ r' = r := by
            have : (x :: i', r') = (i, r) := by injection h
            cases this; exact ⟨rfl, rfl⟩
          rcases h1 with ⟨hi, hr⟩
          subst hi; subst hr
          have := ih i' r' hfc
          simp [this]

theorem findClose_length (d₁ d₂ : Char) (l i r : List Char)
    (h : findClose d₁ d₂ l = some (i, r)) : r.length + 2 ≤ l.length := by
  have := findClose_spec d₁ d₂ l i r h
  subst this
  simp

/-- Flush the pending-text accumulator (held reversed) as at most one
fragment; empty pieces of the split are discarded (`if fragment:`). -/
def flushAcc (acc : List Char) : List (List Char) :=
  if acc.isEmpty then [] else [acc.reverse]

/-- The `TOK_REGEX.split` scan: leftmost two-character opening marker
with a later matching closer starts a delimited token (non-greedy);
everything else accumulates as literal text.  Produces the non-empty
pieces, in order (`Compiler.each_fragment` discards empty pieces).
Fuel-structural for kernel reducibility; every step strictly shrinks
the remaining input, so the wrapper's fuel can never run out. -/
def tokGo : Nat → List Char → List Char → List (List Char)
  | 0, acc, l => flushAcc (l.reverse ++ acc)
  | fuel + 1, acc, l =>
    match l with
    | c₁ :: c₂ :: rest =>
      match openerOf c₁ c₂ with
      | some (d₁, d₂) =>
        match findClose d₁ d₂ rest with
        | some (inside, after) =>
          flushAcc acc ++ (c₁ :: c₂ :: (inside ++ [d₁, d₂])) :: tokGo fuel [] after
        | none => tokGo fuel (c₁ :: acc) (c₂ :: rest)
      | none => tokGo fuel (c₁ :: acc) (c₂ :: rest)
    | [c] => flushAcc (c :: acc)
    | [] => flushAcc acc

/-- `TOK_REGEX.split(source)` with empty pieces discarded. -/
def tokenize (s : String) : List String := (tokGo s.data.length [] s.data).map (⟨·⟩)

/-! ## Fragments (`_Fragment`) -/

/-- A lexed fragment: the raw text and its cleaned form
(`_Fragment.raw` / `_Fragment.clean`). -/
structure Fragment where
  raw : String
  clean : String
deriving DecidableEq, Repr

/-- Python slice `[2:-2]`. -/
def sliceTwoTwo (l : List Char) : List Char := (l.take (l.length - 2)).drop 2

/-- `_Fragment.clean_fragment`: for fragments opening with `{{` or `{%`,
`raw.strip()[2:-2].strip()`; otherwise the raw text itself. -/
def cleanFragment (raw : String) : String :=
  match raw.data with
  | c₁ :: c₂ :: _ =>
    if (c₁ = '{' ∧ c₂ = '{') ∨ (c₁ = '{' ∧ c₂ = '%') then
      ⟨stripL (sliceTwoTwo (stripL raw.data))⟩
    else raw
  | _ => raw

def mkFragment (raw : String) : Fragment := ⟨raw, cleanFragment raw⟩

/-- `VAR_FRAGMENT` … `COMMENT_FRAGMENT`. -/
inductive FragType where
  | varF | openF | closeF | commentF | textF
deriving DecidableEq, Repr

/-- `_Fragment.type`: dispatch on the first two raw characters; a block
fragment whose cleaned text starts with `end` is a close fragment. -/
def fragType (f : Fragment) : FragType :=
  match f.raw.data with
  | '{' :: '{' :: _ => .varF
  | '{' :: '%' :: _ => if f.clean.data.take 3 = "end".data then .closeF else .openF
  | '{' :: '#' :: _ => .commentF
  | _ => .textF

/-- `Compiler.each_fragment`. -/
def eachFragment (s : String) : List Fragment := (tokenize s).map mkFragment

/-! ## Errors -/

/-- The failure modes of compilation and rendering.  The first three are
the source's own exception classes; the rest name the built-in Python
exceptions the source lets escape; `outOfFuel` is the embedding of
Python's recursion limit for the render call depth. -/
inductive Err where
  | templateError (msg : String)
  | syntaxError (frag : String)
  | filterError (name : String)
  | attributeError (name : String)
  | indexError
  | valueError
  | typeError
  | evalError (expr : String)
  | outOfFuel
deriving DecidableEq, Repr

/-! ## The node model

One constructor per `_Node` subclass (`variableN` stands for
`_Variable`, whose natural name is a Lean keyword).  Scope-owning
variants carry their cleaned source fragment (`self.frag`, used in
error messages), the cleaned close token (`end_tok.clean`; `none` when
the scope was never closed, i.e. the Python attribute is unset), and
their children.  `_For`/`_If` additionally carry the `branches`
partition computed by `exit_scope` (`none` when `exit_scope` never ran).
A `_Raw` node's children are opaque raw strings, exactly as in the
source.  A `_Variable` carries the parsed expression, the
has-filter flag, and the parsed `callbacks` pipeline
`(name, args, kwargs)`. -/
inductive Node where
  | text (s : String)
  | variableN (varExpr : String) (hasFilter : Bool)
      (callbacks : List (String × List Value × List (String × Value)))
  | comment
  | setN (frag : String) (args : List String) (endTok : Option String)
      (children : List Node)
  | forN (frag : String) (loopVar rawExpr : String) (endTok : Option String)
      (children : List Node) (branches : Option (List Node × List Node))
  | emptyN
  | ifN (frag : String) (expr : String) (endTok : Option String)
      (children : List Node) (branches : Option (List (String × List Node)))
  | elifN (expr : String)
  | elseN
  | rawN (frag : String) (endTok : Option String) (rawChildren : List String)
  | escapeN (frag : String) (direc : String) (endTok : Option String)
      (children : List Node)
  | blockN (frag : String) (name : String) (endTok : Option String)
      (children : List Node)
  | extendsN (filename : String)
  | includeN (filename : String)
  | rootN (children : List Node)

/-! ## Variable-tag parsing (`_Variable.process_fragment`) -/

/-- One parsed pipeline entry: filter name, positional arguments,
keyword arguments. -/
abbrev Callback := String × List Value × List (String × Value)

/-- Parse one `name=literal` keyword parameter or one positional
literal, accumulating into `(args, kwargs)` as the source's loop does. -/
def parseParam (its : List String) : Except Err (List Value × List (String × Value)) :=
  match its with
  | [] => .ok ([], [])
  | it :: rest => do
    let (args, kwargs) ← parseParam rest
    if it.data.contains '=' then
      match pySplitOn it '=' with
      | [ls, rs] =>
        match literalEval (pyStrip rs) with
        | some v => .ok (args, (pyStrip ls, v) :: kwargs)
        | none => .error (.evalError rs)
      | _ => .error .valueError
    else
      match literalEval it with
      | some v => .ok (v :: args, kwargs)
      | none => .error (.evalError it)

/-- `_Variable.resolve_filter` for a single (already trimmed) pipeline
entry: split on the greedy parenthesis group `(\(.*\))`, then parse the
comma-separated parameters with `literal_eval`. -/
def parseFilterFunc (func : String) : Except Err Callback :=
  let l := func.data
  match l.findIdx? (· = '('), l.reverse.findIdx? (· = ')') with
  | some i, some jr =>
    let j := l.length - 1 - jr
    if i < j then
      let name : String := ⟨l.take i⟩
      let params := (l.take j).drop (i + 1)
      if params.isEmpty then .ok (name, [], [])
      else do
        let (args, kwargs) ← parseParam ((splitOnCharL ',' params).map (⟨·⟩))
        .ok (name, args, kwargs)
    else .ok (func, [], [])
  | _, _ => .ok (func, [], [])

/-- `_Variable.process_fragment`: split the tag body on `|`; the head is
the expression, the rest the filter pipeline. -/
def parseVariable (clean : String) : Except Err Node :=
  let bits := pySplitOn clean '|'
  let v := pyStrip (bits.headD "")
  if bits.length > 1 then do
    let cbs ← ((bits.drop 1).map pyStrip).mapM parseFilterFunc
    .ok (.variableN v true cbs)
  else .ok (.variableN v false [])

/-! ## Compiler (`Compiler.compile`) -/

/-- A scope-stack entry: an open scope node under construction with the
children collected so far (`_Raw` collects raw strings). -/
inductive Frame where
  | rootF (cs : List Node)
  | setF (frag : String) (args : List String) (cs : List Node)
  | forF (frag loopVar rawExpr : String) (cs : List Node)
  | ifF (frag expr : String) (cs : List Node)
  | rawF (frag : String) (rs : List String)
  | escF (frag direc : String) (cs : List Node)
  | blockF (frag name : String) (cs : List Node)

/-- Result of `Compiler.create_node`: either a completed leaf node or a
scope-creating node, which opens a new frame. -/
inductive Created where
  | leaf (n : Node)
  | opener (f : Frame)

/-- `_For.split_children`, main branch: collect up to the first
`_Empty` child. -/
def splitForGo : List Node → List Node × List Node
  | [] => ([], [])
  | .emptyN :: rest => ([], collectEmptyBranch rest)
  | c :: rest =>
    let p := splitForGo rest
    (c :: p.1, p.2)
where
  /-- After the first `_Empty`: remaining children, further `_Empty`
  markers skipped. -/
  collectEmptyBranch : List Node → List Node
    | [] => []
    | .emptyN :: rest => collectEmptyBranch rest
    | c :: rest => c :: collectEmptyBranch rest

/-- `_If.split_children`: partition children into
`(condition, branch)` pairs at `_Elif`/`_Else` markers (`_Else`
carries the literal-true condition `"1"`). -/
def splitIfGo (expr : String) (cur : List Node) : List Node → List (String × List Node)
  | [] => [(expr, cur)]
  | .elifN e :: rest => (expr, cur) :: splitIfGo e [] rest
  | .elseN :: rest => (expr, cur) :: splitIfGo "1" [] rest
  | c :: rest => splitIfGo expr (cur ++ [c]) rest

/-- Close a frame into a finished node.  `tok` is the cleaned close
fragment (`save_end_tok`); it is present exactly when the scope was
closed by a close fragment, in which case `exit_scope` runs (computing
`branches` for `_For`/`_If`).  At end of input open frames are
finalized with `tok = none`: the Python objects simply lack the
`end_tok`/`branches` attributes. -/
def finishFrame (fr : Frame) (tok : Option String) : Node :=
  match fr with
  | .rootF cs => .rootN cs
  | .setF frag args cs => .setN frag args tok cs
  | .forF frag lv ex cs =>
    .forN frag lv ex tok cs (match tok with | some _ => some (splitForGo cs) | none => none)
  | .ifF frag e cs =>
    .ifN frag e tok cs (match tok with | some _ => some (splitIfGo e [] cs) | none => none)
  | .rawF frag rs => .rawN frag tok rs
  | .escF frag d cs => .escapeN frag d tok cs
  | .blockF frag name cs => .blockN frag name tok cs

/-- Append a completed child node to a frame
(`parent_scope.children.append(new_node)`). -/
def addChild (fr : Frame) (n : Node) : Frame :=
  match fr with
  | .rootF cs => .rootF (cs ++ [n])
  | .setF frag args cs => .setF frag args (cs ++ [n])
  | .forF frag lv ex cs => .forF frag lv ex (cs ++ [n])
  | .ifF frag e cs => .ifF frag e (cs ++ [n])
  | .rawF frag rs => .rawF frag rs
  | .escF frag d cs => .escF frag d (cs ++ [n])
  | .blockF frag name cs => .blockF frag name (cs ++ [n])

/-- `Compiler.create_node`: dispatch on the fragment type and, for open
block fragments, on the first word of the cleaned text.  Each branch
reproduces the corresponding `process_fragment`, including which
failures are wrapped as `TemplateSyntaxError` and which Python errors
escape unwrapped. -/
def createNode (f : Fragment) : Except Err Created :=
  match fragType f with
  | .textF => .ok (.leaf (.text f.clean))
  | .varF => (parseVariable f.clean).map .leaf
  | .commentF => .ok (.leaf .comment)
  | .closeF => .error (.syntaxError f.clean)
  | .openF =>
    match pySplitWs f.clean with
    | [] => .error .indexError
    | cmd :: restWords =>
      if cmd = "extends" then
        match restWords with
        | w :: _ => .ok (.leaf (.extendsN w))
        | [] => .error .indexError
      else if cmd = "block" then
        match restWords with
        | w :: _ => .ok (.opener (.blockF f.clean w []))
        | [] => .error .indexError
      else if cmd = "include" then
        match restWords with
        | w :: _ => .ok (.leaf (.includeN w))
        | [] => .error .indexError
      else if cmd = "for" then
        match restWords with
        | lv :: _ :: ex :: _ => .ok (.opener (.forF f.clean lv ex []))
        | _ => .error (.syntaxError f.clean)
      else if cmd = "empty" then .ok (.leaf .emptyN)
      else if cmd = "if" then
        match restWords with
        | e :: _ => .ok (.opener (.ifF f.clean e []))
        | [] => .error (.syntaxError f.clean)
      else if cmd = "elif" then
        match restWords with
        | e :: _ => .ok (.leaf (.elifN e))
        | [] => .error (.syntaxError f.clean)
      else if cmd = "else" then .ok (.leaf .elseN)
      else if cmd = "set" then
        match reSplitWsOnce f.clean with
        | [_, expr] => .ok (.opener (.setF f.clean (splitAnd expr) []))
        | _ => .error (.syntaxError f.clean)
      else if cmd = "raw" then .ok (.opener (.rawF f.clean []))
      else if cmd = "escape" then
        match restWords with
        | d :: _ =>
          if d = "on" ∨ d = "off" ∨ d = "ON" ∨ d = "OFF" then
            .ok (.opener (.escF f.clean d []))
          else .error (.syntaxError f.clean)
        | [] => .error (.syntaxError f.clean)
      else .error (.syntaxError f.clean)

/-- End of input (`Compiler.compile` falling off its loop): the root is
returned as-is; any still-open frames were appended to their parents at
creation time in Python, so they are finalized here without an
`end_tok` and without running `exit_scope`. -/
def finalizeGo : Nat → List Frame → Except Err Node
  | 0, _ => .error (.templateError "nesting issues")
  | _ + 1, [] => .error (.templateError "nesting issues")
  | _ + 1, [.rootF cs] => .ok (.rootN cs)
  | _ + 1, [_] => .error (.templateError "nesting issues")
  | fuel + 1, top :: p :: rest => finalizeGo fuel (addChild p (finishFrame top none) :: rest)

def finalize (stack : List Frame) : Except Err Node := finalizeGo stack.length stack

/-- The `Compiler.compile` loop over the fragment stream, with the
explicit scope stack (head = current scope).  Faithful details: a close
fragment other than `endraw` inside `_Raw` is kept as verbatim raw
text; a close fragment at root level hits `_Root`'s missing
`save_end_tok` (`AttributeError`); any close token is accepted for any
scope (mismatches surface at render time); inside `_Raw`, a created
node is discarded and the raw text stored instead. -/
def compileFrags : List Fragment → List Frame → Except Err Node
  | [], stack => finalize stack
  | _ :: _, [] => .error (.templateError "nesting issues")
  | f :: fs, top :: below =>
    if fragType f = .closeF then
      match top with
      | .rawF frag rs =>
        if f.clean ≠ "endraw" then
          compileFrags fs (.rawF frag (rs ++ [f.raw]) :: below)
        else
          match below with
          | [] => .error (.templateError "nesting issues")
          | p :: rest => compileFrags fs (addChild p (finishFrame top (some f.clean)) :: rest)
      | .rootF _ => .error (.attributeError "save_end_tok")
      | _ =>
        match below with
        | [] => .error (.templateError "nesting issues")
        | p :: rest => compileFrags fs (addChild p (finishFrame top (some f.clean)) :: rest)
    else
      match createNode f with
      | .error e => .error e
      | .ok created =>
        match top with
        | .rawF frag rs => compileFrags fs (.rawF frag (rs ++ [f.raw]) :: below)
        | _ =>
          match created with
          | .leaf n => compileFrags fs (addChild top n :: below)
          | .opener fr => compileFrags fs (fr :: top :: below)

/-- `Compiler.compile` on a source string. -/
def compileSource (s : String) : Except Err Node :=
  compileFrags (eachFragment s) [.rootF []]

/-! ## Filters (`FILTERS` and the built-in filter functions)

A filter is applied as `callback(value, *args, **kwargs)`; `none`
models the call raising (wrong arity, `TypeError`, …), which
`_Variable.render` converts into a `TemplateFilterError`.  The
filters whose behaviour rests on host floats or randomness
(`round`, `float`, `random`) are left unregistered here; no claim and
no template in this development names them. -/

abbrev FilterFn := Value → List Value → List (String × Value) → Option Value

/-- Look up an optionally-keyword argument: positional first, then the
keyword; `none` if absent. -/
def argOrKw (args : List Value) (kwargs : List (String × Value)) (i : Nat) (key : String) :
    Option Value :=
  match args.get? i with
  | some v => some v
  | none => (kwargs.reverse.find? (fun p => p.1 = key)).map (·.2)

/-- `do_unescape`, registered as `safe`. -/
def do_unescape : FilterFn := fun v args kwargs =>
  if args.isEmpty ∧ kwargs.isEmpty then some (vStr (unescapeStr (pyStr v))) else none

/-- `do_trim`. -/
def do_trim : FilterFn := fun v args kwargs =>
  if args.isEmpty ∧ kwargs.isEmpty then some (vStr (pyStrip (pyStr v))) else none

/-- `do_capitalize`. -/
def do_capitalize : FilterFn := fun v args kwargs =>
  if args.isEmpty ∧ kwargs.isEmpty then
    some (vStr (match (pyStr v).data with
      | [] => ""
      | c :: cs => ⟨c.toUpper :: cs.map Char.toLower⟩))
  else none

/-- `do_upper`. -/
def do_upper : FilterFn := fun v args kwargs =>
  if args.isEmpty ∧ kwargs.isEmpty then some (vStr ⟨(pyStr v).data.map Char.toUpper⟩) else none

/-- `do_lower`. -/
def do_lower : FilterFn := fun v args kwargs =>
  if args.isEmpty ∧ kwargs.isEmpty then some (vStr ⟨(pyStr v).data.map Char.toLower⟩) else none

/-- Python slice `s[:k]` for a possibly negative bound. -/
def pySliceTo (l : List Char) (k : Int) : List Char :=
  if k ≥ 0 then l.take k.toNat else l.take (((l.length : Int) + k).toNat)

/-- `str.rsplit(' ', 1)[0]`: everything before the last space, or the
whole string if there is none. -/
def rsplitSpaceHead (l : List Char) : List Char :=
  if l.contains ' ' then (l.reverse.dropWhile (· ≠ ' ')).drop 1 |>.reverse else l

/-- `do_truncate(s, length=255, end='...')`.  Works on strings; a short
sequence is returned unchanged; a long non-string raises
(`AttributeError` on `rsplit`, modelled as `none`). -/
def do_truncate : FilterFn := fun v args kwargs =>
  if args.length + kwargs.length > 2 then none
  else
    let lengthArg := argOrKw args kwargs 0 "length"
    let endArg := argOrKw args kwargs 1 "end"
    match (match lengthArg with | some (vInt n) => some n | some _ => none | none => some 255),
          (match endArg with | some (vStr e) => some e | some _ => none | none => some "...") with
    | some length, some e =>
      match pyLen v with
      | none => none
      | some len =>
        if (len : Int) ≤ length then some v
        else
          match v with
          | vStr s =>
            some (vStr (⟨rsplitSpaceHead (pySliceTo s.data (length - e.length))⟩ ++ e))
          | _ => none
    | _, _ => none

/-- Word-character test for `do_wordcount`'s `\w`. -/
def isWordChar (c : Char) : Bool := c.isAlphanum || c = '_'

/-- Number of maximal word-character runs. -/
def wordRuns : List Char → Nat
  | [] => 0
  | c :: cs =>
    let n := wordRuns cs
    let headNonWord : Bool := match cs with | c' :: _ => ¬ isWordChar c' | [] => true
    if isWordChar c && headNonWord then n + 1 else n

/-- `do_wordcount`: `len(re.split(r'\w+', s))`, which is one more than
the number of word runs (`re.split` pieces). -/
def do_wordcount : FilterFn := fun v args kwargs =>
  if args.isEmpty ∧ kwargs.isEmpty then
    match v with
    | vStr s => some (vInt ((wordRuns s.data : Nat) + 1))
    | _ => none
  else none

/-- `do_int(value, default=0)` (the float-string fallback is outside the
modelled value universe; such inputs take the `default` path). -/
def do_int : FilterFn := fun v args kwargs =>
  if args.length + kwargs.length > 1 then none
  else
    let d := (argOrKw args kwargs 0 "default").getD (vInt 0)
    some (match v with
      | vInt n => vInt n
      | vBool b => vInt (if b then 1 else 0)
      | vStr s => if isIntLitL (stripL s.data) then vInt (parseIntL (stripL s.data)) else d
      | _ => d)

/-- `select_first`. -/
def select_first : FilterFn := fun v args kwargs =>
  if args.isEmpty ∧ kwargs.isEmpty then
    match pyIter v with
    | some (x :: _) => some x
    | some [] => some (vStr "No first item, sequence was empty.")
    | none => none
  else none

/-- `select_last`. -/
def select_last : FilterFn := fun v args kwargs =>
  if args.isEmpty ∧ kwargs.isEmpty then
    match pyIter v with
    | some l =>
      match l.getLast? with
      | some x => some x
      | none => some (vStr "No first item, sequence was empty.")
    | none => none
  else none

/-- `get_length`: `len(seq)`, or `0` when `len` raises. -/
def get_length : FilterFn := fun v args kwargs =>
  if args.isEmpty ∧ kwargs.isEmpty then
    some (vInt ((pyLen v).getD 0 : Nat))
  else none

/-- `format_date` / `format_time` / `time_since` / `time_until` all have
body `pass`: they accept one optional argument and return `None`. -/
def format_stub : FilterFn := fun _ args kwargs =>
  if args.length + kwargs.length ≤ 1 then some vNone else none

/-- `set_default(value, arg)`: `value or arg`. -/
def set_default : FilterFn := fun v args kwargs =>
  match argOrKw args kwargs 0 "arg", args.length + kwargs.length with
  | some a, 1 => some (if pyFalsy v then a else v)
  | _, _ => none

/-- The `FILTERS` registry (its initial, unmutated state). -/
def FILTERS : String → Option FilterFn := fun name =>
  if name = "safe" then some do_unescape
  else if name = "trim" then some do_trim
  else if name = "capitalize" then some do_capitalize
  else if name = "upper" then some do_upper
  else if name = "lower" then some do_lower
  else if name = "truncate" then some do_truncate
  else if name = "wordcount" then some do_wordcount
  else if name = "int" then some do_int
  else if name = "first" then some select_first
  else if name = "last" then some select_last
  else if name = "length" then some get_length
  else if name = "date" then some format_stub
  else if name = "time" then some format_stub
  else if name = "timesince" then some format_stub
  else if name = "timeuntil" then some format_stub
  else if name = "default" then some set_default
  else none

/-! ## Renderer -/

/-- The `MiniTemplate` instance state shared by all nodes
(`self.ins`): `has_ancestor` and `block_dicts`.  `block_dicts` is kept
most-recent-first: Python appends at the end and reads `[-1]` /
`reversed(...)`, which is the head here.  Each dict maps a block name
to its rendered text, first match winning (updates prepend). -/
structure Ins where
  has_ancestor : Bool
  block_dicts : List (List (String × String))
deriving DecidableEq, Repr

/-- The external template loader (see the header note): template
reference → post-transform source text. -/
abbrev Loader := String → Option String

/-- Assoc-list lookup (Python `dict.get`). -/
def dictLookup (d : List (String × String)) (k : String) : Option String :=
  match d with
  | [] => none
  | (k', v) :: rest => if k' = k then some v else dictLookup rest k

/-- `_Block.render`, no-ancestor arm: scan `reversed(block_dicts)` for
the first truthy (non-empty) override of `name`. -/
def findBlockOverride : List (List (String × String)) → String → Option String
  | [], _ => none
  | d :: ds, name =>
    let r := (dictLookup d name).getD ""
    if r ≠ "" then some r else findBlockOverride ds name

/-- Is the escaping-disabled marker set
(`context.get('~>_<~', '') == 'off'`)? -/
def isOffCtx (ctx : Ctx) : Bool :=
  match ctxGetD ctx "~>_<~" (vStr "") with
  | vStr s => s = "off"
  | _ => false

/-- The render-time mismatch message, with the exact formatting of the
source (`'"To match "%s", "end…" is expected, but "%s" was found.'`). -/
def mismatchMsg (frag expected tok : String) : String :=
  "\"To match \"" ++ frag ++ "\", \"" ++ expected ++ "\" is expected, but \"" ++
    tok ++ "\" was found."

/-- The filter pipeline loop of `_Variable.render`: apply each callback
left to right, the running value as first positional argument; a
missing filter or a raising call becomes `TemplateFilterError` naming
the callback. -/
def applyCallbacks : List Callback → Value → Except Err Value
  | [], v => .ok v
  | (name, args, kwargs) :: rest, v =>
    match FILTERS name with
    | none => .error (.filterError name)
    | some f =>
      match f v args kwargs with
      | none => .error (.filterError name)
      | some v' => applyCallbacks rest v'

/-- Does the pipeline name a `safe` filter (`callback_name == 'safe'`)? -/
def hasSafe (cbs : List Callback) : Bool := cbs.any (fun cb => cb.1 = "safe")

/-- `_Variable.render`: evaluate the expression (failure yields `None`
silently), run the pipeline, then HTML-escape the final value unless a
`safe` filter appeared or the context carries the escaping-disabled
marker. -/
def varRender (v : String) (hasFilter : Bool) (cbs : List Callback) (ctx : Ctx) :
    Except Err Value :=
  let value := match pyEval v ctx with | some rv => rv | none => vNone
  if ¬ hasFilter then
    .ok (if isOffCtx ctx then value else vStr (htmlEscape (pyStr value)))
  else
    match applyCallbacks cbs value with
    | .error e => .error e
    | .ok value' =>
      if hasSafe cbs ∨ isOffCtx ctx then .ok value'
      else .ok (vStr (htmlEscape (pyStr value')))

/-- `_Set.render`'s binding loop: each `name=expr` clause is split on
`=` (a clause without exactly one `=` raises `ValueError`), the
expression evaluated against the parent context, and the name bound via
`eval('dict(%s=value,)' % n)` (hence the name must be an identifier). -/
def evalSetArgs : List String → Ctx → Except Err (List (String × Value))
  | [], _ => .ok []
  | arg :: rest, ctx =>
    match pySplitOn arg '=' with
    | [n, vexpr] =>
      match pyEval vexpr ctx with
      | none => .error (.evalError vexpr)
      | some value =>
        let name := pyStrip n
        if isIdentL name.data then
          match evalSetArgs rest ctx with
          | .error e => .error e
          | .ok bs => .ok ((name, value) :: bs)
        else .error (.evalError n)
    | _ => .error .valueError

/-- `_Node.render_children` given the recursive renderer: render each
child in order against the same context, coercing falsy results to the
empty string and everything else through `str`, and concatenate.
Returns the concatenation, the (possibly mutated) children, and the
threaded instance state. -/
def renderListF (rn : Node → Ctx → Ins → Except Err (Value × Node × Ins)) :
    List Node → Ctx → Ins → Except Err (String × List Node × Ins)
  | [], _, ins => .ok ("", [], ins)
  | n :: rest, ctx, ins =>
    match rn n ctx ins with
    | .error e => .error e
    | .ok (v, n', ins₁) =>
      match renderListF rn rest ctx ins₁ with
      | .error e => .error e
      | .ok (s, rest', ins₂) =>
        .ok ((if pyFalsy v then "" else pyStr v) ++ s, n' :: rest', ins₂)

/-- The iteration loop of `_For.render`: for the `i`-th item, a child
context binding the loop variable to the item and `loop` to the helper
with `length`, 1-based `index`, `first`, `last`; the main branch is
rendered against it (picking up the source's in-place child mutations
between iterations); results are concatenated in order. -/
def renderLoopF (rn : Node → Ctx → Ins → Except Err (Value × Node × Ins))
    (loopVar : String) (len : Nat) (ctx : Ctx) :
    List Value → Nat → List Node → Ins → Except Err (String × List Node × Ins)
  | [], _, main, ins => .ok ("", main, ins)
  | x :: xs, i, main, ins =>
    let ctx' := ctxUpdate ctx
      [(loopVar, x), ("loop", vLoop len (i + 1) (decide (i = 0)) (decide (i = len - 1)))]
    match renderListF rn main ctx' ins with
    | .error e => .error e
    | .ok (s, main', ins₁) =>
      match renderLoopF rn loopVar len ctx xs (i + 1) main' ins₁ with
      | .error e => .error e
      | .ok (s₂, main'', ins₂) => .ok (s ++ s₂, main'', ins₂)

/-- `_Root.render`'s ancestor-mode loop: render every `_Block` child
(for its block-dict side effect), leave other children untouched. -/
def renderBlocksF (rn : Node → Ctx → Ins → Except Err (Value × Node × Ins)) :
    List Node → Ctx → Ins → Except Err (List Node × Ins)
  | [], _, ins => .ok ([], ins)
  | c :: cs, ctx, ins =>
    match c with
    | .blockN _ _ _ _ =>
      match rn c ctx ins with
      | .error e => .error e
      | .ok (_, c', ins₁) =>
        match renderBlocksF rn cs ctx ins₁ with
        | .error e => .error e
        | .ok (cs', ins₂) => .ok (c' :: cs', ins₂)
    | _ =>
      match renderBlocksF rn cs ctx ins with
      | .error e => .error e
      | .ok (cs', ins₁) => .ok (c :: cs', ins₁)

/-- `_If.render`'s branch scan: evaluate conditions in order against
the parent context (an evaluation failure propagates); render the first
truthy branch; `None` if none matches. -/
def renderIfF (rn : Node → Ctx → Ins → Except Err (Value × Node × Ins)) :
    List (String × List Node) → Ctx → Ins →
    Except Err (Value × List (String × List Node) × Ins)
  | [], _, ins => .ok (vNone, [], ins)
  | (e, br) :: rest, ctx, ins =>
    match pyEval e ctx with
    | none => .error (.evalError e)
    | some cond =>
      if pyFalsy cond then
        match renderIfF rn rest ctx ins with
        | .error er => .error er
        | .ok (v, rest', ins₁) => .ok (v, (e, br) :: rest', ins₁)
      else
        match renderListF rn br ctx ins with
        | .error er => .error er
        | .ok (s, br', ins₁) => .ok (vStr s, (e, br') :: rest, ins₁)

/-- `_Root.render`, ancestor mode (first or first-after-text child is
`_Extends`): the `_Extends` child has been popped from `children`, a
fresh block dict pushed, `has_ancestor` set; all `_Block` children are
pre-rendered to populate it, then the extends node renders the parent
template in place of the root's own children. -/
def rootAncestorF (rn : Node → Ctx → Ins → Except Err (Value × Node × Ins))
    (ext : Node) (cs : List Node) (ctx : Ctx) (ins : Ins) :
    Except Err (Value × Node × Ins) :=
  let ins₁ : Ins := { has_ancestor := true, block_dicts := [] :: ins.block_dicts }
  match renderBlocksF rn cs ctx ins₁ with
  | .error e => .error e
  | .ok (cs', ins₂) =>
    match rn ext ctx ins₂ with
    | .error e => .error e
    | .ok (v, _, ins₃) => .ok (v, .rootN cs', ins₃)

/-- The render step of every node variant (`render(self, context)`),
threading the mutated node and instance state, with a structural fuel
bound on call depth.  Each arm is a direct transcription of the
corresponding `render` method; see the helper functions for the loops. -/
def renderNode (loader : Loader) : Nat → Node → Ctx → Ins → Except Err (Value × Node × Ins)
  | 0, _, _, _ => .error .outOfFuel
  | fuel + 1, n, ctx, ins =>
    match n with
    | .text s => .ok (vStr s, .text s, ins)
    | .comment => .ok (vStr "", .comment, ins)
    | .emptyN => .ok (vNone, .emptyN, ins)
    | .elifN e => .ok (vNone, .elifN e, ins)
    | .elseN => .ok (vNone, .elseN, ins)
    | .variableN v hf cbs =>
      match varRender v hf cbs ctx with
      | .error e => .error e
      | .ok val => .ok (val, .variableN v hf cbs, ins)
    | .rawN frag endTok rs =>
      match endTok with
      | none => .error (.attributeError "end_tok")
      | some tok =>
        if tok ≠ "endraw" then .error (.templateError (mismatchMsg frag "endraw" tok))
        else .ok (vStr (String.join rs), .rawN frag endTok rs, ins)
    | .setN frag args endTok cs =>
      match endTok with
      | none => .error (.attributeError "end_tok")
      | some tok =>
        if tok ≠ "endset" then .error (.templateError (mismatchMsg frag "endset" tok))
        else
          match evalSetArgs args ctx with
          | .error e => .error e
          | .ok bindings =>
            match renderListF (renderNode loader fuel) cs (ctxUpdate ctx bindings) ins with
            | .error e => .error e
            | .ok (s, cs', ins₁) => .ok (vStr s, .setN frag args endTok cs', ins₁)
    | .escapeN frag d endTok cs =>
      match endTok with
      | none => .error (.attributeError "end_tok")
      | some tok =>
        if tok ≠ "endescape" then .error (.templateError (mismatchMsg frag "endescape" tok))
        else
          let ctx' := if d = "off" ∨ d = "OFF" then ctxUpdate ctx [("~>_<~", vStr "off")] else ctx
          match renderListF (renderNode loader fuel) cs ctx' ins with
          | .error e => .error e
          | .ok (s, cs', ins₁) => .ok (vStr s, .escapeN frag d endTok cs', ins₁)
    | .forN frag lv ex endTok cs br =>
      match endTok with
      | none => .error (.attributeError "end_tok")
      | some tok =>
        if tok ≠ "endfor" then .error (.templateError (mismatchMsg frag "endfor" tok))
        else
          match pyEval ex ctx with
          | none => .error (.evalError ex)
          | some items =>
            match pyLen items with
            | none => .error .typeError
            | some len =>
              match br with
              | none => .error (.attributeError "branches")
              | some (main, em) =>
                if pyFalsy items ∧ ¬ em.isEmpty then
                  match renderListF (renderNode loader fuel) em ctx ins with
                  | .error e => .error e
                  | .ok (s, em', ins₁) =>
                    .ok (vStr s, .forN frag lv ex endTok main (some (main, em')), ins₁)
                else
                  match pyIter items with
                  | none => .error .typeError
                  | some xs =>
                    match renderLoopF (renderNode loader fuel) lv len ctx xs 0 main ins with
                    | .error e => .error e
                    | .ok (s, main', ins₁) =>
                      .ok (vStr s, .forN frag lv ex endTok main' (some (main', em)), ins₁)
    | .ifN frag e endTok cs br =>
      match endTok with
      | none => .error (.attributeError "end_tok")
      | some tok =>
        if tok ≠ "endif" then .error (.templateError (mismatchMsg frag "endif" tok))
        else
          match br with
          | none => .error (.attributeError "branches")
          | some branches =>
            match renderIfF (renderNode loader fuel) branches ctx ins with
            | .error er => .error er
            | .ok (v, branches', ins₁) => .ok (v, .ifN frag e endTok cs branches', ins₁)
    | .blockN frag name endTok cs =>
      match endTok with
      | none => .error (.attributeError "end_tok")
      | some tok =>
        if tok ≠ "endblock" then .error (.templateError (mismatchMsg frag "endblock" tok))
        else if ins.has_ancestor then
          match renderListF (renderNode loader fuel) cs ctx ins with
          | .error e => .error e
          | .ok (result, cs', ins₁) =>
            match ins₁.block_dicts with
            | [] => .error .indexError
            | d :: ds =>
              .ok (vStr result, .blockN frag name endTok cs',
                { ins₁ with block_dicts := ((name, result) :: d) :: ds })
        else
          match findBlockOverride ins.block_dicts name with
          | some result => .ok (vStr result, .blockN frag name endTok cs, ins)
          | none =>
            match renderListF (renderNode loader fuel) cs ctx ins with
            | .error e => .error e
            | .ok (s, cs', ins₁) => .ok (vStr s, .blockN frag name endTok cs', ins₁)
    | .extendsN fn =>
      match compileSource ((loader fn).getD fn) with
      | .error e => .error e
      | .ok t =>
        match renderNode loader fuel t ctx ins with
        | .error e => .error e
        | .ok (v, _, ins') => .ok (v, .extendsN fn, ins')
    | .includeN fn =>
      match compileSource ((loader fn).getD fn) with
      | .error e => .error e
      | .ok t =>
        match renderNode loader fuel t ctx ins with
        | .error e => .error e
        | .ok (v, _, ins') => .ok (v, .includeN fn, ins')
    | .rootN cs =>
      match cs with
      | [] => .error .indexError
      | c₀ :: rest =>
        match c₀ with
        | .extendsN fn => rootAncestorF (renderNode loader fuel) (.extendsN fn) rest ctx ins
        | .text s =>
          match rest with
          | [] => .error .indexError
          | c₁ :: rest₂ =>
            match c₁ with
            | .extendsN fn =>
              rootAncestorF (renderNode loader fuel) (.extendsN fn) (.text s :: rest₂) ctx ins
            | _ =>
              match renderListF (renderNode loader fuel) cs ctx { ins with has_ancestor := false } with
              | .error e => .error e
              | .ok (str, cs', ins₁) => .ok (vStr str, .rootN cs', ins₁)
        | _ =>
          match renderListF (renderNode loader fuel) cs ctx { ins with has_ancestor := false } with
          | .error e => .error e
          | .ok (str, cs', ins₁) => .ok (vStr str, .rootN cs', ins₁)

/-- The fresh instance state of `MiniTemplate.__init__`. -/
def initIns : Ins := { has_ancestor := false, block_dicts := [] }

/-- `MiniTemplate(source).render(**ctx)` projected to its result value
(the merged global context is empty by default and `ctx` plays the role
of the caller's keyword arguments). -/
def renderOut (loader : Loader) (fuel : Nat) (src : String) (ctx : Ctx) : Except Err Value :=
  match compileSource src with
  | .error e => .error e
  | .ok t =>
    match renderNode loader fuel t ctx initIns with
    | .error e => .error e
    | .ok (v, _, _) => .ok v

/-- A loader with no files at all (plain string templates). -/
def noFiles : Loader := fun _ => none

/-! ## Lexer guarantees (C9) -/

theorem flushAcc_flatten (acc : List Char) : (flushAcc acc).flatten = acc.reverse := by
  by_cases h : acc.isEmpty
  · have : acc = [] := List.isEmpty_iff.mp h
    simp [flushAcc, h, this]
  · simp [flushAcc, h]

theorem flushAcc_ne_nil (acc : List Char) : [] ∉ flushAcc acc := by
  by_cases h : acc.isEmpty
  · simp [flushAcc, h]
  · simp [flushAcc, h]
    intro he
    exact h (List.isEmpty_iff.mpr (by simpa using congrArg List.reverse he.symm))

theorem tokGo_flatten :
    ∀ fuel acc l, l.length ≤ fuel → (tokGo fuel acc l).flatten = acc.reverse ++ l := by
  intro fuel
  induction fuel with
  | zero =>
    intro acc l h
    have hl : l = [] := by
      cases l with
      | nil => rfl
      | cons c cs => simp at h
    subst hl
    simp [tokGo, flushAcc_flatten]
  | succ f ih =>
    intro acc l h
    match l with
    | [] => simp [tokGo, flushAcc_flatten]
    | [c] => simp [tokGo, flushAcc_flatten]
    | c₁ :: c₂ :: rest =>
      have hlen : (c₂ :: rest).length ≤ f := by simp at h ⊢; omega
      simp only [tokGo]
      rcases ho : openerOf c₁ c₂ with _ | ⟨d₁, d₂⟩
      · simp only [ho]
        simp [ih (c₁ :: acc) (c₂ :: rest) hlen]
      · simp only [ho]
        rcases hf : findClose d₁ d₂ rest with _ | ⟨inside, after⟩
        · simp only [hf]
          simp [ih (c₁ :: acc) (c₂ :: rest) hlen]
        · simp only [hf]
          have hspec := findClose_spec d₁ d₂ rest inside after hf
          have hlen2 := findClose_length d₁ d₂ rest inside after hf
          have hafter : after.length ≤ f := by simp at h; omega
          simp [ih [] after hafter, flushAcc_flatten, hspec]

theorem tokGo_ne_nil : ∀ fuel acc l, [] ∉ tokGo fuel acc l := by
  intro fuel
  induction fuel with
  | zero => intro acc l; exact flushAcc_ne_nil _
  | succ f ih =>
    intro acc l
    match l with
    | [] => exact flushAcc_ne_nil _
    | [c] => exact flushAcc_ne_nil _
    | c₁ :: c₂ :: rest =>
      simp only [tokGo]
      rcases ho : openerOf c₁ c₂ with _ | ⟨d₁, d₂⟩
      · simp only [ho]
        exact ih (c₁ :: acc) (c₂ :: rest)
      · simp only [ho]
        rcases hf : findClose d₁ d₂ rest with _ | ⟨inside, after⟩
        · simp only [hf]
          exact ih (c₁ :: acc) (c₂ :: rest)
        · simp only [hf]
          intro hmem
          rcases List.mem_append.mp hmem with hmem | hmem
          · exact flushAcc_ne_nil acc hmem
          · rcases List.mem_cons.mp hmem with hmem | hmem
            · exact List.noConfusion hmem
            · exact ih [] after hmem

theorem foldl_append_data (init : String) (ls : List (List Char)) :
    (List.foldl (fun r s => r ++ s) init (ls.map (⟨·⟩))).data = init.data ++ ls.flatten := by
  induction ls generalizing init with
  | nil => simp
  | cons x xs ih =>
    simp only [List.map_cons, List.foldl_cons, List.flatten_cons, ih (init ++ ⟨x⟩),
      String.data_append]
    simp

theorem join_map_mk_data (ls : List (List Char)) :
    (String.join (ls.map (⟨·⟩))).data = ls.flatten := by
  have h := foldl_append_data "" ls
  simpa [String.join] using h

theorem string_ext {a b : String} (h : a.data = b.data) : a = b := by
  cases a; cases b; exact congrArg String.mk h

/-- C9: concatenating the raw fields of the fragment sequence, in
order, reconstructs the source exactly, and no fragment has an empty
raw field. -/
theorem claim_C9_lexer_roundtrip (s : String) :
    String.join ((eachFragment s).map (·.raw)) = s ∧
    (eachFragment s).all (fun f => f.raw != "") = true := by
  constructor
  · have hmap : (eachFragment s).map (·.raw) = (tokGo s.data.length [] s.data).map (⟨·⟩) := by
      simp [eachFragment, tokenize, mkFragment]
    rw [hmap]
    apply string_ext
    rw [join_map_mk_data (tokGo s.data.length [] s.data),
      tokGo_flatten s.data.length [] s.data (le_refl _)]
    rfl
  · rw [List.all_eq_true]
    intro f hf
    simp only [eachFragment, tokenize, List.map_map, List.mem_map] at hf
    obtain ⟨cs, hcs, hmk⟩ := hf
    have hne : cs ≠ [] := fun h => tokGo_ne_nil _ _ _ (h ▸ hcs)
    subst hmk
    simp [mkFragment]
    intro h
    exact hne (by simpa using congrArg String.data h)

/-! ## C1: rendering plain text -/

/-- No two adjacent characters form one of the three opening delimiter
markers. -/
def noOpenerPairs : List Char → Bool
  | c₁ :: c₂ :: rest => (openerOf c₁ c₂).isNone && noOpenerPairs (c₂ :: rest)
  | _ => true

/-- `s` contains no delimiter sequence (no adjacent pair of characters
opens one of the three delimiters). -/
def noDelimsChain (s : String) : Prop := noOpenerPairs s.data = true

theorem tokGo_no_opener :
    ∀ fuel acc l, l.length ≤ fuel → noOpenerPairs l = true →
      tokGo fuel acc l = flushAcc (l.reverse ++ acc) := by
  intro fuel
  induction fuel with
  | zero =>
    intro acc l hl _
    have : l = [] := by
      cases l with
      | nil => rfl
      | cons c cs => simp at hl
    subst this
    simp [tokGo]
  | succ f ih =>
    intro acc l hl hch
    match l with
    | [] => simp [tokGo]
    | [c] => simp [tokGo]
    | c₁ :: c₂ :: rest =>
      simp only [noOpenerPairs, Bool.and_eq_true, Option.isNone_iff_eq_none] at hch
      have hop : openerOf c₁ c₂ = none := hch.1
      have hch' : noOpenerPairs (c₂ :: rest) = true := hch.2
      have hlen : (c₂ :: rest).length ≤ f := by simp at hl ⊢; omega
      simp only [tokGo, hop]
      rw [ih (c₁ :: acc) (c₂ :: rest) hlen hch']
      congr 1
      simp

theorem tokenize_no_delims (s : String) (h : noDelimsChain s) (hne : s ≠ "") :
    tokenize s = [s] := by
  unfold tokenize
  rw [tokGo_no_opener s.data.length [] s.data (le_refl _) h]
  have hd : s.data ≠ [] := by
    intro hc
    exact hne (string_ext (by simp [hc]))
  simp [flushAcc, List.isEmpty_iff, hd]

theorem cleanFragment_no_delims (s : String) (h : noDelimsChain s) :
    cleanFragment s = s ∧ fragType (mkFragment s) = .textF := by
  unfold noDelimsChain at h
  unfold cleanFragment fragType mkFragment
  rcases hs : s.data with _ | ⟨c₁, _ | ⟨c₂, rest⟩⟩
  · simp [hs]
  · simp [hs]
  · rw [hs] at h
    simp only [noOpenerPairs, Bool.and_eq_true, Option.isNone_iff_eq_none] at h
    have hop : openerOf c₁ c₂ = none := h.1
    unfold openerOf at hop
    split_ifs at hop with h1 h2 h3
    constructor
    · simp only [hs]
      rw [if_neg]
      intro hc
      rcases hc with hc | hc
      · exact h1 hc
      · exact h2 hc
    · simp only [hs]
      split
      · rename_i x tail heq
        have hA : c₁ = '{' := by injection heq
        have hB : c₂ = '{' := by
          have ht : c₂ :: rest = '{' :: tail := by injection heq
          injection ht
        exact absurd ⟨hA, hB⟩ h1
      · rename_i x tail heq
        have hA : c₁ = '{' := by injection heq
        have hB : c₂ = '%' := by
          have ht : c₂ :: rest = '%' :: tail := by injection heq
          injection ht
        exact absurd ⟨hA, hB⟩ h2
      · rename_i x tail heq
        have hA : c₁ = '{' := by injection heq
        have hB : c₂ = '#' := by
          have ht : c₂ :: rest = '#' :: tail := by injection heq
          injection ht
        exact absurd ⟨hA, hB⟩ h3
      · rfl

/-- C1: the claim is refuted by the code: for a source with no
delimiter sequences the compiled root has a single `_Text` child (or
none, for the empty source), and `_Root.render` then crashes with an
`IndexError` evaluating `children[1]` (or `children[0]`), instead of
returning `s`.  Shown in general and at the failing inputs `"hello"`
and `""`. -/
theorem claim_C1_plain_text_render (s : String) (h : noDelimsChain s) (hne : s ≠ "") :
    compileSource s = .ok (.rootN [.text s]) ∧
    (∀ loader fuel ctx ins, renderNode loader (fuel + 1) (.rootN [.text s]) ctx ins =
      .error .indexError) ∧
    compileSource "hello" = .ok (.rootN [.text "hello"]) ∧
    renderOut noFiles 50 "hello" [] = .error .indexError ∧
    renderOut noFiles 50 "" [] = .error .indexError := by
  obtain ⟨hclean, htype⟩ := cleanFragment_no_delims s h
  refine ⟨?_, ?_, rfl, rfl, rfl⟩
  · unfold compileSource eachFragment
    rw [tokenize_no_delims s h hne]
    simp only [List.map_cons, List.map_nil]
    unfold compileFrags
    have hnotclose : fragType (mkFragment s) = FragType.closeF ↔ False := by
      simp [htype]
    rw [if_neg (by simp [htype])]
    unfold createNode
    rw [htype]
    simp only [mkFragment, hclean]
    rfl
  · intro loader fuel ctx ins
    rfl

/-- C1 witness: the hypotheses are satisfiable, e.g. at `"hello"`. -/
theorem claim_C1_plain_text_render_witness :
    compileSource "hello" = .ok (.rootN [.text "hello"]) ∧
    renderOut noFiles 50 "hello" [] = .error .indexError :=
  ⟨(claim_C1_plain_text_render "hello" rfl (by decide)).1,
   (claim_C1_plain_text_render "hello" rfl (by decide)).2.2.2.1⟩

/-! ## C2: nesting and mismatched-end errors -/

/-- C2 (counterexample): compiling `{% if a %}…{% endfor %}` and the
unterminated `{% if a %}` both succeed — no error of any kind is
raised at compile time, contradicting the claim that these are
compile-time errors. -/
theorem claim_C2_counterexample :
    (compileSource "{% if a %}x{% endfor %}").isOk = true ∧
    (compileSource "{% if a %}").isOk = true := ⟨rfl, rfl⟩

/-- C2 (amended): the mismatched close tag is accepted at compile time
and stored as the block's end token; the mismatch `TemplateError` is
raised when the node is first rendered.  An unterminated block is not
detected at all at compile time (no end-of-input scope check exists);
the compiled node simply lacks its end token, so rendering it raises an
`AttributeError`. -/
theorem claim_C2_amended :
    compileSource "{% if a %}x{% endfor %}" =
      .ok (.rootN [.ifN "if a" "a" (some "endfor") [.text "x"] (some [("a", [.text "x"])])]) ∧
    renderOut noFiles 50 "{% if a %}x{% endfor %}" [("a", vBool true)] =
      .error (.templateError (mismatchMsg "if a" "endif" "endfor")) ∧
    compileSource "{% if a %}" = .ok (.rootN [.ifN "if a" "a" none [] none]) ∧
    renderOut noFiles 50 "{% if a %}" [("a", vBool true)] =
      .error (.attributeError "end_tok") := ⟨rfl, rfl, rfl, rfl⟩

/-! ## C3: unresolvable Variable expressions -/

/-- C3 (counterexample): `{{ x }}` with an empty context renders the
template to the string `"None"`, not to an empty contribution: the
`None` produced by the failed evaluation is stringified by
`html_escape`. -/
theorem claim_C3_counterexample :
    pyEval "x" ([] : Ctx) = none ∧
    renderOut noFiles 50 "{{ x }}" [] = .ok (vStr "None") := ⟨rfl, rfl⟩

theorem htmlEscape_None : htmlEscape (pyStr vNone) = "None" := rfl

/-- C3 (amended): when a Variable expression cannot be evaluated, no
exception propagates and the value becomes `None`; but the Variable's
contribution is empty only under the escaping-disabled marker (or a
`safe` filter) — with escaping enabled the `None` is stringified, so
the filterless Variable contributes the literal text `"None"`. -/
theorem claim_C3_amended (fuel : Nat) (loader : Loader) (v : String) (ctx : Ctx) (ins : Ins)
    (h : pyEval v ctx = none) :
    (isOffCtx ctx = false →
      renderNode loader (fuel + 1) (.variableN v false []) ctx ins =
        .ok (vStr "None", .variableN v false [], ins)) ∧
    (isOffCtx ctx = true →
      renderNode loader (fuel + 1) (.variableN v false []) ctx ins =
        .ok (vNone, .variableN v false [], ins)) := by
  constructor <;> intro hoff <;>
    simp [renderNode, varRender, h, hoff, htmlEscape_None]

/-- C3 witness: the amended statement at `v = "x"`, empty context. -/
theorem claim_C3_amended_witness :
    renderNode noFiles 6 (.variableN "x" false []) [] initIns =
      .ok (vStr "None", .variableN "x" false [], initIns) :=
  (claim_C3_amended 5 noFiles "x" [] initIns rfl).1 rfl

/-! ## C4: HTML escaping policy -/

/-- C4: a Variable's rendered value is the HTML escape of the
stringified final value, except when the pipeline names a `safe` filter
or the context carries the escaping-disabled marker; `{% escape off %}`
renders its children against the context extended with that marker,
while `{% escape on %}` renders them against the context unchanged. -/
theorem claim_C4_escape_policy :
    (∀ fuel loader v hf cbs ctx ins out n' ins',
      renderNode loader (fuel + 1) (.variableN v hf cbs) ctx ins = .ok (out, n', ins') →
      hasSafe cbs = false → isOffCtx ctx = false →
      ∃ u, out = vStr (htmlEscape (pyStr u))) ∧
    (∀ fuel loader frag cs ctx ins,
      renderNode loader (fuel + 1) (.escapeN frag "off" (some "endescape") cs) ctx ins =
        (match renderListF (renderNode loader fuel) cs
            (ctxUpdate ctx [("~>_<~", vStr "off")]) ins with
         | .error e => .error e
         | .ok (s, cs', ins₁) =>
           .ok (vStr s, .escapeN frag "off" (some "endescape") cs', ins₁))) ∧
    (∀ fuel loader frag cs ctx ins,
      renderNode loader (fuel + 1) (.escapeN frag "on" (some "endescape") cs) ctx ins =
        (match renderListF (renderNode loader fuel) cs ctx ins with
         | .error e => .error e
         | .ok (s, cs', ins₁) =>
           .ok (vStr s, .escapeN frag "on" (some "endescape") cs', ins₁))) := by
  refine ⟨?_, ?_, ?_⟩
  · intro fuel loader v hf cbs ctx ins out n' ins' h hsafe hoff
    simp only [renderNode] at h
    unfold varRender at h
    cases hf with
    | false =>
      simp [hoff] at h
      exact ⟨(match pyEval v ctx with | some rv => rv | none => vNone), h.1.symm⟩
    | true =>
      cases hac : applyCallbacks cbs (match pyEval v ctx with | some rv => rv | none => vNone) with
      | error e => simp [hac] at h
      | ok value' =>
        simp [hac, hsafe, hoff] at h
        exact ⟨value', h.1.symm⟩
  · intro fuel loader frag cs ctx ins
    rfl
  · intro fuel loader frag cs ctx ins
    rfl

/-- C4 witness: the escaping case at a concrete Variable holding
`"<b>"`. -/
theorem claim_C4_escape_policy_witness :
    ∃ u, (vStr "&lt;b&gt;" : Value) = vStr (htmlEscape (pyStr u)) :=
  claim_C4_escape_policy.1 0 noFiles "x" false [] [("x", vStr "<b>")] initIns
    (vStr "&lt;b&gt;") (.variableN "x" false []) initIns rfl rfl rfl

/-! ## C5: For / Empty semantics -/

/-- C5: the two example renders of the claim, the general
empty-sequence rule (empty branch rendered exactly once against the
unmodified parent context) and the general per-item rule (main branch
rendered against a child context binding the loop variable to the item
and `loop` to the helper with `length`, 1-based `index`, `first`,
`last`; results concatenated in iteration order). -/
theorem claim_C5_for_empty :
    renderOut noFiles 50 "{% for i in items %}{{ i }}{% empty %}none{% endfor %}"
        [("items", vList [])] = .ok (vStr "none") ∧
    renderOut noFiles 50 "{% for i in items %}{{ i }}{% empty %}none{% endfor %}"
        [("items", vList [vInt 1, vInt 2, vInt 3])] = .ok (vStr "123") ∧
    (∀ fuel loader frag lv ex ctx ins cs main em items len,
      pyEval ex ctx = some items → pyLen items = some len →
      pyFalsy items = true → em ≠ [] →
      renderNode loader (fuel + 1)
          (.forN frag lv ex (some "endfor") cs (some (main, em))) ctx ins =
        (match renderListF (renderNode loader fuel) em ctx ins with
         | .error e => .error e
         | .ok (s, em', ins₁) =>
           .ok (vStr s, .forN frag lv ex (some "endfor") main (some (main, em')), ins₁))) ∧
    (∀ fuel loader lv len ctx x xs i main ins,
      renderLoopF (renderNode loader fuel) lv len ctx (x :: xs) i main ins =
        (match renderListF (renderNode loader fuel) main
            (ctxUpdate ctx [(lv, x),
              ("loop", vLoop len (i + 1) (decide (i = 0)) (decide (i = len - 1)))]) ins with
         | .error e => .error e
         | .ok (s, main', ins₁) =>
           match renderLoopF (renderNode loader fuel) lv len ctx xs (i + 1) main' ins₁ with
           | .error e => .error e
           | .ok (s₂, main'', ins₂) => .ok (s ++ s₂, main'', ins₂))) := by
  refine ⟨rfl, rfl, ?_, ?_⟩
  · intro fuel loader frag lv ex ctx ins cs main em items len hev hlen hfalsy hem
    simp only [renderNode]
    rw [if_neg (by simp)]
    simp only [hev, hlen]
    rw [if_pos ⟨hfalsy, by simpa [List.isEmpty_iff] using hem⟩]
  · intro fuel loader lv len ctx x xs i main ins
    rfl

/-- C5 witness: the empty-sequence rule applied to the compiled example
For node. -/
theorem claim_C5_for_empty_witness :
    renderNode noFiles 6
        (.forN "for i in items" "i" "items" (some "endfor")
          [.variableN "i" false [], .emptyN, .text "none"]
          (some ([.variableN "i" false []], [.text "none"])))
        [("items", vList [])] initIns =
      .ok (vStr "none",
        .forN "for i in items" "i" "items" (some "endfor")
          [.variableN "i" false []]
          (some ([.variableN "i" false []], [.text "none"])), initIns) := by
  rw [claim_C5_for_empty.2.2.1 5 noFiles "for i in items" "i" "items"
    [("items", vList [])] initIns
    [.variableN "i" false [], .emptyN, .text "none"]
    [.variableN "i" false []] [.text "none"] (vList []) 0 rfl rfl rfl (by simp)]
  rfl

/-! ## C6: context immutability and scope isolation -/

/-- C6: the scope-isolation example renders to `"1None"` (the `set`
binding is visible inside the block, and the trailing `{{ v }}`
renders against the original unmodified context, where `v` is
unbound); sibling nodes are always rendered against the very context
their parent received (only the instance state threads through); and a
`set` block realizes its bindings in a fresh extended context
(`ctxUpdate`, the embedding of `context.copy()` + `update`), the
parent context value being untouched. -/
theorem claim_C6_scope_isolation :
    renderOut noFiles 50 "{% set v=1 %}{{ v }}{% endset %}{{ v }}" [] = .ok (vStr "1None") ∧
    (∀ rn n rest ctx ins v n' ins₁,
      rn n ctx ins = .ok (v, n', ins₁) →
      renderListF rn (n :: rest) ctx ins =
        (match renderListF rn rest ctx ins₁ with
         | .error e => .error e
         | .ok (s, rest', ins₂) =>
           .ok ((if pyFalsy v then "" else pyStr v) ++ s, n' :: rest', ins₂))) ∧
    (∀ fuel loader frag args cs ctx ins bindings,
      evalSetArgs args ctx = .ok bindings →
      renderNode loader (fuel + 1) (.setN frag args (some "endset") cs) ctx ins =
        (match renderListF (renderNode loader fuel) cs (ctxUpdate ctx bindings) ins with
         | .error e => .error e
         | .ok (s, cs', ins₁) => .ok (vStr s, .setN frag args (some "endset") cs', ins₁))) := by
  refine ⟨rfl, ?_, ?_⟩
  · intro rn n rest ctx ins v n' ins₁ h
    simp only [renderListF, h]
  · intro fuel loader frag args cs ctx ins bindings h
    simp only [renderNode]
    rw [if_neg (by simp)]
    rw [h]

/-- C6 witness: the sibling rule applied to the compiled example
(the sibling `{{ v }}` of the `set` block is rendered against the
original empty context and yields `"None"`). -/
theorem claim_C6_scope_isolation_witness :
    renderListF (renderNode noFiles 5)
        [.setN "set v=1" ["v=1"] (some "endset") [.variableN "v" false []],
         .variableN "v" false []] [] initIns =
      .ok ("1None",
        [.setN "set v=1" ["v=1"] (some "endset") [.variableN "v" false []],
         .variableN "v" false []], initIns) := by
  rw [claim_C6_scope_isolation.2.1 (renderNode noFiles 5)
    (.setN "set v=1" ["v=1"] (some "endset") [.variableN "v" false []])
    [.variableN "v" false []] [] initIns (vStr "1")
    (.setN "set v=1" ["v=1"] (some "endset") [.variableN "v" false []]) initIns rfl]
  rfl

/-! ## Render-time mutation analysis (towards C7 and C8)

`_For.render` reassigns `self.children` to the main branch and
`_Root.render` pops an `_Extends` child; nothing else about a node is
ever written during render.  Moreover a `_For`/`_If` node whose
`branches` partition exists never reads its `children` field during
render.  `normN` erases exactly those dead `children` fields (and
normalizes recursively); rendering preserves a node's normal form, and
two nodes sharing a normal form render identically. -/

mutual

/-- Erase the render-dead `children` field of partitioned `_For`/`_If`
nodes, recursively. -/
def normN : Node → Node
  | .text s => .text s
  | .variableN v hf cbs => .variableN v hf cbs
  | .comment => .comment
  | .emptyN => .emptyN
  | .elifN e => .elifN e
  | .elseN => .elseN
  | .rawN frag et rs => .rawN frag et rs
  | .setN frag args et cs => .setN frag args et (normList cs)
  | .escapeN frag d et cs => .escapeN frag d et (normList cs)
  | .blockN frag name et cs => .blockN frag name et (normList cs)
  | .forN frag lv ex et cs br =>
    match br with
    | some (m, em) => .forN frag lv ex et [] (some (normList m, normList em))
    | none => .forN frag lv ex et (normList cs) none
  | .ifN frag e et cs br =>
    match br with
    | some bs => .ifN frag e et [] (some (normBr bs))
    | none => .ifN frag e et (normList cs) none
  | .extendsN fn => .extendsN fn
  | .includeN fn => .includeN fn
  | .rootN cs => .rootN (normList cs)

def normList : List Node → List Node
  | [] => []
  | n :: ns => normN n :: normList ns

def normBr : List (String × List Node) → List (String × List Node)
  | [] => []
  | (e, br) :: rest => (e, normList br) :: normBr rest

end

mutual

/-- Does the tree contain no `_Extends` and no `_Include` node? -/
def noExtInc : Node → Bool
  | .text _ => true
  | .variableN _ _ _ => true
  | .comment => true
  | .emptyN => true
  | .elifN _ => true
  | .elseN => true
  | .rawN _ _ _ => true
  | .setN _ _ _ cs => noExtIncList cs
  | .escapeN _ _ _ cs => noExtIncList cs
  | .blockN _ _ _ cs => noExtIncList cs
  | .forN _ _ _ _ cs br =>
    noExtIncList cs &&
      (match br with
       | some (m, em) => noExtIncList m && noExtIncList em
       | none => true)
  | .ifN _ _ _ cs br =>
    noExtIncList cs &&
      (match br with
       | some bs => noExtIncBr bs
       | none => true)
  | .extendsN _ => false
  | .includeN _ => false
  | .rootN cs => noExtIncList cs

def noExtIncList : List Node → Bool
  | [] => true
  | n :: ns => noExtInc n && noExtIncList ns

def noExtIncBr : List (String × List Node) → Bool
  | [] => true
  | (_, br) :: rest => noExtIncList br && noExtIncBr rest

end

/-- Result agreement up to `normN` on the node component: same error,
or same value and instance state with norm-equal updated nodes. -/
def outRel (r r' : Except Err (Value × Node × Ins)) : Prop :=
  match r, r' with
  | .error e, .error e' => e = e'
  | .ok (v, n, i), .ok (v', n', i') => v = v' ∧ i = i' ∧ normN n = normN n'
  | _, _ => False

/-- Result agreement up to `normList` for child-list renders. -/
def outRelL (r r' : Except Err (String × List Node × Ins)) : Prop :=
  match r, r' with
  | .error e, .error e' => e = e'
  | .ok (s, l, i), .ok (s', l', i') => s = s' ∧ i = i' ∧ normList l = normList l'
  | _, _ => False

mutual

theorem normN_idem : ∀ n, normN (normN n) = normN n
  | .text _ => rfl
  | .variableN _ _ _ => rfl
  | .comment => rfl
  | .emptyN => rfl
  | .elifN _ => rfl
  | .elseN => rfl
  | .rawN _ _ _ => rfl
  | .setN frag args et cs => by simp only [normN, normList_idem cs]
  | .escapeN frag d et cs => by simp only [normN, normList_idem cs]
  | .blockN frag name et cs => by simp only [normN, normList_idem cs]
  | .forN frag lv ex et cs br => by
    rcases br with _ | ⟨m, em⟩
    · simp only [normN, normList_idem cs]
    · simp only [normN, normList_idem m, normList_idem em]
  | .ifN frag e et cs br => by
    rcases br with _ | bs
    · simp only [normN, normList_idem cs]
    · simp only [normN, normBr_idem bs]
  | .extendsN _ => rfl
  | .includeN _ => rfl
  | .rootN cs => by simp only [normN, normList_idem cs]

theorem normList_idem : ∀ cs, normList (normList cs) = normList cs
  | [] => rfl
  | n :: ns => by simp only [normList, normN_idem n, normList_idem ns]

theorem normBr_idem : ∀ bs, normBr (normBr bs) = normBr bs
  | [] => rfl
  | (e, br) :: rest => by simp only [normBr, normList_idem br, normBr_idem rest]

end

theorem outRel_refl (r : Except Err (Value × Node × Ins)) : outRel r r := by
  rcases r with e | ⟨v, n, i⟩ <;> simp [outRel]

theorem outRel_symm {r r' : Except Err (Value × Node × Ins)} (h : outRel r r') :
    outRel r' r := by
  rcases r with e | ⟨v, n, i⟩ <;> rcases r' with e' | ⟨v', n', i'⟩ <;>
    simp [outRel] at h ⊢ <;> simp_all

theorem outRel_trans {r₁ r₂ r₃ : Except Err (Value × Node × Ins)}
    (h : outRel r₁ r₂) (h' : outRel r₂ r₃) : outRel r₁ r₃ := by
  rcases r₁ with e | ⟨v, n, i⟩ <;> rcases r₂ with e' | ⟨v', n', i'⟩ <;>
    rcases r₃ with e'' | ⟨v'', n'', i''⟩ <;> simp [outRel] at h h' ⊢ <;> simp_all

theorem outRelL_refl (r : Except Err (String × List Node × Ins)) : outRelL r r := by
  rcases r with e | ⟨s, l, i⟩ <;> simp [outRelL]

theorem outRelL_symm {r r' : Except Err (String × List Node × Ins)} (h : outRelL r r') :
    outRelL r' r := by
  rcases r with e | ⟨s, l, i⟩ <;> rcases r' with e' | ⟨s', l', i'⟩ <;>
    simp [outRelL] at h ⊢ <;> simp_all

theorem outRelL_trans {r₁ r₂ r₃ : Except Err (String × List Node × Ins)}
    (h : outRelL r₁ r₂) (h' : outRelL r₂ r₃) : outRelL r₁ r₃ := by
  rcases r₁ with e | ⟨s, l, i⟩ <;> rcases r₂ with e' | ⟨s', l', i'⟩ <;>
    rcases r₃ with e'' | ⟨s'', l'', i''⟩ <;> simp [outRelL] at h h' ⊢ <;> simp_all

/-- The renderer preserves normal forms on trees whose normal form is
free of `_Extends`/`_Include` (popping the extends child is the one
mutation that changes a normal form; extends/include also touch the
instance state through freshly compiled trees). -/
def PreservesNorm (rn : Node → Ctx → Ins → Except Err (Value × Node × Ins)) : Prop :=
  ∀ n ctx ins v n' ins', noExtInc (normN n) = true →
    rn n ctx ins = .ok (v, n', ins') → normN n' = normN n

theorem renderListF_norm (rn : Node → Ctx → Ins → Except Err (Value × Node × Ins))
    (h : PreservesNorm rn) :
    ∀ cs ctx ins s cs' ins', noExtIncList (normList cs) = true →
      renderListF rn cs ctx ins = .ok (s, cs', ins') →
      normList cs' = normList cs := by
  intro cs
  induction cs with
  | nil =>
    intro ctx ins s cs' ins' _ hr
    simp only [renderListF] at hr
    injection hr with h'
    injection h' with h1 h2
    injection h2 with h3 h4
    subst h3
    rfl
  | cons n ns ih =>
    intro ctx ins s cs' ins' hni hr
    simp only [normList, noExtIncList, Bool.and_eq_true] at hni
    simp only [renderListF] at hr
    split at hr
    · exact Except.noConfusion hr
    · rename_i v₁ n₁ ins₁ heq
      split at hr
      · exact Except.noConfusion hr
      · rename_i s₂ rest₂ ins₂ heq₂
        injection hr with h'
        injection h' with h1 h2
        injection h2 with h3 h4
        subst h3
        simp only [normList]
        rw [h _ _ _ _ _ _ hni.1 heq, ih _ _ _ _ _ hni.2 heq₂]

theorem renderLoopF_norm (rn : Node → Ctx → Ins → Except Err (Value × Node × Ins))
    (h : PreservesNorm rn) (lv : String) (len : Nat) (ctx : Ctx) :
    ∀ xs i main ins s main' ins', noExtIncList (normList main) = true →
      renderLoopF rn lv len ctx xs i main ins = .ok (s, main', ins') →
      normList main' = normList main := by
  intro xs
  induction xs with
  | nil =>
    intro i main ins s main' ins' _ hr
    simp only [renderLoopF] at hr
    injection hr with h'
    injection h' with h1 h2
    injection h2 with h3 h4
    subst h3
    rfl
  | cons x xs ih =>
    intro i main ins s main' ins' hni hr
    simp only [renderLoopF] at hr
    split at hr
    · exact Except.noConfusion hr
    · rename_i s₁ main₁ ins₁ heq
      split at hr
      · exact Except.noConfusion hr
      · rename_i s₂ main₂ ins₂ heq₂
        injection hr with h'
        injection h' with h1 h2
        injection h2 with h3 h4
        subst h3
        have e₁ : normList main₁ = normList main :=
          renderListF_norm rn h _ _ _ _ _ _ hni heq
        have e₂ : normList main₂ = normList main₁ :=
          ih _ _ _ _ _ _ (by rw [e₁]; exact hni) heq₂
        rw [e₂, e₁]

theorem renderBlocksF_norm (rn : Node → Ctx → Ins → Except Err (Value × Node × Ins))
    (h : PreservesNorm rn) :
    ∀ cs ctx ins cs' ins', noExtIncList (normList cs) = true →
      renderBlocksF rn cs ctx ins = .ok (cs', ins') →
      normList cs' = normList cs := by
  intro cs
  induction cs with
  | nil =>
    intro ctx ins cs' ins' _ hr
    simp only [renderBlocksF] at hr
    injection hr with h'
    injection h' with h1 h2
    subst h1
    rfl
  | cons c cs ih =>
    intro ctx ins cs' ins' hni hr
    simp only [normList, noExtIncList, Bool.and_eq_true] at hni
    simp only [renderBlocksF] at hr
    split at hr
    · split at hr
      · exact Except.noConfusion hr
      · rename_i v₁ c₁ ins₁ heq
        split at hr
        · exact Except.noConfusion hr
        · rename_i cs₂ ins₂ heq₂
          injection hr with h'
          injection h' with h1 h2
          subst h1
          simp only [normList]
          rw [h _ _ _ _ _ _ hni.1 heq, ih _ _ _ _ hni.2 heq₂]
    · split at hr
      · exact Except.noConfusion hr
      · rename_i cs₂ ins₂ heq₂
        injection hr with h'
        injection h' with h1 h2
        subst h1
        simp only [normList]
        rw [ih _ _ _ _ hni.2 heq₂]

theorem renderIfF_norm (rn : Node → Ctx → Ins → Except Err (Value × Node × Ins))
    (h : PreservesNorm rn) :
    ∀ bs ctx ins v bs' ins', noExtIncBr (normBr bs) = true →
      renderIfF rn bs ctx ins = .ok (v, bs', ins') →
      normBr bs' = normBr bs := by
  intro bs
  induction bs with
  | nil =>
    intro ctx ins v bs' ins' _ hr
    simp only [renderIfF] at hr
    injection hr with h'
    injection h' with h1 h2
    injection h2 with h3 h4
    subst h3
    rfl
  | cons b rest ih =>
    obtain ⟨e, br⟩ := b
    intro ctx ins v bs' ins' hni hr
    simp only [normBr, noExtIncBr, Bool.and_eq_true] at hni
    simp only [renderIfF] at hr
    split at hr
    · exact Except.noConfusion hr
    · rename_i cond heq
      split at hr
      · split at hr
        · exact Except.noConfusion hr
        · rename_i v₁ rest₁ ins₁ heq₂
          injection hr with h'
          injection h' with h1 h2
          injection h2 with h3 h4
          subst h3
          simp only [normBr]
          rw [ih _ _ _ _ _ hni.2 heq₂]
      · split at hr
        · exact Except.noConfusion hr
        · rename_i s₁ br₁ ins₁ heq₂
          injection hr with h'
          injection h' with h1 h2
          injection h2 with h3 h4
          subst h3
          simp only [normBr]
          rw [renderListF_norm rn h _ _ _ _ _ _ hni.1 heq₂]

theorem renderNode_norm (loader : Loader) :
    ∀ fuel, PreservesNorm (renderNode loader fuel) := by
  intro fuel
  induction fuel with
  | zero =>
    intro n ctx ins v n' ins' _ h
    exact Except.noConfusion h
  | succ fuel ih =>
    intro n ctx ins v n' ins' hnei h
    match n with
    | .text s =>
      simp only [renderNode] at h
      injection h with h'
      injection h' with h1 h2
      injection h2 with h3 h4
      subst h3
      rfl
    | .comment =>
      simp only [renderNode] at h
      injection h with h'
      injection h' with h1 h2
      injection h2 with h3 h4
      subst h3
      rfl
    | .emptyN =>
      simp only [renderNode] at h
      injection h with h'
      injection h' with h1 h2
      injection h2 with h3 h4
      subst h3
      rfl
    | .elifN e =>
      simp only [renderNode] at h
      injection h with h'
      injection h' with h1 h2
      injection h2 with h3 h4
      subst h3
      rfl
    | .elseN =>
      simp only [renderNode] at h
      injection h with h'
      injection h' with h1 h2
      injection h2 with h3 h4
      subst h3
      rfl
    | .variableN v₀ hf cbs =>
      simp only [renderNode] at h
      split at h
      · exact Except.noConfusion h
      · injection h with h'
        injection h' with h1 h2
        injection h2 with h3 h4
        subst h3
        rfl
    | .rawN frag et rs =>
      simp only [renderNode] at h
      split at h
      · exact Except.noConfusion h
      · split at h
        · exact Except.noConfusion h
        · injection h with h'
          injection h' with h1 h2
          injection h2 with h3 h4
          subst h3
          rfl
    | .setN frag args et cs =>
      simp only [normN, noExtInc] at hnei
      simp only [renderNode] at h
      split at h
      · exact Except.noConfusion h
      · split at h
        · exact Except.noConfusion h
        · split at h
          · exact Except.noConfusion h
          · rename_i bindings heq
            split at h
            · exact Except.noConfusion h
            · rename_i s₁ cs₁ ins₁ heq₂
              injection h with h'
              injection h' with h1 h2
              injection h2 with h3 h4
              subst h3
              simp only [normN]
              rw [renderListF_norm _ ih _ _ _ _ _ _ hnei heq₂]
    | .escapeN frag d et cs =>
      simp only [normN, noExtInc] at hnei
      simp only [renderNode] at h
      split at h
      · exact Except.noConfusion h
      · split at h
        · exact Except.noConfusion h
        · split at h
          · exact Except.noConfusion h
          · rename_i s₁ cs₁ ins₁ heq₂
            injection h with h'
            injection h' with h1 h2
            injection h2 with h3 h4
            subst h3
            simp only [normN]
            rw [renderListF_norm _ ih _ _ _ _ _ _ hnei heq₂]
    | .forN frag lv ex et cs br =>
      rcases br with _ | ⟨main, em⟩
      · simp only [renderNode] at h
        split at h
        · exact Except.noConfusion h
        · split at h
          · exact Except.noConfusion h
          · split at h
            · exact Except.noConfusion h
            · rename_i items heq₀
              split at h
              · exact Except.noConfusion h
              · exact Except.noConfusion h
      · simp only [normN, noExtInc, noExtIncList, Bool.and_eq_true, Bool.true_and] at hnei
        simp only [renderNode] at h
        split at h
        · exact Except.noConfusion h
        · split at h
          · exact Except.noConfusion h
          · split at h
            · exact Except.noConfusion h
            · rename_i items heq₀
              split at h
              · exact Except.noConfusion h
              · rename_i len heq₁
                split at h
                · split at h
                  · exact Except.noConfusion h
                  · rename_i s₁ em₁ ins₁ heq₂
                    injection h with h'
                    injection h' with h1 h2
                    injection h2 with h3 h4
                    subst h3
                    simp only [normN]
                    rw [renderListF_norm _ ih _ _ _ _ _ _ hnei.2 heq₂]
                · split at h
                  · exact Except.noConfusion h
                  · rename_i xs heq₂
                    split at h
                    · exact Except.noConfusion h
                    · rename_i s₁ main₁ ins₁ heq₃
                      injection h with h'
                      injection h' with h1 h2
                      injection h2 with h3 h4
                      subst h3
                      simp only [normN]
                      rw [renderLoopF_norm _ ih _ _ _ _ _ _ _ _ _ _ hnei.1 heq₃]
    | .ifN frag e et cs br =>
      rcases br with _ | branches
      · simp only [renderNode] at h
        split at h
        · exact Except.noConfusion h
        · split at h
          · exact Except.noConfusion h
          · exact Except.noConfusion h
      · simp only [normN, noExtInc, noExtIncList, Bool.and_eq_true, Bool.true_and] at hnei
        simp only [renderNode] at h
        split at h
        · exact Except.noConfusion h
        · split at h
          · exact Except.noConfusion h
          · split at h
            · exact Except.noConfusion h
            · rename_i v₁ branches₁ ins₁ heq₂
              injection h with h'
              injection h' with h1 h2
              injection h2 with h3 h4
              subst h3
              simp only [normN]
              rw [renderIfF_norm _ ih _ _ _ _ _ _ hnei heq₂]
    | .blockN frag name et cs =>
      simp only [normN, noExtInc] at hnei
      simp only [renderNode] at h
      split at h
      · exact Except.noConfusion h
      · split at h
        · exact Except.noConfusion h
        · split at h
          · split at h
            · exact Except.noConfusion h
            · rename_i result cs₁ ins₁ heq₂
              split at h
              · exact Except.noConfusion h
              · injection h with h'
                injection h' with h1 h2
                injection h2 with h3 h4
                subst h3
                simp only [normN]
                rw [renderListF_norm _ ih _ _ _ _ _ _ hnei heq₂]
          · split at h
            · injection h with h'
              injection h' with h1 h2
              injection h2 with h3 h4
              subst h3
              rfl
            · split at h
              · exact Except.noConfusion h
              · rename_i s₁ cs₁ ins₁ heq₂
                injection h with h'
                injection h' with h1 h2
                injection h2 with h3 h4
                subst h3
                simp only [normN]
                rw [renderListF_norm _ ih _ _ _ _ _ _ hnei heq₂]
    | .extendsN fn =>
      simp only [normN, noExtInc] at hnei
      exact Bool.noConfusion hnei
    | .includeN fn =>
      simp only [normN, noExtInc] at hnei
      exact Bool.noConfusion hnei
    | .rootN cs =>
      simp only [normN, noExtInc] at hnei
      match cs with
      | [] =>
        simp only [renderNode] at h
        exact Except.noConfusion h
      | .extendsN fn :: rest =>
        simp only [normList, normN, noExtIncList, noExtInc, Bool.false_and] at hnei
        exact Bool.noConfusion hnei
      | .text s :: rest =>
        match rest with
        | [] =>
          simp only [renderNode] at h
          exact Except.noConfusion h
        | .extendsN fn :: rest₂ =>
          simp only [normList, normN, noExtIncList, noExtInc, Bool.false_and,
            Bool.and_false] at hnei
          exact Bool.noConfusion hnei
        | .text s₂ :: rest₂ =>
          simp only [renderNode] at h
          split at h
          · exact Except.noConfusion h
          · rename_i s₁ cs₁ ins₁ heq₁
            injection h with h'
            injection h' with h1 h2
            injection h2 with h3 h4
            subst h3
            simp only [normN]
            rw [renderListF_norm _ ih _ _ _ _ _ _ hnei heq₁]
        | .variableN a b c :: rest₂ =>
          simp only [renderNode] at h
          split at h
          · exact Except.noConfusion h
          · rename_i s₁ cs₁ ins₁ heq₁
            injection h with h'
            injection h' with h1 h2
            injection h2 with h3 h4
            subst h3
            simp only [normN]
            rw [renderListF_norm _ ih _ _ _ _ _ _ hnei heq₁]
        | .comment :: rest₂ =>
          simp only [renderNode] at h
          split at h
          · exact Except.noConfusion h
          · rename_i s₁ cs₁ ins₁ heq₁
            injection h with h'
            injection h' with h1 h2
            injection h2 with h3 h4
            subst h3
            simp only [normN]
            rw [renderListF_norm _ ih _ _ _ _ _ _ hnei heq₁]
        | .setN a b c d :: rest₂ =>
          simp only [renderNode] at h
          split at h
          · exact Except.noConfusion h
          · rename_i s₁ cs₁ ins₁ heq₁
            injection h with h'
            injection h' with h1 h2
            injection h2 with h3 h4
            subst h3
            simp only [normN]
            rw [renderListF_norm _ ih _ _ _ _ _ _ hnei heq₁]
        | .forN a b c d e f :: rest₂ =>
          simp only [renderNode] at h
          split at h
          · exact Except.noConfusion h
          · rename_i s₁ cs₁ ins₁ heq₁
            injection h with h'
            injection h' with h1 h2
            injection h2 with h3 h4
            subst h3
            simp only [normN]
            rw [renderListF_norm _ ih _ _ _ _ _ _ hnei heq₁]
        | .emptyN :: rest₂ =>
          simp only [renderNode] at h
          split at h
          · exact Except.noConfusion h
          · rename_i s₁ cs₁ ins₁ heq₁
            injection h with h'
            injection h' with h1 h2
            injection h2 with h3 h4
            subst h3
            simp only [normN]
            rw [renderListF_norm _ ih _ _ _ _ _ _ hnei heq₁]
        | .ifN a b c d e :: rest₂ =>
          simp only [renderNode] at h
          split at h
          · exact Except.noConfusion h
          · rename_i s₁ cs₁ ins₁ heq₁
            injection h with h'
            injection h' with h1 h2
            injection h2 with h3 h4
            subst h3
            simp only [normN]
            rw [renderListF_norm _ ih _ _ _ _ _ _ hnei heq₁]
        | .elifN a :: rest₂ =>
          simp only [renderNode] at h
          split at h
          · exact Except.noConfusion h
          · rename_i s₁ cs₁ ins₁ heq₁
            injection h with h'
            injection h' with h1 h2
            injection h2 with h3 h4
            subst h3
            simp only [normN]
            rw [renderListF_norm _ ih _ _ _ _ _ _ hnei heq₁]
        | .elseN :: rest₂ =>
          simp only [renderNode] at h
          split at h
          · exact Except.noConfusion h
          · rename_i s₁ cs₁ ins₁ heq₁
            injection h with h'
            injection h' with h1 h2
            injection h2 with h3 h4
            subst h3
            simp only [normN]
            rw [renderListF_norm _ ih _ _ _ _ _ _ hnei heq₁]
        | .rawN a b c :: rest₂ =>
          simp only [renderNode] at h
          split at h
          · exact Except.noConfusion h
          · rename_i s₁ cs₁ ins₁ heq₁
            injection h with h'
            injection h' with h1 h2
            injection h2 with h3 h4
            subst h3
            simp only [normN]
            rw [renderListF_norm _ ih _ _ _ _ _ _ hnei heq₁]
        | .escapeN a b c d :: rest₂ =>
          simp only [renderNode] at h
          split at h
          · exact Except.noConfusion h
          · rename_i s₁ cs₁ ins₁ heq₁
            injection h with h'
            injection h' with h1 h2
            injection h2 with h3 h4
            subst h3
            simp only [normN]
            rw [renderListF_norm _ ih _ _ _ _ _ _ hnei heq₁]
        | .blockN a b c d :: rest₂ =>
          simp only [renderNode] at h
          split at h
          · exact Except.noConfusion h
          · rename_i s₁ cs₁ ins₁ heq₁
            injection h with h'
            injection h' with h1 h2
            injection h2 with h3 h4
            subst h3
            simp only [normN]
            rw [renderListF_norm _ ih _ _ _ _ _ _ hnei heq₁]
        | .includeN a :: rest₂ =>
          simp only [normList, normN, noExtIncList, noExtInc, Bool.false_and,
            Bool.and_false] at hnei
          exact Bool.noConfusion hnei
        | .rootN a :: rest₂ =>
          simp only [renderNode] at h
          split at h
          · exact Except.noConfusion h
          · rename_i s₁ cs₁ ins₁ heq₁
            injection h with h'
            injection h' with h1 h2
            injection h2 with h3 h4
            subst h3
            simp only [normN]
            rw [renderListF_norm _ ih _ _ _ _ _ _ hnei heq₁]
      | .variableN a b c :: rest =>
        simp only [renderNode] at h
        split at h
        · exact Except.noConfusion h
        · rename_i s₁ cs₁ ins₁ heq₁
          injection h with h'
          injection h' with h1 h2
          injection h2 with h3 h4
          subst h3
          simp only [normN]
          rw [renderListF_norm _ ih _ _ _ _ _ _ hnei heq₁]
      | .comment :: rest =>
        simp only [renderNode] at h
        split at h
        · exact Except.noConfusion h
        · rename_i s₁ cs₁ ins₁ heq₁
          injection h with h'
          injection h' with h1 h2
          injection h2 with h3 h4
          subst h3
          simp only [normN]
          rw [renderListF_norm _ ih _ _ _ _ _ _ hnei heq₁]
      | .setN a b c d :: rest =>
        simp only [renderNode] at h
        split at h
        · exact Except.noConfusion h
        · rename_i s₁ cs₁ ins₁ heq₁
          injection h with h'
          injection h' with h1 h2
          injection h2 with h3 h4
          subst h3
          simp only [normN]
          rw [renderListF_norm _ ih _ _ _ _ _ _ hnei heq₁]
      | .forN a b c d e f :: rest =>
        simp only [renderNode] at h
        split at h
        · exact Except.noConfusion h
        · rename_i s₁ cs₁ ins₁ heq₁
          injection h with h'
          injection h' with h1 h2
          injection h2 with h3 h4
          subst h3
          simp only [normN]
          rw [renderListF_norm _ ih _ _ _ _ _ _ hnei heq₁]
      | .emptyN :: rest =>
        simp only [renderNode] at h
        split at h
        · exact Except.noConfusion h
        · rename_i s₁ cs₁ ins₁ heq₁
          injection h with h'
          injection h' with h1 h2
          injection h2 with h3 h4
          subst h3
          simp only [normN]
          rw [renderListF_norm _ ih _ _ _ _ _ _ hnei heq₁]
      | .ifN a b c d e :: rest =>
        simp only [renderNode] at h
        split at h
        · exact Except.noConfusion h
        · rename_i s₁ cs₁ ins₁ heq₁
          injection h with h'
          injection h' with h1 h2
          injection h2 with h3 h4
          subst h3
          simp only [normN]
          rw [renderListF_norm _ ih _ _ _ _ _ _ hnei heq₁]
      | .elifN a :: rest =>
        simp only [renderNode] at h
        split at h
        · exact Except.noConfusion h
        · rename_i s₁ cs₁ ins₁ heq₁
          injection h with h'
          injection h' with h1 h2
          injection h2 with h3 h4
          subst h3
          simp only [normN]
          rw [renderListF_norm _ ih _ _ _ _ _ _ hnei heq₁]
      | .elseN :: rest =>
        simp only [renderNode] at h
        split at h
        · exact Except.noConfusion h
        · rename_i s₁ cs₁ ins₁ heq₁
          injection h with h'
          injection h' with h1 h2
          injection h2 with h3 h4
          subst h3
          simp only [normN]
          rw [renderListF_norm _ ih _ _ _ _ _ _ hnei heq₁]
      | .rawN a b c :: rest =>
        simp only [renderNode] at h
        split at h
        · exact Except.noConfusion h
        · rename_i s₁ cs₁ ins₁ heq₁
          injection h with h'
          injection h' with h1 h2
          injection h2 with h3 h4
          subst h3
          simp only [normN]
          rw [renderListF_norm _ ih _ _ _ _ _ _ hnei heq₁]
      | .escapeN a b c d :: rest =>
        simp only [renderNode] at h
        split at h
        · exact Except.noConfusion h
        · rename_i s₁ cs₁ ins₁ heq₁
          injection h with h'
          injection h' with h1 h2
          injection h2 with h3 h4
          subst h3
          simp only [normN]
          rw [renderListF_norm _ ih _ _ _ _ _ _ hnei heq₁]
      | .blockN a b c d :: rest =>
        simp only [renderNode] at h
        split at h
        · exact Except.noConfusion h
        · rename_i s₁ cs₁ ins₁ heq₁
          injection h with h'
          injection h' with h1 h2
          injection h2 with h3 h4
          subst h3
          simp only [normN]
          rw [renderListF_norm _ ih _ _ _ _ _ _ hnei heq₁]
      | .includeN a :: rest =>
        simp only [normList, normN, noExtIncList, noExtInc, Bool.false_and] at hnei
        exact Bool.noConfusion hnei
      | .rootN a :: rest =>
        simp only [renderNode] at h
        split at h
        · exact Except.noConfusion h
        · rename_i s₁ cs₁ ins₁ heq₁
          injection h with h'
          injection h' with h1 h2
          injection h2 with h3 h4
          subst h3
          simp only [normN]
          rw [renderListF_norm _ ih _ _ _ _ _ _ hnei heq₁]

/-- Result agreement for the ancestor-mode block pre-render. -/
def outRelB (r r' : Except Err (List Node × Ins)) : Prop :=
  match r, r' with
  | .error e, .error e' => e = e'
  | .ok (l, i), .ok (l', i') => i = i' ∧ normList l = normList l'
  | _, _ => False

/-- Rendering a node and rendering its normal form agree (same value,
same errors, same instance state, norm-equal mutated nodes): the
erased `children` fields are render-dead. -/
def SelfNorm (rn : Node → Ctx → Ins → Except Err (Value × Node × Ins)) : Prop :=
  ∀ n ctx ins, outRel (rn n ctx ins) (rn (normN n) ctx ins)

theorem renderListF_selfnorm (rn : Node → Ctx → Ins → Except Err (Value × Node × Ins))
    (h : SelfNorm rn) :
    ∀ cs ctx ins, outRelL (renderListF rn cs ctx ins) (renderListF rn (normList cs) ctx ins) := by
  intro cs
  induction cs with
  | nil => intro ctx ins; exact outRelL_refl _
  | cons n ns ih =>
    intro ctx ins
    have hrel := h n ctx ins
    simp only [normList, renderListF]
    rcases h1 : rn n ctx ins with e | ⟨v, n', i⟩ <;>
      rcases h2 : rn (normN n) ctx ins with e' | ⟨v', m', i'⟩ <;>
      rw [h1, h2] at hrel <;> simp only [outRel] at hrel
    · simp [outRelL, h1, h2, hrel]
    · obtain ⟨hv, hi, hn⟩ := hrel
      subst hv; subst hi
      have ihrel := ih ctx i
      rcases h3 : renderListF rn ns ctx i with e₂ | ⟨s₂, rest₂, i₂⟩ <;>
        rcases h4 : renderListF rn (normList ns) ctx i with e₂' | ⟨s₂', rest₂', i₂'⟩ <;>
        rw [h3, h4] at ihrel <;> simp only [outRelL] at ihrel
      · simp [outRelL, h3, h4, ihrel]
      · obtain ⟨hs, hi₂, hl⟩ := ihrel
        subst hs; subst hi₂
        simp only [h3, h4, outRelL, normList]
        exact ⟨trivial, trivial, by rw [hn, hl]⟩

theorem renderListF_congr (rn : Node → Ctx → Ins → Except Err (Value × Node × Ins))
    (h : SelfNorm rn) (cs ms : List Node) (ctx : Ctx) (ins : Ins)
    (hcm : normList cs = normList ms) :
    outRelL (renderListF rn cs ctx ins) (renderListF rn ms ctx ins) := by
  have h1 := renderListF_selfnorm rn h cs ctx ins
  have h2 := renderListF_selfnorm rn h ms ctx ins
  rw [hcm] at h1
  exact outRelL_trans h1 (outRelL_symm h2)

theorem renderLoopF_congr (rn : Node → Ctx → Ins → Except Err (Value × Node × Ins))
    (h : SelfNorm rn) (lv : String) (len : Nat) (ctx : Ctx) :
    ∀ xs i main nmain ins, normList main = normList nmain →
      outRelL (renderLoopF rn lv len ctx xs i main ins)
        (renderLoopF rn lv len ctx xs i nmain ins) := by
  intro xs
  induction xs with
  | nil =>
    intro i main nmain ins hcm
    simp [renderLoopF, outRelL, hcm]
  | cons x xs ih =>
    intro i main nmain ins hcm
    have hrel := renderListF_congr rn h main nmain
      (ctxUpdate ctx [(lv, x), ("loop", vLoop len (i + 1) (decide (i = 0)) (decide (i = len - 1)))])
      ins hcm
    simp only [renderLoopF]
    rcases h1 : renderListF rn main
        (ctxUpdate ctx [(lv, x), ("loop", vLoop len (i + 1) (decide (i = 0)) (decide (i = len - 1)))])
        ins with e | ⟨s₁, main₁, i₁⟩ <;>
      rcases h2 : renderListF rn nmain
        (ctxUpdate ctx [(lv, x), ("loop", vLoop len (i + 1) (decide (i = 0)) (decide (i = len - 1)))])
        ins with e' | ⟨s₁', nmain₁, i₁'⟩ <;>
      rw [h1, h2] at hrel <;> simp only [outRelL] at hrel
    · simp [outRelL, h1, h2, hrel]
    · obtain ⟨hs, hi, hl⟩ := hrel
      subst hs; subst hi
      have ihrel := ih (i + 1) main₁ nmain₁ i₁ hl
      rcases h3 : renderLoopF rn lv len ctx xs (i + 1) main₁ i₁ with e₂ | ⟨s₂, main₂, i₂⟩ <;>
        rcases h4 : renderLoopF rn lv len ctx xs (i + 1) nmain₁ i₁ with e₂' | ⟨s₂', nmain₂, i₂'⟩ <;>
        rw [h3, h4] at ihrel <;> simp only [outRelL] at ihrel
      · simp [outRelL, h1, h2, h3, h4, ihrel]
      · obtain ⟨hs₂, hi₂, hl₂⟩ := ihrel
        subst hs₂; subst hi₂
        simp only [h1, h2, h3, h4, outRelL]
        exact ⟨trivial, trivial, hl₂⟩

/-- Result agreement for the `_If` branch scan. -/
def outRelIf (r r' : Except Err (Value × List (String × List Node) × Ins)) : Prop :=
  match r, r' with
  | .error e, .error e' => e = e'
  | .ok (v, bs, i), .ok (v', bs', i') => v = v' ∧ i = i' ∧ normBr bs = normBr bs'
  | _, _ => False

theorem renderIfF_selfnorm (rn : Node → Ctx → Ins → Except Err (Value × Node × Ins))
    (h : SelfNorm rn) :
    ∀ bs ctx ins, outRelIf (renderIfF rn bs ctx ins) (renderIfF rn (normBr bs) ctx ins) := by
  intro bs
  induction bs with
  | nil =>
    intro ctx ins
    simp [normBr, renderIfF, outRelIf]
  | cons b rest ih =>
    obtain ⟨e, br⟩ := b
    intro ctx ins
    simp only [normBr, renderIfF]
    rcases hev : pyEval e ctx with _ | cond
    · simp [outRelIf]
    · by_cases hpf : pyFalsy cond = true
      all_goals simp only [hpf, if_true, if_false, Bool.false_eq_true, ite_true, ite_false]
      · have ihrel := ih ctx ins
        rcases h1 : renderIfF rn rest ctx ins with e₂ | ⟨v₂, rest₂, i₂⟩ <;>
          rcases h2 : renderIfF rn (normBr rest) ctx ins with e₂' | ⟨v₂', rest₂', i₂'⟩ <;>
          rw [h1, h2] at ihrel <;> simp only [outRelIf] at ihrel
        · simp [outRelIf, h1, h2, ihrel]
        · obtain ⟨hv, hi, hb⟩ := ihrel
          subst hv; subst hi
          simp only [h1, h2, outRelIf, normBr]
          exact ⟨trivial, trivial, by rw [hb, normList_idem]⟩
      · have hrel := renderListF_selfnorm rn h br ctx ins
        rcases h1 : renderListF rn br ctx ins with e₂ | ⟨s₂, br₂, i₂⟩ <;>
          rcases h2 : renderListF rn (normList br) ctx ins with e₂' | ⟨s₂', br₂', i₂'⟩ <;>
          rw [h1, h2] at hrel <;> simp only [outRelL] at hrel
        · simp [outRelIf, h1, h2, hrel]
        · obtain ⟨hs, hi, hl⟩ := hrel
          subst hs; subst hi
          simp only [h1, h2, outRelIf, normBr]
          exact ⟨trivial, trivial, by rw [hl, normBr_idem]⟩

theorem renderBlocksF_selfnorm (rn : Node → Ctx → Ins → Except Err (Value × Node × Ins))
    (h : SelfNorm rn) :
    ∀ cs ctx ins, outRelB (renderBlocksF rn cs ctx ins) (renderBlocksF rn (normList cs) ctx ins) := by
  intro cs
  induction cs with
  | nil => intro ctx ins; simp [renderBlocksF, outRelB, normList]
  | cons c cs ih =>
    intro ctx ins
    match c with
    | .text s₀ =>
      simp only [normList, normN, renderBlocksF]
      have ihrel := ih ctx ins
      rcases h3 : renderBlocksF rn cs ctx ins with e₂ | ⟨cs₂, i₂⟩ <;>
        rcases h4 : renderBlocksF rn (normList cs) ctx ins with e₂' | ⟨ncs₂, i₂'⟩ <;>
        rw [h3, h4] at ihrel <;> simp only [outRelB] at ihrel
      · simp [outRelB, h3, h4, ihrel]
      · obtain ⟨hi₂, hl⟩ := ihrel
        subst hi₂
        simp only [h3, h4, outRelB, normList]
        exact ⟨trivial, by simp [normN, normN_idem, normList_idem, normBr_idem, hl]⟩
    | .variableN a b c₀ =>
      simp only [normList, normN, renderBlocksF]
      have ihrel := ih ctx ins
      rcases h3 : renderBlocksF rn cs ctx ins with e₂ | ⟨cs₂, i₂⟩ <;>
        rcases h4 : renderBlocksF rn (normList cs) ctx ins with e₂' | ⟨ncs₂, i₂'⟩ <;>
        rw [h3, h4] at ihrel <;> simp only [outRelB] at ihrel
      · simp [outRelB, h3, h4, ihrel]
      · obtain ⟨hi₂, hl⟩ := ihrel
        subst hi₂
        simp only [h3, h4, outRelB, normList]
        exact ⟨trivial, by simp [normN, normN_idem, normList_idem, normBr_idem, hl]⟩
    | .comment =>
      simp only [normList, normN, renderBlocksF]
      have ihrel := ih ctx ins
      rcases h3 : renderBlocksF rn cs ctx ins with e₂ | ⟨cs₂, i₂⟩ <;>
        rcases h4 : renderBlocksF rn (normList cs) ctx ins with e₂' | ⟨ncs₂, i₂'⟩ <;>
        rw [h3, h4] at ihrel <;> simp only [outRelB] at ihrel
      · simp [outRelB, h3, h4, ihrel]
      · obtain ⟨hi₂, hl⟩ := ihrel
        subst hi₂
        simp only [h3, h4, outRelB, normList]
        exact ⟨trivial, by simp [normN, normN_idem, normList_idem, normBr_idem, hl]⟩
    | .emptyN =>
      simp only [normList, normN, renderBlocksF]
      have ihrel := ih ctx ins
      rcases h3 : renderBlocksF rn cs ctx ins with e₂ | ⟨cs₂, i₂⟩ <;>
        rcases h4 : renderBlocksF rn (normList cs) ctx ins with e₂' | ⟨ncs₂, i₂'⟩ <;>
        rw [h3, h4] at ihrel <;> simp only [outRelB] at ihrel
      · simp [outRelB, h3, h4, ihrel]
      · obtain ⟨hi₂, hl⟩ := ihrel
        subst hi₂
        simp only [h3, h4, outRelB, normList]
        exact ⟨trivial, by simp [normN, normN_idem, normList_idem, normBr_idem, hl]⟩
    | .elifN a =>
      simp only [normList, normN, renderBlocksF]
      have ihrel := ih ctx ins
      rcases h3 : renderBlocksF rn cs ctx ins with e₂ | ⟨cs₂, i₂⟩ <;>
        rcases h4 : renderBlocksF rn (normList cs) ctx ins with e₂' | ⟨ncs₂, i₂'⟩ <;>
        rw [h3, h4] at ihrel <;> simp only [outRelB] at ihrel
      · simp [outRelB, h3, h4, ihrel]
      · obtain ⟨hi₂, hl⟩ := ihrel
        subst hi₂
        simp only [h3, h4, outRelB, normList]
        exact ⟨trivial, by simp [normN, normN_idem, normList_idem, normBr_idem, hl]⟩
    | .elseN =>
      simp only [normList, normN, renderBlocksF]
      have ihrel := ih ctx ins
      rcases h3 : renderBlocksF rn cs ctx ins with e₂ | ⟨cs₂, i₂⟩ <;>
        rcases h4 : renderBlocksF rn (normList cs) ctx ins with e₂' | ⟨ncs₂, i₂'⟩ <;>
        rw [h3, h4] at ihrel <;> simp only [outRelB] at ihrel
      · simp [outRelB, h3, h4, ihrel]
      · obtain ⟨hi₂, hl⟩ := ihrel
        subst hi₂
        simp only [h3, h4, outRelB, normList]
        exact ⟨trivial, by simp [normN, normN_idem, normList_idem, normBr_idem, hl]⟩
    | .rawN a b c₀ =>
      simp only [normList, normN, renderBlocksF]
      have ihrel := ih ctx ins
      rcases h3 : renderBlocksF rn cs ctx ins with e₂ | ⟨cs₂, i₂⟩ <;>
        rcases h4 : renderBlocksF rn (normList cs) ctx ins with e₂' | ⟨ncs₂, i₂'⟩ <;>
        rw [h3, h4] at ihrel <;> simp only [outRelB] at ihrel
      · simp [outRelB, h3, h4, ihrel]
      · obtain ⟨hi₂, hl⟩ := ihrel
        subst hi₂
        simp only [h3, h4, outRelB, normList]
        exact ⟨trivial, by simp [normN, normN_idem, normList_idem, normBr_idem, hl]⟩
    | .setN a b c₀ d =>
      simp only [normList, normN, renderBlocksF]
      have ihrel := ih ctx ins
      rcases h3 : renderBlocksF rn cs ctx ins with e₂ | ⟨cs₂, i₂⟩ <;>
        rcases h4 : renderBlocksF rn (normList cs) ctx ins with e₂' | ⟨ncs₂, i₂'⟩ <;>
        rw [h3, h4] at ihrel <;> simp only [outRelB] at ihrel
      · simp [outRelB, h3, h4, ihrel]
      · obtain ⟨hi₂, hl⟩ := ihrel
        subst hi₂
        simp only [h3, h4, outRelB, normList]
        exact ⟨trivial, by simp [normN, normN_idem, normList_idem, normBr_idem, hl]⟩
    | .escapeN a b c₀ d =>
      simp only [normList, normN, renderBlocksF]
      have ihrel := ih ctx ins
      rcases h3 : renderBlocksF rn cs ctx ins with e₂ | ⟨cs₂, i₂⟩ <;>
        rcases h4 : renderBlocksF rn (normList cs) ctx ins with e₂' | ⟨ncs₂, i₂'⟩ <;>
        rw [h3, h4] at ihrel <;> simp only [outRelB] at ihrel
      · simp [outRelB, h3, h4, ihrel]
      · obtain ⟨hi₂, hl⟩ := ihrel
        subst hi₂
        simp only [h3, h4, outRelB, normList]
        exact ⟨trivial, by simp [normN, normN_idem, normList_idem, normBr_idem, hl]⟩
    | .extendsN a =>
      simp only [normList, normN, renderBlocksF]
      have ihrel := ih ctx ins
      rcases h3 : renderBlocksF rn cs ctx ins with e₂ | ⟨cs₂, i₂⟩ <;>
        rcases h4 : renderBlocksF rn (normList cs) ctx ins with e₂' | ⟨ncs₂, i₂'⟩ <;>
        rw [h3, h4] at ihrel <;> simp only [outRelB] at ihrel
      · simp [outRelB, h3, h4, ihrel]
      · obtain ⟨hi₂, hl⟩ := ihrel
        subst hi₂
        simp only [h3, h4, outRelB, normList]
        exact ⟨trivial, by simp [normN, normN_idem, normList_idem, normBr_idem, hl]⟩
    | .includeN a =>
      simp only [normList, normN, renderBlocksF]
      have ihrel := ih ctx ins
      rcases h3 : renderBlocksF rn cs ctx ins with e₂ | ⟨cs₂, i₂⟩ <;>
        rcases h4 : renderBlocksF rn (normList cs) ctx ins with e₂' | ⟨ncs₂, i₂'⟩ <;>
        rw [h3, h4] at ihrel <;> simp only [outRelB] at ihrel
      · simp [outRelB, h3, h4, ihrel]
      · obtain ⟨hi₂, hl⟩ := ihrel
        subst hi₂
        simp only [h3, h4, outRelB, normList]
        exact ⟨trivial, by simp [normN, normN_idem, normList_idem, normBr_idem, hl]⟩
    | .rootN a =>
      simp only [normList, normN, renderBlocksF]
      have ihrel := ih ctx ins
      rcases h3 : renderBlocksF rn cs ctx ins with e₂ | ⟨cs₂, i₂⟩ <;>
        rcases h4 : renderBlocksF rn (normList cs) ctx ins with e₂' | ⟨ncs₂, i₂'⟩ <;>
        rw [h3, h4] at ihrel <;> simp only [outRelB] at ihrel
      · simp [outRelB, h3, h4, ihrel]
      · obtain ⟨hi₂, hl⟩ := ihrel
        subst hi₂
        simp only [h3, h4, outRelB, normList]
        exact ⟨trivial, by simp [normN, normN_idem, normList_idem, normBr_idem, hl]⟩
    | .forN a b c₀ d e₀ br =>
      rcases br with _ | ⟨m, em⟩
      · simp only [normList, normN, renderBlocksF]
        have ihrel := ih ctx ins
        rcases h3 : renderBlocksF rn cs ctx ins with e₂ | ⟨cs₂, i₂⟩ <;>
          rcases h4 : renderBlocksF rn (normList cs) ctx ins with e₂' | ⟨ncs₂, i₂'⟩ <;>
          rw [h3, h4] at ihrel <;> simp only [outRelB] at ihrel
        · simp [outRelB, h3, h4, ihrel]
        · obtain ⟨hi₂, hl⟩ := ihrel
          subst hi₂
          simp only [h3, h4, outRelB, normList]
          exact ⟨trivial, by simp [normN, normN_idem, normList_idem, normBr_idem, hl]⟩
      · simp only [normList, normN, renderBlocksF]
        have ihrel := ih ctx ins
        rcases h3 : renderBlocksF rn cs ctx ins with e₂ | ⟨cs₂, i₂⟩ <;>
          rcases h4 : renderBlocksF rn (normList cs) ctx ins with e₂' | ⟨ncs₂, i₂'⟩ <;>
          rw [h3, h4] at ihrel <;> simp only [outRelB] at ihrel
        · simp [outRelB, h3, h4, ihrel]
        · obtain ⟨hi₂, hl⟩ := ihrel
          subst hi₂
          simp only [h3, h4, outRelB, normList]
          exact ⟨trivial, by simp [normN, normN_idem, normList_idem, normBr_idem, hl]⟩
    | .ifN a b c₀ d br =>
      rcases br with _ | bs
      · simp only [normList, normN, renderBlocksF]
        have ihrel := ih ctx ins
        rcases h3 : renderBlocksF rn cs ctx ins with e₂ | ⟨cs₂, i₂⟩ <;>
          rcases h4 : renderBlocksF rn (normList cs) ctx ins with e₂' | ⟨ncs₂, i₂'⟩ <;>
          rw [h3, h4] at ihrel <;> simp only [outRelB] at ihrel
        · simp [outRelB, h3, h4, ihrel]
        · obtain ⟨hi₂, hl⟩ := ihrel
          subst hi₂
          simp only [h3, h4, outRelB, normList]
          exact ⟨trivial, by simp [normN, normN_idem, normList_idem, normBr_idem, hl]⟩
      · simp only [normList, normN, renderBlocksF]
        have ihrel := ih ctx ins
        rcases h3 : renderBlocksF rn cs ctx ins with e₂ | ⟨cs₂, i₂⟩ <;>
          rcases h4 : renderBlocksF rn (normList cs) ctx ins with e₂' | ⟨ncs₂, i₂'⟩ <;>
          rw [h3, h4] at ihrel <;> simp only [outRelB] at ihrel
        · simp [outRelB, h3, h4, ihrel]
        · obtain ⟨hi₂, hl⟩ := ihrel
          subst hi₂
          simp only [h3, h4, outRelB, normList]
          exact ⟨trivial, by simp [normN, normN_idem, normList_idem, normBr_idem, hl]⟩
    | .blockN f nm et l =>
      simp only [normList, normN, renderBlocksF]
      have hrel := h (.blockN f nm et l) ctx ins
      simp only [normN] at hrel
      rcases h1 : rn (.blockN f nm et l) ctx ins with e | ⟨v₁, c₁, i₁⟩ <;>
        rcases h2 : rn (.blockN f nm et (normList l)) ctx ins with e' | ⟨v₁', c₁', i₁'⟩ <;>
        rw [h1, h2] at hrel <;> simp only [outRel] at hrel
      · simp [outRelB, h1, h2, hrel]
      · obtain ⟨hv, hi, hn⟩ := hrel
        subst hv; subst hi
        have ihrel := ih ctx i₁
        rcases h3 : renderBlocksF rn cs ctx i₁ with e₂ | ⟨cs₂, i₂⟩ <;>
          rcases h4 : renderBlocksF rn (normList cs) ctx i₁ with e₂' | ⟨ncs₂, i₂'⟩ <;>
          rw [h3, h4] at ihrel <;> simp only [outRelB] at ihrel
        · simp [outRelB, h1, h2, h3, h4, ihrel]
        · obtain ⟨hi₂, hl⟩ := ihrel
          subst hi₂
          simp only [h1, h2, h3, h4, outRelB, normList]
          exact ⟨trivial, by rw [hn, hl]⟩

theorem normList_isEmpty (l : List Node) : (normList l).isEmpty = l.isEmpty := by
  cases l <;> simp [normList]

theorem renderNode_selfnorm (loader : Loader) :
    ∀ fuel, SelfNorm (renderNode loader fuel) := by
  intro fuel
  induction fuel with
  | zero =>
    intro n ctx ins
    simp [renderNode, outRel]
  | succ fuel ih =>
    intro n ctx ins
    match n with
    | .text s =>
      have hn : normN (Node.text s) = Node.text s := by simp [normN]
      rw [hn]
      exact outRel_refl _
    | .comment =>
      have hn : normN Node.comment = Node.comment := by simp [normN]
      rw [hn]
      exact outRel_refl _
    | .emptyN =>
      have hn : normN Node.emptyN = Node.emptyN := by simp [normN]
      rw [hn]
      exact outRel_refl _
    | .elifN e =>
      have hn : normN (Node.elifN e) = Node.elifN e := by simp [normN]
      rw [hn]
      exact outRel_refl _
    | .elseN =>
      have hn : normN Node.elseN = Node.elseN := by simp [normN]
      rw [hn]
      exact outRel_refl _
    | .variableN v hf cbs =>
      have hn : normN (Node.variableN v hf cbs) = Node.variableN v hf cbs := by simp [normN]
      rw [hn]
      exact outRel_refl _
    | .rawN f et rs =>
      have hn : normN (Node.rawN f et rs) = Node.rawN f et rs := by simp [normN]
      rw [hn]
      exact outRel_refl _
    | .extendsN fn =>
      have hn : normN (Node.extendsN fn) = Node.extendsN fn := by simp [normN]
      rw [hn]
      exact outRel_refl _
    | .includeN fn =>
      have hn : normN (Node.includeN fn) = Node.includeN fn := by simp [normN]
      rw [hn]
      exact outRel_refl _
    | .setN f a et cs =>
      have hn : normN (Node.setN f a et cs) = Node.setN f a et (normList cs) := by simp [normN]
      rw [hn]
      rcases et with _ | tok
      · simp only [renderNode]
        simp [outRel]
      · simp only [renderNode]
        by_cases htok : tok ≠ "endset"
        · simp only [if_pos htok]
          simp [outRel]
        · simp only [if_neg htok]
          rcases hsa : evalSetArgs a ctx with e | bindings
          · simp [hsa, outRel]
          · simp only [hsa]
            have hrel := renderListF_selfnorm _ ih cs (ctxUpdate ctx bindings) ins
            rcases h1 : renderListF (renderNode loader fuel) cs (ctxUpdate ctx bindings) ins
                with e | ⟨s₁, cs₁, i₁⟩ <;>
              rcases h2 : renderListF (renderNode loader fuel) (normList cs)
                  (ctxUpdate ctx bindings) ins with e' | ⟨s₁', ncs₁, i₁'⟩ <;>
              rw [h1, h2] at hrel <;> simp only [outRelL] at hrel
            · simp [outRel, h1, h2, hrel]
            · obtain ⟨hs, hi, hl⟩ := hrel
              subst hs; subst hi
              simp only [h1, h2, outRel]
              exact ⟨trivial, trivial, by simp [normN, normList_idem, hl]⟩
    | .escapeN f d et cs =>
      have hn : normN (Node.escapeN f d et cs) = Node.escapeN f d et (normList cs) := by
        simp [normN]
      rw [hn]
      rcases et with _ | tok
      · simp only [renderNode]
        simp [outRel]
      · simp only [renderNode]
        by_cases htok : tok ≠ "endescape"
        · simp only [if_pos htok]
          simp [outRel]
        · simp only [if_neg htok]
          have hrel := renderListF_selfnorm _ ih cs
            (if d = "off" ∨ d = "OFF" then ctxUpdate ctx [("~>_<~", vStr "off")] else ctx) ins
          rcases h1 : renderListF (renderNode loader fuel) cs
              (if d = "off" ∨ d = "OFF" then ctxUpdate ctx [("~>_<~", vStr "off")] else ctx) ins
              with e | ⟨s₁, cs₁, i₁⟩ <;>
            rcases h2 : renderListF (renderNode loader fuel) (normList cs)
                (if d = "off" ∨ d = "OFF" then ctxUpdate ctx [("~>_<~", vStr "off")] else ctx) ins
                with e' | ⟨s₁', ncs₁, i₁'⟩ <;>
            rw [h1, h2] at hrel <;> simp only [outRelL] at hrel
          · simp [outRel, h1, h2, hrel]
          · obtain ⟨hs, hi, hl⟩ := hrel
            subst hs; subst hi
            simp only [h1, h2, outRel]
            exact ⟨trivial, trivial, by simp [normN, normList_idem, hl]⟩
    | .forN f lv ex et cs br =>
      rcases br with _ | ⟨m, em⟩
      · have hn : normN (Node.forN f lv ex et cs none) =
            Node.forN f lv ex et (normList cs) none := by simp [normN]
        rw [hn]
        rcases et with _ | tok
        · simp only [renderNode]
          simp [outRel]
        · simp only [renderNode]
          by_cases htok : tok ≠ "endfor"
          · simp only [if_pos htok]
            simp [outRel]
          · simp only [if_neg htok]
            rcases hev : pyEval ex ctx with _ | items
            · simp [outRel]
            · rcases hlen : pyLen items with _ | len <;> simp [hlen, outRel]
      · have hn : normN (Node.forN f lv ex et cs (some (m, em))) =
            Node.forN f lv ex et [] (some (normList m, normList em)) := by simp [normN]
        rw [hn]
        rcases et with _ | tok
        · simp only [renderNode]
          simp [outRel]
        · simp only [renderNode]
          by_cases htok : tok ≠ "endfor"
          · simp only [if_pos htok]
            simp [outRel]
          · simp only [if_neg htok]
            rcases hev : pyEval ex ctx with _ | items
            · simp [outRel]
            · rcases hlen : pyLen items with _ | len
              · simp [hlen, outRel]
              · simp only [hlen]
                by_cases hcond : pyFalsy items = true ∧ ¬ em.isEmpty = true
                · rw [if_pos hcond, if_pos (by
                    refine ⟨hcond.1, ?_⟩
                    rw [normList_isEmpty]
                    exact hcond.2)]
                  have hrel := renderListF_selfnorm _ ih em ctx ins
                  rcases h1 : renderListF (renderNode loader fuel) em ctx ins
                      with e | ⟨s₁, em₁, i₁⟩ <;>
                    rcases h2 : renderListF (renderNode loader fuel) (normList em) ctx ins
                        with e' | ⟨s₁', nem₁, i₁'⟩ <;>
                    rw [h1, h2] at hrel <;> simp only [outRelL] at hrel
                  · simp [outRel, h1, h2, hrel]
                  · obtain ⟨hs, hi, hl⟩ := hrel
                    subst hs; subst hi
                    simp only [h1, h2, outRel]
                    exact ⟨trivial, trivial, by simp [normN, normList_idem, hl]⟩
                · rw [if_neg hcond, if_neg (by
                    intro hc
                    exact hcond ⟨hc.1, by
                      rw [normList_isEmpty] at hc
                      exact hc.2⟩)]
                  rcases hit : pyIter items with _ | xs
                  · simp [outRel]
                  · simp only [hit]
                    have hrel := renderLoopF_congr _ ih lv len ctx xs 0 m (normList m) ins
                      (normList_idem m).symm
                    rcases h1 : renderLoopF (renderNode loader fuel) lv len ctx xs 0 m ins
                        with e | ⟨s₁, m₁, i₁⟩ <;>
                      rcases h2 : renderLoopF (renderNode loader fuel) lv len ctx xs 0
                          (normList m) ins with e' | ⟨s₁', nm₁, i₁'⟩ <;>
                      rw [h1, h2] at hrel <;> simp only [outRelL] at hrel
                    · simp [outRel, h1, h2, hrel]
                    · obtain ⟨hs, hi, hl⟩ := hrel
                      subst hs; subst hi
                      simp only [h1, h2, outRel]
                      exact ⟨trivial, trivial, by simp [normN, normList_idem, hl]⟩
    | .ifN f e et cs br =>
      rcases br with _ | bs
      · have hn : normN (Node.ifN f e et cs none) =
            Node.ifN f e et (normList cs) none := by simp [normN]
        rw [hn]
        rcases et with _ | tok
        · simp only [renderNode]
          simp [outRel]
        · simp only [renderNode]
          by_cases htok : tok ≠ "endif"
          · simp only [if_pos htok]
            simp [outRel]
          · simp only [if_neg htok]
            simp [outRel]
      · have hn : normN (Node.ifN f e et cs (some bs)) =
            Node.ifN f e et [] (some (normBr bs)) := by simp [normN]
        rw [hn]
        rcases et with _ | tok
        · simp only [renderNode]
          simp [outRel]
        · simp only [renderNode]
          by_cases htok : tok ≠ "endif"
          · simp only [if_pos htok]
            simp [outRel]
          · simp only [if_neg htok]
            have hrel := renderIfF_selfnorm _ ih bs ctx ins
            rcases h1 : renderIfF (renderNode loader fuel) bs ctx ins
                with er | ⟨v₁, bs₁, i₁⟩ <;>
              rcases h2 : renderIfF (renderNode loader fuel) (normBr bs) ctx ins
                  with er' | ⟨v₁', bs₁', i₁'⟩ <;>
              rw [h1, h2] at hrel <;> simp only [outRelIf] at hrel
            · simp [outRel, h1, h2, hrel]
            · obtain ⟨hv, hi, hb⟩ := hrel
              subst hv; subst hi
              simp only [h1, h2, outRel]
              exact ⟨trivial, trivial, by simp [normN, normBr_idem, hb]⟩
    | .blockN f nm et cs =>
      have hn : normN (Node.blockN f nm et cs) = Node.blockN f nm et (normList cs) := by
        simp [normN]
      rw [hn]
      rcases et with _ | tok
      · simp only [renderNode]
        simp [outRel]
      · simp only [renderNode]
        by_cases htok : tok ≠ "endblock"
        · simp only [if_pos htok]
          simp [outRel]
        · simp only [if_neg htok]
          by_cases hha : ins.has_ancestor
          · simp only [if_pos hha]
            have hrel := renderListF_selfnorm _ ih cs ctx ins
            rcases h1 : renderListF (renderNode loader fuel) cs ctx ins
                with e | ⟨s₁, cs₁, i₁⟩ <;>
              rcases h2 : renderListF (renderNode loader fuel) (normList cs) ctx ins
                  with e' | ⟨s₁', ncs₁, i₁'⟩ <;>
              rw [h1, h2] at hrel <;> simp only [outRelL] at hrel
            · simp [outRel, h1, h2, hrel]
            · obtain ⟨hs, hi, hl⟩ := hrel
              subst hs; subst hi
              rcases hbd : i₁.block_dicts with _ | ⟨d, ds⟩
              · simp [hbd, outRel]
              · simp [hbd, outRel, normN, normList_idem, hl]
          · simp only [if_neg hha]
            rcases hov : findBlockOverride ins.block_dicts nm with _ | result
            · simp only [hov]
              have hrel := renderListF_selfnorm _ ih cs ctx ins
              rcases h1 : renderListF (renderNode loader fuel) cs ctx ins
                  with e | ⟨s₁, cs₁, i₁⟩ <;>
                rcases h2 : renderListF (renderNode loader fuel) (normList cs) ctx ins
                    with e' | ⟨s₁', ncs₁, i₁'⟩ <;>
                rw [h1, h2] at hrel <;> simp only [outRelL] at hrel
              · simp [outRel, h1, h2, hrel]
              · obtain ⟨hs, hi, hl⟩ := hrel
                subst hs; subst hi
                simp only [h1, h2, outRel]
                exact ⟨trivial, trivial, by simp [normN, normList_idem, hl]⟩
            · simp only [hov]
              simp [outRel, normN, normList_idem]
    | .rootN cs =>
      match cs with
      | [] =>
        have hn : normN (Node.rootN []) = Node.rootN [] := by simp [normN, normList]
        rw [hn]
        simp only [renderNode]
        simp [outRel]
      | .extendsN fn :: rest =>
        have hn : normN (Node.rootN (.extendsN fn :: rest)) =
            Node.rootN (.extendsN fn :: normList rest) := by
          simp [normN, normList]
        rw [hn]
        simp only [renderNode, rootAncestorF]
        have hrel := renderBlocksF_selfnorm _ ih rest ctx
          { has_ancestor := true, block_dicts := [] :: ins.block_dicts }
        rcases h1 : renderBlocksF (renderNode loader fuel) rest ctx
            { has_ancestor := true, block_dicts := [] :: ins.block_dicts } with e | ⟨cs₁, i₁⟩ <;>
          rcases h2 : renderBlocksF (renderNode loader fuel) (normList rest) ctx
              { has_ancestor := true, block_dicts := [] :: ins.block_dicts }
              with e' | ⟨ncs₁, i₁'⟩ <;>
          rw [h1, h2] at hrel <;> simp only [outRelB] at hrel
        · simp [outRel, h1, h2, hrel]
        · obtain ⟨hi, hl⟩ := hrel
          subst hi
          rcases h3 : renderNode loader fuel (.extendsN fn) ctx i₁ with e | ⟨v₁, x₁, i₃⟩
          · simp [outRel, h1, h2, h3]
          · simp [outRel, h1, h2, h3, normN, hl]
      | .forN a b c₀ d e₀ br :: rest =>
        rcases br with _ | ⟨m, em⟩
        · have hn0 : normList (.forN a b c₀ d e₀ none :: rest) = Node.forN a b c₀ d (normList e₀) none :: normList rest := by
            simp [normList, normN]
          have hn : normN (Node.rootN (.forN a b c₀ d e₀ none :: rest)) = Node.rootN (Node.forN a b c₀ d (normList e₀) none :: normList rest) := by
            simp [normN, hn0]
          rw [hn]
          simp only [renderNode]
          have hrel := renderListF_selfnorm _ ih (.forN a b c₀ d e₀ none :: rest) ctx { ins with has_ancestor := false }
          rw [hn0] at hrel
          rcases h1 : renderListF (renderNode loader fuel) (.forN a b c₀ d e₀ none :: rest) ctx
              { ins with has_ancestor := false } with e | ⟨s₁, cs₁, i₁⟩ <;>
            rcases h2 : renderListF (renderNode loader fuel) (Node.forN a b c₀ d (normList e₀) none :: normList rest) ctx
                { ins with has_ancestor := false } with e' | ⟨s₁', ncs₁, i₁'⟩ <;>
            rw [h1, h2] at hrel <;> simp only [outRelL] at hrel
          · simp [outRel, h1, h2, hrel]
          · obtain ⟨hs, hi, hl⟩ := hrel
            subst hs; subst hi
            simp only [h1, h2, outRel]
            exact ⟨trivial, trivial, by simp [normN, hl]⟩
        · have hn0 : normList (.forN a b c₀ d e₀ (some (m, em)) :: rest) = Node.forN a b c₀ d [] (some (normList m, normList em)) :: normList rest := by
            simp [normList, normN]
          have hn : normN (Node.rootN (.forN a b c₀ d e₀ (some (m, em)) :: rest)) = Node.rootN (Node.forN a b c₀ d [] (some (normList m, normList em)) :: normList rest) := by
            simp [normN, hn0]
          rw [hn]
          simp only [renderNode]
          have hrel := renderListF_selfnorm _ ih (.forN a b c₀ d e₀ (some (m, em)) :: rest) ctx { ins with has_ancestor := false }
          rw [hn0] at hrel
          rcases h1 : renderListF (renderNode loader fuel) (.forN a b c₀ d e₀ (some (m, em)) :: rest) ctx
              { ins with has_ancestor := false } with e | ⟨s₁, cs₁, i₁⟩ <;>
            rcases h2 : renderListF (renderNode loader fuel) (Node.forN a b c₀ d [] (some (normList m, normList em)) :: normList rest) ctx
                { ins with has_ancestor := false } with e' | ⟨s₁', ncs₁, i₁'⟩ <;>
            rw [h1, h2] at hrel <;> simp only [outRelL] at hrel
          · simp [outRel, h1, h2, hrel]
          · obtain ⟨hs, hi, hl⟩ := hrel
            subst hs; subst hi
            simp only [h1, h2, outRel]
            exact ⟨trivial, trivial, by simp [normN, hl]⟩
      | .ifN a b c₀ d br :: rest =>
        rcases br with _ | bs
        · have hn0 : normList (.ifN a b c₀ d none :: rest) = Node.ifN a b c₀ (normList d) none :: normList rest := by
            simp [normList, normN]
          have hn : normN (Node.rootN (.ifN a b c₀ d none :: rest)) = Node.rootN (Node.ifN a b c₀ (normList d) none :: normList rest) := by
            simp [normN, hn0]
          rw [hn]
          simp only [renderNode]
          have hrel := renderListF_selfnorm _ ih (.ifN a b c₀ d none :: rest) ctx { ins with has_ancestor := false }
          rw [hn0] at hrel
          rcases h1 : renderListF (renderNode loader fuel) (.ifN a b c₀ d none :: rest) ctx
              { ins with has_ancestor := false } with e | ⟨s₁, cs₁, i₁⟩ <;>
            rcases h2 : renderListF (renderNode loader fuel) (Node.ifN a b c₀ (normList d) none :: normList rest) ctx
                { ins with has_ancestor := false } with e' | ⟨s₁', ncs₁, i₁'⟩ <;>
            rw [h1, h2] at hrel <;> simp only [outRelL] at hrel
          · simp [outRel, h1, h2, hrel]
          · obtain ⟨hs, hi, hl⟩ := hrel
            subst hs; subst hi
            simp only [h1, h2, outRel]
            exact ⟨trivial, trivial, by simp [normN, hl]⟩
        · have hn0 : normList (.ifN a b c₀ d (some bs) :: rest) = Node.ifN a b c₀ [] (some (normBr bs)) :: normList rest := by
            simp [normList, normN]
          have hn : normN (Node.rootN (.ifN a b c₀ d (some bs) :: rest)) = Node.rootN (Node.ifN a b c₀ [] (some (normBr bs)) :: normList rest) := by
            simp [normN, hn0]
          rw [hn]
          simp only [renderNode]
          have hrel := renderListF_selfnorm _ ih (.ifN a b c₀ d (some bs) :: rest) ctx { ins with has_ancestor := false }
          rw [hn0] at hrel
          rcases h1 : renderListF (renderNode loader fuel) (.ifN a b c₀ d (some bs) :: rest) ctx
              { ins with has_ancestor := false } with e | ⟨s₁, cs₁, i₁⟩ <;>
            rcases h2 : renderListF (renderNode loader fuel) (Node.ifN a b c₀ [] (some (normBr bs)) :: normList rest) ctx
                { ins with has_ancestor := false } with e' | ⟨s₁', ncs₁, i₁'⟩ <;>
            rw [h1, h2] at hrel <;> simp only [outRelL] at hrel
          · simp [outRel, h1, h2, hrel]
          · obtain ⟨hs, hi, hl⟩ := hrel
            subst hs; subst hi
            simp only [h1, h2, outRel]
            exact ⟨trivial, trivial, by simp [normN, hl]⟩
      | .variableN a b c₀ :: rest =>
        have hn0 : normList (.variableN a b c₀ :: rest) = Node.variableN a b c₀ :: normList rest := by
          simp [normList, normN]
        have hn : normN (Node.rootN (.variableN a b c₀ :: rest)) = Node.rootN (Node.variableN a b c₀ :: normList rest) := by
          simp [normN, hn0]
        rw [hn]
        simp only [renderNode]
        have hrel := renderListF_selfnorm _ ih (.variableN a b c₀ :: rest) ctx { ins with has_ancestor := false }
        rw [hn0] at hrel
        rcases h1 : renderListF (renderNode loader fuel) (.variableN a b c₀ :: rest) ctx
            { ins with has_ancestor := false } with e | ⟨s₁, cs₁, i₁⟩ <;>
          rcases h2 : renderListF (renderNode loader fuel) (Node.variableN a b c₀ :: normList rest) ctx
              { ins with has_ancestor := false } with e' | ⟨s₁', ncs₁, i₁'⟩ <;>
          rw [h1, h2] at hrel <;> simp only [outRelL] at hrel
        · simp [outRel, h1, h2, hrel]
        · obtain ⟨hs, hi, hl⟩ := hrel
          subst hs; subst hi
          simp only [h1, h2, outRel]
          exact ⟨trivial, trivial, by simp [normN, hl]⟩
      | .comment :: rest =>
        have hn0 : normList (.comment :: rest) = Node.comment :: normList rest := by
          simp [normList, normN]
        have hn : normN (Node.rootN (.comment :: rest)) = Node.rootN (Node.comment :: normList rest) := by
          simp [normN, hn0]
        rw [hn]
        simp only [renderNode]
        have hrel := renderListF_selfnorm _ ih (.comment :: rest) ctx { ins with has_ancestor := false }
        rw [hn0] at hrel
        rcases h1 : renderListF (renderNode loader fuel) (.comment :: rest) ctx
            { ins with has_ancestor := false } with e | ⟨s₁, cs₁, i₁⟩ <;>
          rcases h2 : renderListF (renderNode loader fuel) (Node.comment :: normList rest) ctx
              { ins with has_ancestor := false } with e' | ⟨s₁', ncs₁, i₁'⟩ <;>
          rw [h1, h2] at hrel <;> simp only [outRelL] at hrel
        · simp [outRel, h1, h2, hrel]
        · obtain ⟨hs, hi, hl⟩ := hrel
          subst hs; subst hi
          simp only [h1, h2, outRel]
          exact ⟨trivial, trivial, by simp [normN, hl]⟩
      | .emptyN :: rest =>
        have hn0 : normList (.emptyN :: rest) = Node.emptyN :: normList rest := by
          simp [normList, normN]
        have hn : normN (Node.rootN (.emptyN :: rest)) = Node.rootN (Node.emptyN :: normList rest) := by
          simp [normN, hn0]
        rw [hn]
        simp only [renderNode]
        have hrel := renderListF_selfnorm _ ih (.emptyN :: rest) ctx { ins with has_ancestor := false }
        rw [hn0] at hrel
        rcases h1 : renderListF (renderNode loader fuel) (.emptyN :: rest) ctx
            { ins with has_ancestor := false } with e | ⟨s₁, cs₁, i₁⟩ <;>
          rcases h2 : renderListF (renderNode loader fuel) (Node.emptyN :: normList rest) ctx
              { ins with has_ancestor := false } with e' | ⟨s₁', ncs₁, i₁'⟩ <;>
          rw [h1, h2] at hrel <;> simp only [outRelL] at hrel
        · simp [outRel, h1, h2, hrel]
        · obtain ⟨hs, hi, hl⟩ := hrel
          subst hs; subst hi
          simp only [h1, h2, outRel]
          exact ⟨trivial, trivial, by simp [normN, hl]⟩
      | .elifN a :: rest =>
        have hn0 : normList (.elifN a :: rest) = Node.elifN a :: normList rest := by
          simp [normList, normN]
        have hn : normN (Node.rootN (.elifN a :: rest)) = Node.rootN (Node.elifN a :: normList rest) := by
          simp [normN, hn0]
        rw [hn]
        simp only [renderNode]
        have hrel := renderListF_selfnorm _ ih (.elifN a :: rest) ctx { ins with has_ancestor := false }
        rw [hn0] at hrel
        rcases h1 : renderListF (renderNode loader fuel) (.elifN a :: rest) ctx
            { ins with has_ancestor := false } with e | ⟨s₁, cs₁, i₁⟩ <;>
          rcases h2 : renderListF (renderNode loader fuel) (Node.elifN a :: normList rest) ctx
              { ins with has_ancestor := false } with e' | ⟨s₁', ncs₁, i₁'⟩ <;>
          rw [h1, h2] at hrel <;> simp only [outRelL] at hrel
        · simp [outRel, h1, h2, hrel]
        · obtain ⟨hs, hi, hl⟩ := hrel
          subst hs; subst hi
          simp only [h1, h2, outRel]
          exact ⟨trivial, trivial, by simp [normN, hl]⟩
      | .elseN :: rest =>
        have hn0 : normList (.elseN :: rest) = Node.elseN :: normList rest := by
          simp [normList, normN]
        have hn : normN (Node.rootN (.elseN :: rest)) = Node.rootN (Node.elseN :: normList rest) := by
          simp [normN, hn0]
        rw [hn]
        simp only [renderNode]
        have hrel := renderListF_selfnorm _ ih (.elseN :: rest) ctx { ins with has_ancestor := false }
        rw [hn0] at hrel
        rcases h1 : renderListF (renderNode loader fuel) (.elseN :: rest) ctx
            { ins with has_ancestor := false } with e | ⟨s₁, cs₁, i₁⟩ <;>
          rcases h2 : renderListF (renderNode loader fuel) (Node.elseN :: normList rest) ctx
              { ins with has_ancestor := false } with e' | ⟨s₁', ncs₁, i₁'⟩ <;>
          rw [h1, h2] at hrel <;> simp only [outRelL] at hrel
        · simp [outRel, h1, h2, hrel]
        · obtain ⟨hs, hi, hl⟩ := hrel
          subst hs; subst hi
          simp only [h1, h2, outRel]
          exact ⟨trivial, trivial, by simp [normN, hl]⟩
      | .rawN a b c₀ :: rest =>
        have hn0 : normList (.rawN a b c₀ :: rest) = Node.rawN a b c₀ :: normList rest := by
          simp [normList, normN]
        have hn : normN (Node.rootN (.rawN a b c₀ :: rest)) = Node.rootN (Node.rawN a b c₀ :: normList rest) := by
          simp [normN, hn0]
        rw [hn]
        simp only [renderNode]
        have hrel := renderListF_selfnorm _ ih (.rawN a b c₀ :: rest) ctx { ins with has_ancestor := false }
        rw [hn0] at hrel
        rcases h1 : renderListF (renderNode loader fuel) (.rawN a b c₀ :: rest) ctx
            { ins with has_ancestor := false } with e | ⟨s₁, cs₁, i₁⟩ <;>
          rcases h2 : renderListF (renderNode loader fuel) (Node.rawN a b c₀ :: normList rest) ctx
              { ins with has_ancestor := false } with e' | ⟨s₁', ncs₁, i₁'⟩ <;>
          rw [h1, h2] at hrel <;> simp only [outRelL] at hrel
        · simp [outRel, h1, h2, hrel]
        · obtain ⟨hs, hi, hl⟩ := hrel
          subst hs; subst hi
          simp only [h1, h2, outRel]
          exact ⟨trivial, trivial, by simp [normN, hl]⟩
      | .setN a b c₀ d :: rest =>
        have hn0 : normList (.setN a b c₀ d :: rest) = Node.setN a b c₀ (normList d) :: normList rest := by
          simp [normList, normN]
        have hn : normN (Node.rootN (.setN a b c₀ d :: rest)) = Node.rootN (Node.setN a b c₀ (normList d) :: normList rest) := by
          simp [normN, hn0]
        rw [hn]
        simp only [renderNode]
        have hrel := renderListF_selfnorm _ ih (.setN a b c₀ d :: rest) ctx { ins with has_ancestor := false }
        rw [hn0] at hrel
        rcases h1 : renderListF (renderNode loader fuel) (.setN a b c₀ d :: rest) ctx
            { ins with has_ancestor := false } with e | ⟨s₁, cs₁, i₁⟩ <;>
          rcases h2 : renderListF (renderNode loader fuel) (Node.setN a b c₀ (normList d) :: normList rest) ctx
              { ins with has_ancestor := false } with e' | ⟨s₁', ncs₁, i₁'⟩ <;>
          rw [h1, h2] at hrel <;> simp only [outRelL] at hrel
        · simp [outRel, h1, h2, hrel]
        · obtain ⟨hs, hi, hl⟩ := hrel
          subst hs; subst hi
          simp only [h1, h2, outRel]
          exact ⟨trivial, trivial, by simp [normN, hl]⟩
      | .escapeN a b c₀ d :: rest =>
        have hn0 : normList (.escapeN a b c₀ d :: rest) = Node.escapeN a b c₀ (normList d) :: normList rest := by
          simp [normList, normN]
        have hn : normN (Node.rootN (.escapeN a b c₀ d :: rest)) = Node.rootN (Node.escapeN a b c₀ (normList d) :: normList rest) := by
          simp [normN, hn0]
        rw [hn]
        simp only [renderNode]
        have hrel := renderListF_selfnorm _ ih (.escapeN a b c₀ d :: rest) ctx { ins with has_ancestor := false }
        rw [hn0] at hrel
        rcases h1 : renderListF (renderNode loader fuel) (.escapeN a b c₀ d :: rest) ctx
            { ins with has_ancestor := false } with e | ⟨s₁, cs₁, i₁⟩ <;>
          rcases h2 : renderListF (renderNode loader fuel) (Node.escapeN a b c₀ (normList d) :: normList rest) ctx
              { ins with has_ancestor := false } with e' | ⟨s₁', ncs₁, i₁'⟩ <;>
          rw [h1, h2] at hrel <;> simp only [outRelL] at hrel
        · simp [outRel, h1, h2, hrel]
        · obtain ⟨hs, hi, hl⟩ := hrel
          subst hs; subst hi
          simp only [h1, h2, outRel]
          exact ⟨trivial, trivial, by simp [normN, hl]⟩
      | .blockN a b c₀ d :: rest =>
        have hn0 : normList (.blockN a b c₀ d :: rest) = Node.blockN a b c₀ (normList d) :: normList rest := by
          simp [normList, normN]
        have hn : normN (Node.rootN (.blockN a b c₀ d :: rest)) = Node.rootN (Node.blockN a b c₀ (normList d) :: normList rest) := by
          simp [normN, hn0]
        rw [hn]
        simp only [renderNode]
        have hrel := renderListF_selfnorm _ ih (.blockN a b c₀ d :: rest) ctx { ins with has_ancestor := false }
        rw [hn0] at hrel
        rcases h1 : renderListF (renderNode loader fuel) (.blockN a b c₀ d :: rest) ctx
            { ins with has_ancestor := false } with e | ⟨s₁, cs₁, i₁⟩ <;>
          rcases h2 : renderListF (renderNode loader fuel) (Node.blockN a b c₀ (normList d) :: normList rest) ctx
              { ins with has_ancestor := false } with e' | ⟨s₁', ncs₁, i₁'⟩ <;>
          rw [h1, h2] at hrel <;> simp only [outRelL] at hrel
        · simp [outRel, h1, h2, hrel]
        · obtain ⟨hs, hi, hl⟩ := hrel
          subst hs; subst hi
          simp only [h1, h2, outRel]
          exact ⟨trivial, trivial, by simp [normN, hl]⟩
      | .includeN a :: rest =>
        have hn0 : normList (.includeN a :: rest) = Node.includeN a :: normList rest := by
          simp [normList, normN]
        have hn : normN (Node.rootN (.includeN a :: rest)) = Node.rootN (Node.includeN a :: normList rest) := by
          simp [normN, hn0]
        rw [hn]
        simp only [renderNode]
        have hrel := renderListF_selfnorm _ ih (.includeN a :: rest) ctx { ins with has_ancestor := false }
        rw [hn0] at hrel
        rcases h1 : renderListF (renderNode loader fuel) (.includeN a :: rest) ctx
            { ins with has_ancestor := false } with e | ⟨s₁, cs₁, i₁⟩ <;>
          rcases h2 : renderListF (renderNode loader fuel) (Node.includeN a :: normList rest) ctx
              { ins with has_ancestor := false } with e' | ⟨s₁', ncs₁, i₁'⟩ <;>
          rw [h1, h2] at hrel <;> simp only [outRelL] at hrel
        · simp [outRel, h1, h2, hrel]
        · obtain ⟨hs, hi, hl⟩ := hrel
          subst hs; subst hi
          simp only [h1, h2, outRel]
          exact ⟨trivial, trivial, by simp [normN, hl]⟩
      | .rootN a :: rest =>
        have hn0 : normList (.rootN a :: rest) = Node.rootN (normList a) :: normList rest := by
          simp [normList, normN]
        have hn : normN (Node.rootN (.rootN a :: rest)) = Node.rootN (Node.rootN (normList a) :: normList rest) := by
          simp [normN, hn0]
        rw [hn]
        simp only [renderNode]
        have hrel := renderListF_selfnorm _ ih (.rootN a :: rest) ctx { ins with has_ancestor := false }
        rw [hn0] at hrel
        rcases h1 : renderListF (renderNode loader fuel) (.rootN a :: rest) ctx
            { ins with has_ancestor := false } with e | ⟨s₁, cs₁, i₁⟩ <;>
          rcases h2 : renderListF (renderNode loader fuel) (Node.rootN (normList a) :: normList rest) ctx
              { ins with has_ancestor := false } with e' | ⟨s₁', ncs₁, i₁'⟩ <;>
          rw [h1, h2] at hrel <;> simp only [outRelL] at hrel
        · simp [outRel, h1, h2, hrel]
        · obtain ⟨hs, hi, hl⟩ := hrel
          subst hs; subst hi
          simp only [h1, h2, outRel]
          exact ⟨trivial, trivial, by simp [normN, hl]⟩
      | .text s₀ :: rest =>
        match rest with
        | [] =>
          have hn : normN (Node.rootN [.text s₀]) = Node.rootN [.text s₀] := by
            simp [normN, normList]
          rw [hn]
          simp only [renderNode]
          simp [outRel]
        | .extendsN fn :: rest₂ =>
          have hn : normN (Node.rootN (.text s₀ :: .extendsN fn :: rest₂)) =
              Node.rootN (.text s₀ :: .extendsN fn :: normList rest₂) := by
            simp [normN, normList]
          rw [hn]
          simp only [renderNode, rootAncestorF]
          have hblk : normList (Node.text s₀ :: rest₂) = Node.text s₀ :: normList rest₂ := by
            simp [normList, normN]
          have hrel := renderBlocksF_selfnorm _ ih (.text s₀ :: rest₂) ctx
            { has_ancestor := true, block_dicts := [] :: ins.block_dicts }
          rw [hblk] at hrel
          rcases h1 : renderBlocksF (renderNode loader fuel) (.text s₀ :: rest₂) ctx
              { has_ancestor := true, block_dicts := [] :: ins.block_dicts }
              with e | ⟨cs₁, i₁⟩ <;>
            rcases h2 : renderBlocksF (renderNode loader fuel) (.text s₀ :: normList rest₂) ctx
                { has_ancestor := true, block_dicts := [] :: ins.block_dicts }
                with e' | ⟨ncs₁, i₁'⟩ <;>
            rw [h1, h2] at hrel <;> simp only [outRelB] at hrel
          · simp [outRel, h1, h2, hrel]
          · obtain ⟨hi, hl⟩ := hrel
            subst hi
            rcases h3 : renderNode loader fuel (.extendsN fn) ctx i₁ with e | ⟨v₁, x₁, i₃⟩
            · simp [outRel, h1, h2, h3]
            · simp [outRel, h1, h2, h3, normN, hl]
        | .text sb :: rest₂ =>
          have hn0 : normList (.text s₀ :: .text sb :: rest₂) = Node.text s₀ :: Node.text sb :: normList rest₂ := by
            simp [normList, normN]
          have hn : normN (Node.rootN (.text s₀ :: .text sb :: rest₂)) = Node.rootN (Node.text s₀ :: Node.text sb :: normList rest₂) := by
            simp [normN, hn0]
          rw [hn]
          simp only [renderNode]
          have hrel := renderListF_selfnorm _ ih (.text s₀ :: .text sb :: rest₂) ctx { ins with has_ancestor := false }
          rw [hn0] at hrel
          rcases h1 : renderListF (renderNode loader fuel) (.text s₀ :: .text sb :: rest₂) ctx
              { ins with has_ancestor := false } with e | ⟨s₁, cs₁, i₁⟩ <;>
            rcases h2 : renderListF (renderNode loader fuel) (Node.text s₀ :: Node.text sb :: normList rest₂) ctx
                { ins with has_ancestor := false } with e' | ⟨s₁', ncs₁, i₁'⟩ <;>
            rw [h1, h2] at hrel <;> simp only [outRelL] at hrel
          · simp [outRel, h1, h2, hrel]
          · obtain ⟨hs, hi, hl⟩ := hrel
            subst hs; subst hi
            simp only [h1, h2, outRel]
            exact ⟨trivial, trivial, by simp [normN, hl]⟩
        | .variableN a b c₀ :: rest₂ =>
          have hn0 : normList (.text s₀ :: .variableN a b c₀ :: rest₂) = Node.text s₀ :: Node.variableN a b c₀ :: normList rest₂ := by
            simp [normList, normN]
          have hn : normN (Node.rootN (.text s₀ :: .variableN a b c₀ :: rest₂)) = Node.rootN (Node.text s₀ :: Node.variableN a b c₀ :: normList rest₂) := by
            simp [normN, hn0]
          rw [hn]
          simp only [renderNode]
          have hrel := renderListF_selfnorm _ ih (.text s₀ :: .variableN a b c₀ :: rest₂) ctx { ins with has_ancestor := false }
          rw [hn0] at hrel
          rcases h1 : renderListF (renderNode loader fuel) (.text s₀ :: .variableN a b c₀ :: rest₂) ctx
              { ins with has_ancestor := false } with e | ⟨s₁, cs₁, i₁⟩ <;>
            rcases h2 : renderListF (renderNode loader fuel) (Node.text s₀ :: Node.variableN a b c₀ :: normList rest₂) ctx
                { ins with has_ancestor := false } with e' | ⟨s₁', ncs₁, i₁'⟩ <;>
            rw [h1, h2] at hrel <;> simp only [outRelL] at hrel
          · simp [outRel, h1, h2, hrel]
          · obtain ⟨hs, hi, hl⟩ := hrel
            subst hs; subst hi
            simp only [h1, h2, outRel]
            exact ⟨trivial, trivial, by simp [normN, hl]⟩
        | .comment :: rest₂ =>
          have hn0 : normList (.text s₀ :: .comment :: rest₂) = Node.text s₀ :: Node.comment :: normList rest₂ := by
            simp [normList, normN]
          have hn : normN (Node.rootN (.text s₀ :: .comment :: rest₂)) = Node.rootN (Node.text s₀ :: Node.comment :: normList rest₂) := by
            simp [normN, hn0]
          rw [hn]
          simp only [renderNode]
          have hrel := renderListF_selfnorm _ ih (.text s₀ :: .comment :: rest₂) ctx { ins with has_ancestor := false }
          rw [hn0] at hrel
          rcases h1 : renderListF (renderNode loader fuel) (.text s₀ :: .comment :: rest₂) ctx
              { ins with has_ancestor := false } with e | ⟨s₁, cs₁, i₁⟩ <;>
            rcases h2 : renderListF (renderNode loader fuel) (Node.text s₀ :: Node.comment :: normList rest₂) ctx
                { ins with has_ancestor := false } with e' | ⟨s₁', ncs₁, i₁'⟩ <;>
            rw [h1, h2] at hrel <;> simp only [outRelL] at hrel
          · simp [outRel, h1, h2, hrel]
          · obtain ⟨hs, hi, hl⟩ := hrel
            subst hs; subst hi
            simp only [h1, h2, outRel]
            exact ⟨trivial, trivial, by simp [normN, hl]⟩
        | .emptyN :: rest₂ =>
          have hn0 : normList (.text s₀ :: .emptyN :: rest₂) = Node.text s₀ :: Node.emptyN :: normList rest₂ := by
            simp [normList, normN]
          have hn : normN (Node.rootN (.text s₀ :: .emptyN :: rest₂)) = Node.rootN (Node.text s₀ :: Node.emptyN :: normList rest₂) := by
            simp [normN, hn0]
          rw [hn]
          simp only [renderNode]
          have hrel := renderListF_selfnorm _ ih (.text s₀ :: .emptyN :: rest₂) ctx { ins with has_ancestor := false }
          rw [hn0] at hrel
          rcases h1 : renderListF (renderNode loader fuel) (.text s₀ :: .emptyN :: rest₂) ctx
              { ins with has_ancestor := false } with e | ⟨s₁, cs₁, i₁⟩ <;>
            rcases h2 : renderListF (renderNode loader fuel) (Node.text s₀ :: Node.emptyN :: normList rest₂) ctx
                { ins with has_ancestor := false } with e' | ⟨s₁', ncs₁, i₁'⟩ <;>
            rw [h1, h2] at hrel <;> simp only [outRelL] at hrel
          · simp [outRel, h1, h2, hrel]
          · obtain ⟨hs, hi, hl⟩ := hrel
            subst hs; subst hi
            simp only [h1, h2, outRel]
            exact ⟨trivial, trivial, by simp [normN, hl]⟩
        | .elifN a :: rest₂ =>
          have hn0 : normList (.text s₀ :: .elifN a :: rest₂) = Node.text s₀ :: Node.elifN a :: normList rest₂ := by
            simp [normList, normN]
          have hn : normN (Node.rootN (.text s₀ :: .elifN a :: rest₂)) = Node.rootN (Node.text s₀ :: Node.elifN a :: normList rest₂) := by
            simp [normN, hn0]
          rw [hn]
          simp only [renderNode]
          have hrel := renderListF_selfnorm _ ih (.text s₀ :: .elifN a :: rest₂) ctx { ins with has_ancestor := false }
          rw [hn0] at hrel
          rcases h1 : renderListF (renderNode loader fuel) (.text s₀ :: .elifN a :: rest₂) ctx
              { ins with has_ancestor := false } with e | ⟨s₁, cs₁, i₁⟩ <;>
            rcases h2 : renderListF (renderNode loader fuel) (Node.text s₀ :: Node.elifN a :: normList rest₂) ctx
                { ins with has_ancestor := false } with e' | ⟨s₁', ncs₁, i₁'⟩ <;>
            rw [h1, h2] at hrel <;> simp only [outRelL] at hrel
          · simp [outRel, h1, h2, hrel]
          · obtain ⟨hs, hi, hl⟩ := hrel
            subst hs; subst hi
            simp only [h1, h2, outRel]
            exact ⟨trivial, trivial, by simp [normN, hl]⟩
        | .elseN :: rest₂ =>
          have hn0 : normList (.text s₀ :: .elseN :: rest₂) = Node.text s₀ :: Node.elseN :: normList rest₂ := by
            simp [normList, normN]
          have hn : normN (Node.rootN (.text s₀ :: .elseN :: rest₂)) = Node.rootN (Node.text s₀ :: Node.elseN :: normList rest₂) := by
            simp [normN, hn0]
          rw [hn]
          simp only [renderNode]
          have hrel := renderListF_selfnorm _ ih (.text s₀ :: .elseN :: rest₂) ctx { ins with has_ancestor := false }
          rw [hn0] at hrel
          rcases h1 : renderListF (renderNode loader fuel) (.text s₀ :: .elseN :: rest₂) ctx
              { ins with has_ancestor := false } with e | ⟨s₁, cs₁, i₁⟩ <;>
            rcases h2 : renderListF (renderNode loader fuel) (Node.text s₀ :: Node.elseN :: normList rest₂) ctx
                { ins with has_ancestor := false } with e' | ⟨s₁', ncs₁, i₁'⟩ <;>
            rw [h1, h2] at hrel <;> simp only [outRelL] at hrel
          · simp [outRel, h1, h2, hrel]
          · obtain ⟨hs, hi, hl⟩ := hrel
            subst hs; subst hi
            simp only [h1, h2, outRel]
            exact ⟨trivial, trivial, by simp [normN, hl]⟩
        | .rawN a b c₀ :: rest₂ =>
          have hn0 : normList (.text s₀ :: .rawN a b c₀ :: rest₂) = Node.text s₀ :: Node.rawN a b c₀ :: normList rest₂ := by
            simp [normList, normN]
          have hn : normN (Node.rootN (.text s₀ :: .rawN a b c₀ :: rest₂)) = Node.rootN (Node.text s₀ :: Node.rawN a b c₀ :: normList rest₂) := by
            simp [normN, hn0]
          rw [hn]
          simp only [renderNode]
          have hrel := renderListF_selfnorm _ ih (.text s₀ :: .rawN a b c₀ :: rest₂) ctx { ins with has_ancestor := false }
          rw [hn0] at hrel
          rcases h1 : renderListF (renderNode loader fuel) (.text s₀ :: .rawN a b c₀ :: rest₂) ctx
              { ins with has_ancestor := false } with e | ⟨s₁, cs₁, i₁⟩ <;>
            rcases h2 : renderListF (renderNode loader fuel) (Node.text s₀ :: Node.rawN a b c₀ :: normList rest₂) ctx
                { ins with has_ancestor := false } with e' | ⟨s₁', ncs₁, i₁'⟩ <;>
            rw [h1, h2] at hrel <;> simp only [outRelL] at hrel
          · simp [outRel, h1, h2, hrel]
          · obtain ⟨hs, hi, hl⟩ := hrel
            subst hs; subst hi
            simp only [h1, h2, outRel]
            exact ⟨trivial, trivial, by simp [normN, hl]⟩
        | .setN a b c₀ d :: rest₂ =>
          have hn0 : normList (.text s₀ :: .setN a b c₀ d :: rest₂) = Node.text s₀ :: Node.setN a b c₀ (normList d) :: normList rest₂ := by
            simp [normList, normN]
          have hn : normN (Node.rootN (.text s₀ :: .setN a b c₀ d :: rest₂)) = Node.rootN (Node.text s₀ :: Node.setN a b c₀ (normList d) :: normList rest₂) := by
            simp [normN, hn0]
          rw [hn]
          simp only [renderNode]
          have hrel := renderListF_selfnorm _ ih (.text s₀ :: .setN a b c₀ d :: rest₂) ctx { ins with has_ancestor := false }
          rw [hn0] at hrel
          rcases h1 : renderListF (renderNode loader fuel) (.text s₀ :: .setN a b c₀ d :: rest₂) ctx
              { ins with has_ancestor := false } with e | ⟨s₁, cs₁, i₁⟩ <;>
            rcases h2 : renderListF (renderNode loader fuel) (Node.text s₀ :: Node.setN a b c₀ (normList d) :: normList rest₂) ctx
                { ins with has_ancestor := false } with e' | ⟨s₁', ncs₁, i₁'⟩ <;>
            rw [h1, h2] at hrel <;> simp only [outRelL] at hrel
          · simp [outRel, h1, h2, hrel]
          · obtain ⟨hs, hi, hl⟩ := hrel
            subst hs; subst hi
            simp only [h1, h2, outRel]
            exact ⟨trivial, trivial, by simp [normN, hl]⟩
        | .escapeN a b c₀ d :: rest₂ =>
          have hn0 : normList (.text s₀ :: .escapeN a b c₀ d :: rest₂) = Node.text s₀ :: Node.escapeN a b c₀ (normList d) :: normList rest₂ := by
            simp [normList, normN]
          have hn : normN (Node.rootN (.text s₀ :: .escapeN a b c₀ d :: rest₂)) = Node.rootN (Node.text s₀ :: Node.escapeN a b c₀ (normList d) :: normList rest₂) := by
            simp [normN, hn0]
          rw [hn]
          simp only [renderNode]
          have hrel := renderListF_selfnorm _ ih (.text s₀ :: .escapeN a b c₀ d :: rest₂) ctx { ins with has_ancestor := false }
          rw [hn0] at hrel
          rcases h1 : renderListF (renderNode loader fuel) (.text s₀ :: .escapeN a b c₀ d :: rest₂) ctx
              { ins with has_ancestor := false } with e | ⟨s₁, cs₁, i₁⟩ <;>
            rcases h2 : renderListF (renderNode loader fuel) (Node.text s₀ :: Node.escapeN a b c₀ (normList d) :: normList rest₂) ctx
                { ins with has_ancestor := false } with e' | ⟨s₁', ncs₁, i₁'⟩ <;>
            rw [h1, h2] at hrel <;> simp only [outRelL] at hrel
          · simp [outRel, h1, h2, hrel]
          · obtain ⟨hs, hi, hl⟩ := hrel
            subst hs; subst hi
            simp only [h1, h2, outRel]
            exact ⟨trivial, trivial, by simp [normN, hl]⟩
        | .blockN a b c₀ d :: rest₂ =>
          have hn0 : normList (.text s₀ :: .blockN a b c₀ d :: rest₂) = Node.text s₀ :: Node.blockN a b c₀ (normList d) :: normList rest₂ := by
            simp [normList, normN]
          have hn : normN (Node.rootN (.text s₀ :: .blockN a b c₀ d :: rest₂)) = Node.rootN (Node.text s₀ :: Node.blockN a b c₀ (normList d) :: normList rest₂) := by
            simp [normN, hn0]
          rw [hn]
          simp only [renderNode]
          have hrel := renderListF_selfnorm _ ih (.text s₀ :: .blockN a b c₀ d :: rest₂) ctx { ins with has_ancestor := false }
          rw [hn0] at hrel
          rcases h1 : renderListF (renderNode loader fuel) (.text s₀ :: .blockN a b c₀ d :: rest₂) ctx
              { ins with has_ancestor := false } with e | ⟨s₁, cs₁, i₁⟩ <;>
            rcases h2 : renderListF (renderNode loader fuel) (Node.text s₀ :: Node.blockN a b c₀ (normList d) :: normList rest₂) ctx
                { ins with has_ancestor := false } with e' | ⟨s₁', ncs₁, i₁'⟩ <;>
            rw [h1, h2] at hrel <;> simp only [outRelL] at hrel
          · simp [outRel, h1, h2, hrel]
          · obtain ⟨hs, hi, hl⟩ := hrel
            subst hs; subst hi
            simp only [h1, h2, outRel]
            exact ⟨trivial, trivial, by simp [normN, hl]⟩
        | .includeN a :: rest₂ =>
          have hn0 : normList (.text s₀ :: .includeN a :: rest₂) = Node.text s₀ :: Node.includeN a :: normList rest₂ := by
            simp [normList, normN]
          have hn : normN (Node.rootN (.text s₀ :: .includeN a :: rest₂)) = Node.rootN (Node.text s₀ :: Node.includeN a :: normList rest₂) := by
            simp [normN, hn0]
          rw [hn]
          simp only [renderNode]
          have hrel := renderListF_selfnorm _ ih (.text s₀ :: .includeN a :: rest₂) ctx { ins with has_ancestor := false }
          rw [hn0] at hrel
          rcases h1 : renderListF (renderNode loader fuel) (.text s₀ :: .includeN a :: rest₂) ctx
              { ins with has_ancestor := false } with e | ⟨s₁, cs₁, i₁⟩ <;>
            rcases h2 : renderListF (renderNode loader fuel) (Node.text s₀ :: Node.includeN a :: normList rest₂) ctx
                { ins with has_ancestor := false } with e' | ⟨s₁', ncs₁, i₁'⟩ <;>
            rw [h1, h2] at hrel <;> simp only [outRelL] at hrel
          · simp [outRel, h1, h2, hrel]
          · obtain ⟨hs, hi, hl⟩ := hrel
            subst hs; subst hi
            simp only [h1, h2, outRel]
            exact ⟨trivial, trivial, by simp [normN, hl]⟩
        | .rootN a :: rest₂ =>
          have hn0 : normList (.text s₀ :: .rootN a :: rest₂) = Node.text s₀ :: Node.rootN (normList a) :: normList rest₂ := by
            simp [normList, normN]
          have hn : normN (Node.rootN (.text s₀ :: .rootN a :: rest₂)) = Node.rootN (Node.text s₀ :: Node.rootN (normList a) :: normList rest₂) := by
            simp [normN, hn0]
          rw [hn]
          simp only [renderNode]
          have hrel := renderListF_selfnorm _ ih (.text s₀ :: .rootN a :: rest₂) ctx { ins with has_ancestor := false }
          rw [hn0] at hrel
          rcases h1 : renderListF (renderNode loader fuel) (.text s₀ :: .rootN a :: rest₂) ctx
              { ins with has_ancestor := false } with e | ⟨s₁, cs₁, i₁⟩ <;>
            rcases h2 : renderListF (renderNode loader fuel) (Node.text s₀ :: Node.rootN (normList a) :: normList rest₂) ctx
                { ins with has_ancestor := false } with e' | ⟨s₁', ncs₁, i₁'⟩ <;>
            rw [h1, h2] at hrel <;> simp only [outRelL] at hrel
          · simp [outRel, h1, h2, hrel]
          · obtain ⟨hs, hi, hl⟩ := hrel
            subst hs; subst hi
            simp only [h1, h2, outRel]
            exact ⟨trivial, trivial, by simp [normN, hl]⟩
        | .forN a b c₀ d e₀ br :: rest₂ =>
          rcases br with _ | ⟨m, em⟩
          · have hn0 : normList (.text s₀ :: .forN a b c₀ d e₀ none :: rest₂) = Node.text s₀ :: Node.forN a b c₀ d (normList e₀) none :: normList rest₂ := by
              simp [normList, normN]
            have hn : normN (Node.rootN (.text s₀ :: .forN a b c₀ d e₀ none :: rest₂)) = Node.rootN (Node.text s₀ :: Node.forN a b c₀ d (normList e₀) none :: normList rest₂) := by
              simp [normN, hn0]
            rw [hn]
            simp only [renderNode]
            have hrel := renderListF_selfnorm _ ih (.text s₀ :: .forN a b c₀ d e₀ none :: rest₂) ctx { ins with has_ancestor := false }
            rw [hn0] at hrel
            rcases h1 : renderListF (renderNode loader fuel) (.text s₀ :: .forN a b c₀ d e₀ none :: rest₂) ctx
                { ins with has_ancestor := false } with e | ⟨s₁, cs₁, i₁⟩ <;>
              rcases h2 : renderListF (renderNode loader fuel) (Node.text s₀ :: Node.forN a b c₀ d (normList e₀) none :: normList rest₂) ctx
                  { ins with has_ancestor := false } with e' | ⟨s₁', ncs₁, i₁'⟩ <;>
              rw [h1, h2] at hrel <;> simp only [outRelL] at hrel
            · simp [outRel, h1, h2, hrel]
            · obtain ⟨hs, hi, hl⟩ := hrel
              subst hs; subst hi
              simp only [h1, h2, outRel]
              exact ⟨trivial, trivial, by simp [normN, hl]⟩
          · have hn0 : normList (.text s₀ :: .forN a b c₀ d e₀ (some (m, em)) :: rest₂) = Node.text s₀ :: Node.forN a b c₀ d [] (some (normList m, normList em)) :: normList rest₂ := by
              simp [normList, normN]
            have hn : normN (Node.rootN (.text s₀ :: .forN a b c₀ d e₀ (some (m, em)) :: rest₂)) = Node.rootN (Node.text s₀ :: Node.forN a b c₀ d [] (some (normList m, normList em)) :: normList rest₂) := by
              simp [normN, hn0]
            rw [hn]
            simp only [renderNode]
            have hrel := renderListF_selfnorm _ ih (.text s₀ :: .forN a b c₀ d e₀ (some (m, em)) :: rest₂) ctx { ins with has_ancestor := false }
            rw [hn0] at hrel
            rcases h1 : renderListF (renderNode loader fuel) (.text s₀ :: .forN a b c₀ d e₀ (some (m, em)) :: rest₂) ctx
                { ins with has_ancestor := false } with e | ⟨s₁, cs₁, i₁⟩ <;>
              rcases h2 : renderListF (renderNode loader fuel) (Node.text s₀ :: Node.forN a b c₀ d [] (some (normList m, normList em)) :: normList rest₂) ctx
                  { ins with has_ancestor := false } with e' | ⟨s₁', ncs₁, i₁'⟩ <;>
              rw [h1, h2] at hrel <;> simp only [outRelL] at hrel
            · simp [outRel, h1, h2, hrel]
            · obtain ⟨hs, hi, hl⟩ := hrel
              subst hs; subst hi
              simp only [h1, h2, outRel]
              exact ⟨trivial, trivial, by simp [normN, hl]⟩
        | .ifN a b c₀ d br :: rest₂ =>
          rcases br with _ | bs
          · have hn0 : normList (.text s₀ :: .ifN a b c₀ d none :: rest₂) = Node.text s₀ :: Node.ifN a b c₀ (normList d) none :: normList rest₂ := by
              simp [normList, normN]
            have hn : normN (Node.rootN (.text s₀ :: .ifN a b c₀ d none :: rest₂)) = Node.rootN (Node.text s₀ :: Node.ifN a b c₀ (normList d) none :: normList rest₂) := by
              simp [normN, hn0]
            rw [hn]
            simp only [renderNode]
            have hrel := renderListF_selfnorm _ ih (.text s₀ :: .ifN a b c₀ d none :: rest₂) ctx { ins with has_ancestor := false }
            rw [hn0] at hrel
            rcases h1 : renderListF (renderNode loader fuel) (.text s₀ :: .ifN a b c₀ d none :: rest₂) ctx
                { ins with has_ancestor := false } with e | ⟨s₁, cs₁, i₁⟩ <;>
              rcases h2 : renderListF (renderNode loader fuel) (Node.text s₀ :: Node.ifN a b c₀ (normList d) none :: normList rest₂) ctx
                  { ins with has_ancestor := false } with e' | ⟨s₁', ncs₁, i₁'⟩ <;>
              rw [h1, h2] at hrel <;> simp only [outRelL] at hrel
            · simp [outRel, h1, h2, hrel]
            · obtain ⟨hs, hi, hl⟩ := hrel
              subst hs; subst hi
              simp only [h1, h2, outRel]
              exact ⟨trivial, trivial, by simp [normN, hl]⟩
          · have hn0 : normList (.text s₀ :: .ifN a b c₀ d (some bs) :: rest₂) = Node.text s₀ :: Node.ifN a b c₀ [] (some (normBr bs)) :: normList rest₂ := by
              simp [normList, normN]
            have hn : normN (Node.rootN (.text s₀ :: .ifN a b c₀ d (some bs) :: rest₂)) = Node.rootN (Node.text s₀ :: Node.ifN a b c₀ [] (some (normBr bs)) :: normList rest₂) := by
              simp [normN, hn0]
            rw [hn]
            simp only [renderNode]
            have hrel := renderListF_selfnorm _ ih (.text s₀ :: .ifN a b c₀ d (some bs) :: rest₂) ctx { ins with has_ancestor := false }
            rw [hn0] at hrel
            rcases h1 : renderListF (renderNode loader fuel) (.text s₀ :: .ifN a b c₀ d (some bs) :: rest₂) ctx
                { ins with has_ancestor := false } with e | ⟨s₁, cs₁, i₁⟩ <;>
              rcases h2 : renderListF (renderNode loader fuel) (Node.text s₀ :: Node.ifN a b c₀ [] (some (normBr bs)) :: normList rest₂) ctx
                  { ins with has_ancestor := false } with e' | ⟨s₁', ncs₁, i₁'⟩ <;>
              rw [h1, h2] at hrel <;> simp only [outRelL] at hrel
            · simp [outRel, h1, h2, hrel]
            · obtain ⟨hs, hi, hl⟩ := hrel
              subst hs; subst hi
              simp only [h1, h2, outRel]
              exact ⟨trivial, trivial, by simp [normN, hl]⟩

/-! ## C7 / C8: render-time mutation and idempotence

`_For.render` reassigns `self.children` to the pre-computed main branch
and `_Root.render` pops a leading `_Extends` child, so rendering does
mutate the compiled tree; on extends/include-free trees the mutation is
confined to the render-dead `children` fields (`renderNode_norm`) and
the instance state returns unchanged (`renderNode_ins` below), which
yields idempotent re-rendering. -/

/-- Setting an already-clear ancestor flag is the identity on the
instance state. -/
theorem insSetHaFalse : ∀ (ins : Ins), ins.has_ancestor = false →
    { ins with has_ancestor := false } = ins
  | ⟨false, _⟩, _ => rfl
  | ⟨true, _⟩, h => Bool.noConfusion h

/-- On trees whose normal form is extends/include-free, rendering with
the ancestor flag clear returns the instance state unchanged (the only
writers of `has_ancestor`/`block_dicts` are the ancestor path of
`_Root.render` and the ancestor branch of `_Block.render`). -/
def InsStable (rn : Node → Ctx → Ins → Except Err (Value × Node × Ins)) : Prop :=
  ∀ n ctx ins v n' ins', noExtInc (normN n) = true → ins.has_ancestor = false →
    rn n ctx ins = .ok (v, n', ins') → ins' = ins

theorem renderListF_ins (rn : Node → Ctx → Ins → Except Err (Value × Node × Ins))
    (h : InsStable rn) :
    ∀ cs ctx ins s cs' ins', noExtIncList (normList cs) = true →
      ins.has_ancestor = false →
      renderListF rn cs ctx ins = .ok (s, cs', ins') → ins' = ins := by
  intro cs
  induction cs with
  | nil =>
    intro ctx ins s cs' ins' _ _ hr
    simp only [renderListF] at hr
    injection hr with h'
    injection h' with h1 h2
    injection h2 with h3 h4
    exact h4.symm
  | cons n ns ih =>
    intro ctx ins s cs' ins' hni ha hr
    simp only [normList, noExtIncList, Bool.and_eq_true] at hni
    simp only [renderListF] at hr
    split at hr
    · exact Except.noConfusion hr
    · rename_i v₁ n₁ ins₁ heq
      split at hr
      · exact Except.noConfusion hr
      · rename_i s₂ rest₂ ins₂ heq₂
        injection hr with h'
        injection h' with h1 h2
        injection h2 with h3 h4
        have e₁ : ins₁ = ins := h _ _ _ _ _ _ hni.1 ha heq
        subst e₁
        exact h4.symm.trans (ih _ _ _ _ _ hni.2 ha heq₂)

theorem renderLoopF_ins (rn : Node → Ctx → Ins → Except Err (Value × Node × Ins))
    (hP : PreservesNorm rn) (h : InsStable rn) (lv : String) (len : Nat) (ctx : Ctx) :
    ∀ xs i main ins s main' ins', noExtIncList (normList main) = true →
      ins.has_ancestor = false →
      renderLoopF rn lv len ctx xs i main ins = .ok (s, main', ins') → ins' = ins := by
  intro xs
  induction xs with
  | nil =>
    intro i main ins s main' ins' _ _ hr
    simp only [renderLoopF] at hr
    injection hr with h'
    injection h' with h1 h2
    injection h2 with h3 h4
    exact h4.symm
  | cons x xs ih =>
    intro i main ins s main' ins' hni ha hr
    simp only [renderLoopF] at hr
    split at hr
    · exact Except.noConfusion hr
    · rename_i s₁ main₁ ins₁ heq
      split at hr
      · exact Except.noConfusion hr
      · rename_i s₂ main₂ ins₂ heq₂
        injection hr with h'
        injection h' with h1 h2
        injection h2 with h3 h4
        have e₀ : normList main₁ = normList main :=
          renderListF_norm rn hP _ _ _ _ _ _ hni heq
        have e₁ : ins₁ = ins := renderListF_ins rn h _ _ _ _ _ _ hni ha heq
        subst e₁
        exact h4.symm.trans (ih _ _ _ _ _ _ (by rw [e₀]; exact hni) ha heq₂)

theorem renderIfF_ins (rn : Node → Ctx → Ins → Except Err (Value × Node × Ins))
    (h : InsStable rn) :
    ∀ bs ctx ins v bs' ins', noExtIncBr (normBr bs) = true →
      ins.has_ancestor = false →
      renderIfF rn bs ctx ins = .ok (v, bs', ins') → ins' = ins := by
  intro bs
  induction bs with
  | nil =>
    intro ctx ins v bs' ins' _ _ hr
    simp only [renderIfF] at hr
    injection hr with h'
    injection h' with h1 h2
    injection h2 with h3 h4
    exact h4.symm
  | cons b rest ih =>
    obtain ⟨e, br⟩ := b
    intro ctx ins v bs' ins' hni ha hr
    simp only [normBr, noExtIncBr, Bool.and_eq_true] at hni
    simp only [renderIfF] at hr
    split at hr
    · exact Except.noConfusion hr
    · rename_i cond heq
      split at hr
      · split at hr
        · exact Except.noConfusion hr
        · rename_i v₁ rest₁ ins₁ heq₂
          injection hr with h'
          injection h' with h1 h2
          injection h2 with h3 h4
          exact h4.symm.trans (ih _ _ _ _ _ hni.2 ha heq₂)
      · split at hr
        · exact Except.noConfusion hr
        · rename_i s₁ br₁ ins₁ heq₂
          injection hr with h'
          injection h' with h1 h2
          injection h2 with h3 h4
          exact h4.symm.trans (renderListF_ins rn h _ _ _ _ _ _ hni.1 ha heq₂)

/-- See `InsStable`: the shallow renderer returns the instance state
unchanged on extends/include-free trees when the ancestor flag is off. -/
theorem renderNode_ins (loader : Loader) :
    ∀ fuel, InsStable (renderNode loader fuel) := by
  intro fuel
  induction fuel with
  | zero =>
    intro n ctx ins v n' ins' _ _ h
    exact Except.noConfusion h
  | succ fuel ih =>
    intro n ctx ins v n' ins' hnei ha h
    match n with
    | .text s =>
      simp only [renderNode] at h
      injection h with h'
      injection h' with h1 h2
      injection h2 with h3 h4
      exact h4.symm
    | .comment =>
      simp only [renderNode] at h
      injection h with h'
      injection h' with h1 h2
      injection h2 with h3 h4
      exact h4.symm
    | .emptyN =>
      simp only [renderNode] at h
      injection h with h'
      injection h' with h1 h2
      injection h2 with h3 h4
      exact h4.symm
    | .elifN e =>
      simp only [renderNode] at h
      injection h with h'
      injection h' with h1 h2
      injection h2 with h3 h4
      exact h4.symm
    | .elseN =>
      simp only [renderNode] at h
      injection h with h'
      injection h' with h1 h2
      injection h2 with h3 h4
      exact h4.symm
    | .variableN v₀ hf cbs =>
      simp only [renderNode] at h
      split at h
      · exact Except.noConfusion h
      · injection h with h'
        injection h' with h1 h2
        injection h2 with h3 h4
        exact h4.symm
    | .rawN frag et rs =>
      simp only [renderNode] at h
      split at h
      · exact Except.noConfusion h
      · split at h
        · exact Except.noConfusion h
        · injection h with h'
          injection h' with h1 h2
          injection h2 with h3 h4
          exact h4.symm
    | .setN frag args et cs =>
      simp only [normN, noExtInc] at hnei
      simp only [renderNode] at h
      split at h
      · exact Except.noConfusion h
      · split at h
        · exact Except.noConfusion h
        · split at h
          · exact Except.noConfusion h
          · rename_i bindings heq
            split at h
            · exact Except.noConfusion h
            · rename_i s₁ cs₁ ins₁ heq₂
              injection h with h'
              injection h' with h1 h2
              injection h2 with h3 h4
              exact h4.symm.trans (renderListF_ins _ ih _ _ _ _ _ _ hnei ha heq₂)
    | .escapeN frag d et cs =>
      simp only [normN, noExtInc] at hnei
      simp only [renderNode] at h
      split at h
      · exact Except.noConfusion h
      · split at h
        · exact Except.noConfusion h
        · split at h
          · exact Except.noConfusion h
          · rename_i s₁ cs₁ ins₁ heq₂
            injection h with h'
            injection h' with h1 h2
            injection h2 with h3 h4
            exact h4.symm.trans (renderListF_ins _ ih _ _ _ _ _ _ hnei ha heq₂)
    | .forN frag lv ex et cs br =>
      rcases br with _ | ⟨main, em⟩
      · simp only [renderNode] at h
        split at h
        · exact Except.noConfusion h
        · split at h
          · exact Except.noConfusion h
          · split at h
            · exact Except.noConfusion h
            · rename_i items heq₀
              split at h
              · exact Except.noConfusion h
              · exact Except.noConfusion h
      · simp only [normN, noExtInc, noExtIncList, Bool.and_eq_true, Bool.true_and] at hnei
        simp only [renderNode] at h
        split at h
        · exact Except.noConfusion h
        · split at h
          · exact Except.noConfusion h
          · split at h
            · exact Except.noConfusion h
            · rename_i items heq₀
              split at h
              · exact Except.noConfusion h
              · rename_i len heq₁
                split at h
                · split at h
                  · exact Except.noConfusion h
                  · rename_i s₁ em₁ ins₁ heq₂
                    injection h with h'
                    injection h' with h1 h2
                    injection h2 with h3 h4
                    exact h4.symm.trans (renderListF_ins _ ih _ _ _ _ _ _ hnei.2 ha heq₂)
                · split at h
                  · exact Except.noConfusion h
                  · rename_i xs heq₂
                    split at h
                    · exact Except.noConfusion h
                    · rename_i s₁ main₁ ins₁ heq₃
                      injection h with h'
                      injection h' with h1 h2
                      injection h2 with h3 h4
                      exact h4.symm.trans (renderLoopF_ins _ (renderNode_norm loader fuel) ih
                        _ _ _ _ _ _ _ _ _ _ hnei.1 ha heq₃)
    | .ifN frag e et cs br =>
      rcases br with _ | branches
      · simp only [renderNode] at h
        split at h
        · exact Except.noConfusion h
        · split at h
          · exact Except.noConfusion h
          · exact Except.noConfusion h
      · simp only [normN, noExtInc, noExtIncList, Bool.and_eq_true, Bool.true_and] at hnei
        simp only [renderNode] at h
        split at h
        · exact Except.noConfusion h
        · split at h
          · exact Except.noConfusion h
          · split at h
            · exact Except.noConfusion h
            · rename_i v₁ branches₁ ins₁ heq₂
              injection h with h'
              injection h' with h1 h2
              injection h2 with h3 h4
              exact h4.symm.trans (renderIfF_ins _ ih _ _ _ _ _ _ hnei ha heq₂)
    | .blockN frag name et cs =>
      simp only [normN, noExtInc] at hnei
      simp only [renderNode] at h
      split at h
      · exact Except.noConfusion h
      · split at h
        · exact Except.noConfusion h
        · split at h
          · rename_i hha
            rw [ha] at hha
            exact Bool.noConfusion hha
          · split at h
            · injection h with h'
              injection h' with h1 h2
              injection h2 with h3 h4
              exact h4.symm
            · split at h
              · exact Except.noConfusion h
              · rename_i s₁ cs₁ ins₁ heq₂
                injection h with h'
                injection h' with h1 h2
                injection h2 with h3 h4
                exact h4.symm.trans (renderListF_ins _ ih _ _ _ _ _ _ hnei ha heq₂)
    | .extendsN fn =>
      simp only [normN, noExtInc] at hnei
      exact Bool.noConfusion hnei
    | .includeN fn =>
      simp only [normN, noExtInc] at hnei
      exact Bool.noConfusion hnei
    | .rootN cs =>
      simp only [normN, noExtInc] at hnei
      match cs with
      | [] =>
        simp only [renderNode] at h
        exact Except.noConfusion h
      | .extendsN fn :: rest =>
        simp only [normList, normN, noExtIncList, noExtInc, Bool.false_and] at hnei
        exact Bool.noConfusion hnei
      | .text s :: rest =>
        match rest with
        | [] =>
          simp only [renderNode] at h
          exact Except.noConfusion h
        | .extendsN fn :: rest₂ =>
          simp only [normList, normN, noExtIncList, noExtInc, Bool.false_and,
            Bool.and_false] at hnei
          exact Bool.noConfusion hnei
        | .includeN a :: rest₂ =>
          simp only [normList, normN, noExtIncList, noExtInc, Bool.false_and,
            Bool.and_false] at hnei
          exact Bool.noConfusion hnei
        | .text s₂ :: rest₂ =>
          simp only [renderNode] at h
          split at h
          · exact Except.noConfusion h
          · rename_i s₁ cs₁ ins₁ heq₁
            injection h with h'
            injection h' with h1 h2
            injection h2 with h3 h4
            rw [insSetHaFalse ins ha] at heq₁
            exact h4.symm.trans (renderListF_ins _ ih _ _ _ _ _ _ hnei ha heq₁)
        | .variableN a b c :: rest₂ =>
          simp only [renderNode] at h
          split at h
          · exact Except.noConfusion h
          · rename_i s₁ cs₁ ins₁ heq₁
            injection h with h'
            injection h' with h1 h2
            injection h2 with h3 h4
            rw [insSetHaFalse ins ha] at heq₁
            exact h4.symm.trans (renderListF_ins _ ih _ _ _ _ _ _ hnei ha heq₁)
        | .comment :: rest₂ =>
          simp only [renderNode] at h
          split at h
          · exact Except.noConfusion h
          · rename_i s₁ cs₁ ins₁ heq₁
            injection h with h'
            injection h' with h1 h2
            injection h2 with h3 h4
            rw [insSetHaFalse ins ha] at heq₁
            exact h4.symm.trans (renderListF_ins _ ih _ _ _ _ _ _ hnei ha heq₁)
        | .setN a b c d :: rest₂ =>
          simp only [renderNode] at h
          split at h
          · exact Except.noConfusion h
          · rename_i s₁ cs₁ ins₁ heq₁
            injection h with h'
            injection h' with h1 h2
            injection h2 with h3 h4
            rw [insSetHaFalse ins ha] at heq₁
            exact h4.symm.trans (renderListF_ins _ ih _ _ _ _ _ _ hnei ha heq₁)
        | .forN a b c d e f :: rest₂ =>
          simp only [renderNode] at h
          split at h
          · exact Except.noConfusion h
          · rename_i s₁ cs₁ ins₁ heq₁
            injection h with h'
            injection h' with h1 h2
            injection h2 with h3 h4
            rw [insSetHaFalse ins ha] at heq₁
            exact h4.symm.trans (renderListF_ins _ ih _ _ _ _ _ _ hnei ha heq₁)
        | .emptyN :: rest₂ =>
          simp only [renderNode] at h
          split at h
          · exact Except.noConfusion h
          · rename_i s₁ cs₁ ins₁ heq₁
            injection h with h'
            injection h' with h1 h2
            injection h2 with h3 h4
            rw [insSetHaFalse ins ha] at heq₁
            exact h4.symm.trans (renderListF_ins _ ih _ _ _ _ _ _ hnei ha heq₁)
        | .ifN a b c d e :: rest₂ =>
          simp only [renderNode] at h
          split at h
          · exact Except.noConfusion h
          · rename_i s₁ cs₁ ins₁ heq₁
            injection h with h'
            injection h' with h1 h2
            injection h2 with h3 h4
            rw [insSetHaFalse ins ha] at heq₁
            exact h4.symm.trans (renderListF_ins _ ih _ _ _ _ _ _ hnei ha heq₁)
        | .elifN a :: rest₂ =>
          simp only [renderNode] at h
          split at h
          · exact Except.noConfusion h
          · rename_i s₁ cs₁ ins₁ heq₁
            injection h with h'
            injection h' with h1 h2
            injection h2 with h3 h4
            rw [insSetHaFalse ins ha] at heq₁
            exact h4.symm.trans (renderListF_ins _ ih _ _ _ _ _ _ hnei ha heq₁)
        | .elseN :: rest₂ =>
          simp only [renderNode] at h
          split at h
          · exact Except.noConfusion h
          · rename_i s₁ cs₁ ins₁ heq₁
            injection h with h'
            injection h' with h1 h2
            injection h2 with h3 h4
            rw [insSetHaFalse ins ha] at heq₁
            exact h4.symm.trans (renderListF_ins _ ih _ _ _ _ _ _ hnei ha heq₁)
        | .rawN a b c :: rest₂ =>
          simp only [renderNode] at h
          split at h
          · exact Except.noConfusion h
          · rename_i s₁ cs₁ ins₁ heq₁
            injection h with h'
            injection h' with h1 h2
            injection h2 with h3 h4
            rw [insSetHaFalse ins ha] at heq₁
            exact h4.symm.trans (renderListF_ins _ ih _ _ _ _ _ _ hnei ha heq₁)
        | .escapeN a b c d :: rest₂ =>
          simp only [renderNode] at h
          split at h
          · exact Except.noConfusion h
          · rename_i s₁ cs₁ ins₁ heq₁
            injection h with h'
            injection h' with h1 h2
            injection h2 with h3 h4
            rw [insSetHaFalse ins ha] at heq₁
            exact h4.symm.trans (renderListF_ins _ ih _ _ _ _ _ _ hnei ha heq₁)
        | .blockN a b c d :: rest₂ =>
          simp only [renderNode] at h
          split at h
          · exact Except.noConfusion h
          · rename_i s₁ cs₁ ins₁ heq₁
            injection h with h'
            injection h' with h1 h2
            injection h2 with h3 h4
            rw [insSetHaFalse ins ha] at heq₁
            exact h4.symm.trans (renderListF_ins _ ih _ _ _ _ _ _ hnei ha heq₁)
        | .rootN a :: rest₂ =>
          simp only [renderNode] at h
          split at h
          · exact Except.noConfusion h
          · rename_i s₁ cs₁ ins₁ heq₁
            injection h with h'
            injection h' with h1 h2
            injection h2 with h3 h4
            rw [insSetHaFalse ins ha] at heq₁
            exact h4.symm.trans (renderListF_ins _ ih _ _ _ _ _ _ hnei ha heq₁)
      | .includeN a :: rest =>
        simp only [normList, normN, noExtIncList, noExtInc, Bool.false_and] at hnei
        exact Bool.noConfusion hnei
      | .variableN a b c :: rest =>
        simp only [renderNode] at h
        split at h
        · exact Except.noConfusion h
        · rename_i s₁ cs₁ ins₁ heq₁
          injection h with h'
          injection h' with h1 h2
          injection h2 with h3 h4
          rw [insSetHaFalse ins ha] at heq₁
          exact h4.symm.trans (renderListF_ins _ ih _ _ _ _ _ _ hnei ha heq₁)
      | .comment :: rest =>
        simp only [renderNode] at h
        split at h
        · exact Except.noConfusion h
        · rename_i s₁ cs₁ ins₁ heq₁
          injection h with h'
          injection h' with h1 h2
          injection h2 with h3 h4
          rw [insSetHaFalse ins ha] at heq₁
          exact h4.symm.trans (renderListF_ins _ ih _ _ _ _ _ _ hnei ha heq₁)
      | .setN a b c d :: rest =>
        simp only [renderNode] at h
        split at h
        · exact Except.noConfusion h
        · rename_i s₁ cs₁ ins₁ heq₁
          injection h with h'
          injection h' with h1 h2
          injection h2 with h3 h4
          rw [insSetHaFalse ins ha] at heq₁
          exact h4.symm.trans (renderListF_ins _ ih _ _ _ _ _ _ hnei ha heq₁)
      | .forN a b c d e f :: rest =>
        simp only [renderNode] at h
        split at h
        · exact Except.noConfusion h
        · rename_i s₁ cs₁ ins₁ heq₁
          injection h with h'
          injection h' with h1 h2
          injection h2 with h3 h4
          rw [insSetHaFalse ins ha] at heq₁
          exact h4.symm.trans (renderListF_ins _ ih _ _ _ _ _ _ hnei ha heq₁)
      | .emptyN :: rest =>
        simp only [renderNode] at h
        split at h
        · exact Except.noConfusion h
        · rename_i s₁ cs₁ ins₁ heq₁
          injection h with h'
          injection h' with h1 h2
          injection h2 with h3 h4
          rw [insSetHaFalse ins ha] at heq₁
          exact h4.symm.trans (renderListF_ins _ ih _ _ _ _ _ _ hnei ha heq₁)
      | .ifN a b c d e :: rest =>
        simp only [renderNode] at h
        split at h
        · exact Except.noConfusion h
        · rename_i s₁ cs₁ ins₁ heq₁
          injection h with h'
          injection h' with h1 h2
          injection h2 with h3 h4
          rw [insSetHaFalse ins ha] at heq₁
          exact h4.symm.trans (renderListF_ins _ ih _ _ _ _ _ _ hnei ha heq₁)
      | .elifN a :: rest =>
        simp only [renderNode] at h
        split at h
        · exact Except.noConfusion h
        · rename_i s₁ cs₁ ins₁ heq₁
          injection h with h'
          injection h' with h1 h2
          injection h2 with h3 h4
          rw [insSetHaFalse ins ha] at heq₁
          exact h4.symm.trans (renderListF_ins _ ih _ _ _ _ _ _ hnei ha heq₁)
      | .elseN :: rest =>
        simp only [renderNode] at h
        split at h
        · exact Except.noConfusion h
        · rename_i s₁ cs₁ ins₁ heq₁
          injection h with h'
          injection h' with h1 h2
          injection h2 with h3 h4
          rw [insSetHaFalse ins ha] at heq₁
          exact h4.symm.trans (renderListF_ins _ ih _ _ _ _ _ _ hnei ha heq₁)
      | .rawN a b c :: rest =>
        simp only [renderNode] at h
        split at h
        · exact Except.noConfusion h
        · rename_i s₁ cs₁ ins₁ heq₁
          injection h with h'
          injection h' with h1 h2
          injection h2 with h3 h4
          rw [insSetHaFalse ins ha] at heq₁
          exact h4.symm.trans (renderListF_ins _ ih _ _ _ _ _ _ hnei ha heq₁)
      | .escapeN a b c d :: rest =>
        simp only [renderNode] at h
        split at h
        · exact Except.noConfusion h
        · rename_i s₁ cs₁ ins₁ heq₁
          injection h with h'
          injection h' with h1 h2
          injection h2 with h3 h4
          rw [insSetHaFalse ins ha] at heq₁
          exact h4.symm.trans (renderListF_ins _ ih _ _ _ _ _ _ hnei ha heq₁)
      | .blockN a b c d :: rest =>
        simp only [renderNode] at h
        split at h
        · exact Except.noConfusion h
        · rename_i s₁ cs₁ ins₁ heq₁
          injection h with h'
          injection h' with h1 h2
          injection h2 with h3 h4
          rw [insSetHaFalse ins ha] at heq₁
          exact h4.symm.trans (renderListF_ins _ ih _ _ _ _ _ _ hnei ha heq₁)
      | .rootN a :: rest =>
        simp only [renderNode] at h
        split at h
        · exact Except.noConfusion h
        · rename_i s₁ cs₁ ins₁ heq₁
          injection h with h'
          injection h' with h1 h2
          injection h2 with h3 h4
          rw [insSetHaFalse ins ha] at heq₁
          exact h4.symm.trans (renderListF_ins _ ih _ _ _ _ _ _ hnei ha heq₁)

/-- A loader with one template file, `parent.html`, holding a
delimiter-bearing parent source. -/
def pLoader : Loader := fun n => if n = "parent.html" then some "b{{ 1 }}" else none

/-- C7, counterexample to the claim as stated: rendering the same
compiled tree twice with the same context does NOT always produce
identical output, because `_Root.render` pops the `_Extends` child from
`children` during the first render.  `{% extends parent.html %}`
compiles to a root whose only child is the extends node; the first
render succeeds with the parent's output, and the second render of the
returned tree raises `IndexError` (the root's `children[0]` no longer
exists). -/
theorem claim_C7_counterexample :
    compileSource "{% extends parent.html %}" = .ok (.rootN [.extendsN "parent.html"]) ∧
    renderNode pLoader 50 (.rootN [.extendsN "parent.html"]) [] initIns =
      .ok (vStr "b1", .rootN [], { has_ancestor := false, block_dicts := [[]] }) ∧
    renderNode pLoader 50 (.rootN []) []
      { has_ancestor := false, block_dicts := [[]] } = .error .indexError :=
  ⟨rfl, rfl, rfl⟩

/-- C7, amended: for a compiled tree that is free of `_Extends` and
`_Include` nodes (outside the render-dead `children` of partitioned
`_For`/`_If` nodes), a successful render from the fresh instance state
leaves the instance state unchanged, and re-rendering the returned
(possibly mutated) tree with the same context yields the very same
output value again — the mutation only rewrites children fields that
the next render ignores. -/
theorem claim_C7_amended (loader : Loader) (fuel : Nat) (src : String) (t : Node)
    (ctx : Ctx) (v : Value) (t₂ : Node) (ins₂ : Ins)
    (hc : compileSource src = .ok t)
    (hne : noExtInc (normN t) = true)
    (h : renderNode loader fuel t ctx initIns = .ok (v, t₂, ins₂)) :
    ins₂ = initIns ∧
    ∃ t₃, renderNode loader fuel t₂ ctx ins₂ = .ok (v, t₃, ins₂) ∧
      normN t₃ = normN t₂ := by
  have hins : ins₂ = initIns :=
    renderNode_ins loader fuel t ctx initIns v t₂ ins₂ hne rfl h
  subst hins
  refine ⟨rfl, ?_⟩
  have hnorm : normN t₂ = normN t :=
    renderNode_norm loader fuel t ctx initIns v t₂ initIns hne h
  have h1 := renderNode_selfnorm loader fuel t ctx initIns
  have h2 := renderNode_selfnorm loader fuel t₂ ctx initIns
  rw [hnorm] at h2
  have h3 := outRel_trans h2 (outRel_symm h1)
  rw [h] at h3
  rcases hr : renderNode loader fuel t₂ ctx initIns with e | ⟨v₃, t₃, ins₃⟩
  · rw [hr] at h3
    simp only [outRel] at h3
  · rw [hr] at h3
    simp only [outRel] at h3
    obtain ⟨hv, hi, hn⟩ := h3
    subst hv
    subst hi
    exact ⟨t₃, rfl, hn⟩

/-- Witness for `claim_C7_amended` at the concrete template `{{ x }}`
with an empty context: the first render yields `"None"` and the second
render of the returned tree yields `"None"` again. -/
theorem claim_C7_amended_witness :
    initIns = initIns ∧
    ∃ t₃, renderNode noFiles 50 (Node.rootN [.variableN "x" false []]) [] initIns =
      .ok (vStr "None", t₃, initIns) ∧
      normN t₃ = normN (Node.rootN [.variableN "x" false []]) :=
  claim_C7_amended noFiles 50 "{{ x }}" (.rootN [.variableN "x" false []]) []
    (vStr "None") (.rootN [.variableN "x" false []]) initIns rfl
    (by simp [normN, normList, noExtInc, noExtIncList]) rfl

/-- Number of children of a leading `_For` child of a root (an observer
that witnesses render-time mutation of the `children` field). -/
def rootHeadForChildren : Node → Nat
  | .rootN (.forN _ _ _ _ cs _ :: _) => cs.length
  | _ => 0

/-- C8, counterexample to the claim as stated: rendering DOES mutate a
node's fields.  `_For.render` executes `self.children = main_branch`,
so after rendering
`{% for i in items %}{{ i }}{% empty %}no{% endfor %}` with one item
the for node's `children` list has shrunk from the three compiled
children (variable, empty marker, empty-branch text) to the one-node
main branch. -/
theorem claim_C8_counterexample :
    compileSource "{% for i in items %}{{ i }}{% empty %}no{% endfor %}" =
      .ok (.rootN [.forN "for i in items" "i" "items" (some "endfor")
        [.variableN "i" false [], .emptyN, .text "no"]
        (some ([.variableN "i" false []], [.text "no"]))]) ∧
    renderNode noFiles 50
      (.rootN [.forN "for i in items" "i" "items" (some "endfor")
        [.variableN "i" false [], .emptyN, .text "no"]
        (some ([.variableN "i" false []], [.text "no"]))])
      [("items", vList [vInt 1])] initIns =
      .ok (vStr "1",
        .rootN [.forN "for i in items" "i" "items" (some "endfor")
          [.variableN "i" false []]
          (some ([.variableN "i" false []], [.text "no"]))], initIns) ∧
    rootHeadForChildren (.rootN [.forN "for i in items" "i" "items" (some "endfor")
      [.variableN "i" false [], .emptyN, .text "no"]
      (some ([.variableN "i" false []], [.text "no"]))]) = 3 ∧
    rootHeadForChildren (.rootN [.forN "for i in items" "i" "items" (some "endfor")
      [.variableN "i" false []]
      (some ([.variableN "i" false []], [.text "no"]))]) = 1 :=
  ⟨rfl, rfl, rfl, rfl⟩

/-- C8, amended: the `_Empty`/`_Elif`/`_Else` partitioning into
`branches` does happen at compile time (`exit_scope`), but render is
not mutation-free: `_For.render` reassigns `children` and
`_Root.render` pops a leading `_Extends`.  On extends/include-free
trees the render-time mutation is confined to the render-dead
`children` fields of partitioned `_For`/`_If` nodes: the tree with
those fields erased (`normN`) is exactly preserved by every successful
render. -/
theorem claim_C8_amended (loader : Loader) (fuel : Nat) (src : String) (t : Node)
    (ctx : Ctx) (ins : Ins) (v : Value) (t' : Node) (ins' : Ins)
    (hc : compileSource src = .ok t)
    (hne : noExtInc (normN t) = true)
    (h : renderNode loader fuel t ctx ins = .ok (v, t', ins')) :
    normN t' = normN t :=
  renderNode_norm loader fuel t ctx ins v t' ins' hne h

/-- Witness for `claim_C8_amended` at the for/empty template: the
rendered tree (whose for node's `children` shrank to the main branch)
has the same normal form as the compiled tree. -/
theorem claim_C8_amended_witness :
    normN (Node.rootN [.forN "for i in items" "i" "items" (some "endfor")
        [.variableN "i" false []]
        (some ([.variableN "i" false []], [.text "no"]))]) =
      normN (Node.rootN [.forN "for i in items" "i" "items" (some "endfor")
        [.variableN "i" false [], .emptyN, .text "no"]
        (some ([.variableN "i" false []], [.text "no"]))]) :=
  claim_C8_amended noFiles 50 "{% for i in items %}{{ i }}{% empty %}no{% endfor %}"
    (.rootN [.forN "for i in items" "i" "items" (some "endfor")
      [.variableN "i" false [], .emptyN, .text "no"]
      (some ([.variableN "i" false []], [.text "no"]))])
    [("items", vList [vInt 1])] initIns (vStr "1")
    (.rootN [.forN "for i in items" "i" "items" (some "endfor")
      [.variableN "i" false []]
      (some ([.variableN "i" false []], [.text "no"]))]) initIns rfl
    (by simp [normN, normList, noExtInc, noExtIncList]) rfl

/-! ## C10: the `safe` filter also unescapes -/

/-- C10: the filter registry binds the name `safe` to `do_unescape`, so
applying `safe` does not merely suppress the final escaping: it
replaces the five HTML entities in the (stringified) running value by
their literal characters, as the end-to-end example shows. -/
theorem claim_C10_safe_unescapes :
    FILTERS "safe" = some do_unescape ∧
    (∀ v, do_unescape v [] [] = some (vStr (unescapeStr (pyStr v)))) ∧
    unescapeStr "&amp;&lt;&gt;&quot;&#039;" = "&<>\"'" ∧
    renderOut noFiles 50 "{{ x | safe }}" [("x", vStr "a &amp; b")] = .ok (vStr "a & b") :=
  ⟨rfl, fun _ => rfl, rfl, rfl⟩

end Minim
